import Mathlib

/-!
# CHIP-8 / SUPER-CHIP interpreter: a shallow embedding of `Chip8.h`, `Chip8.cpp`
and `SuperChip.cpp`

Machine integers are natural numbers reduced modulo `2^8` or `2^16` where the
source stores into a `uint8_t` or `uint16_t`.  Arrays are total functions on
`Nat`; every subscript computed from run-time data (memory, pixel vector,
keypad) is checked against the array size, and a subscript outside the array,
which is undefined behaviour in the source, ends the run with
`Stop.outOfRange`.  Register subscripts are instruction nibbles (`decode`
yields `x, y < 16`) or the constants `0` and `0xF`, and are not checked; the
theorems assume `x, y < 16`.  Console output is not part of the state.
-/

namespace Chip8Emu

/-- Reasons for which an operation yields no next state. -/
inductive Stop where
  /-- an array subscript outside its array -/
  | outOfRange
  /-- the call of `exit(0)` at `00FD` -/
  | halted
  deriving DecidableEq, Repr

/-- Array store `a[i] = v`. -/
def setAt {α : Type} (a : Nat → α) (i : Nat) (v : α) : Nat → α :=
  fun j => if j = i then v else a j

/-- Conversion of an `int` value to `uint8_t`. -/
def wrap8 (z : Int) : Nat := (z % 256).toNat

/-- Conversion of an `int` value to `uint16_t`. -/
def wrap16 (z : Int) : Nat := (z % 65536).toNat

/-- A counted `for (int j = j0; ...; ++j)` loop of `k` iterations whose body may
fail or `break` (second component `true`). -/
def forLoop {σ : Type} (body : Nat → σ → Except Stop (σ × Bool)) :
    Nat → Nat → σ → Except Stop σ
  | 0, _, s => .ok s
  | k + 1, j, s =>
    match body j s with
    | .error e => .error e
    | .ok (s1, true) => .ok s1
    | .ok (s1, false) => forLoop body k (j + 1) s1

/-- The record `struct Instruction`. -/
structure Instruction where
  opcode : Nat
  x : Nat
  y : Nat
  n : Nat
  nn : Nat
  nnn : Nat
  deriving DecidableEq, Repr

/-- The record `struct Chip8Stack`: 16 slots and the stack pointer. -/
structure Chip8Stack where
  data : Nat → Nat
  sp : Nat

/-- The method `Chip8Stack::push`. -/
def Chip8Stack.push (st : Chip8Stack) (value : Nat) : Chip8Stack :=
  if st.sp < 16 then
    { data := setAt st.data st.sp (value % 65536), sp := (st.sp + 1) % 256 }
  else st

/-- The method `Chip8Stack::pop`: the returned address and the stack afterwards. -/
def Chip8Stack.pop (st : Chip8Stack) : Nat × Chip8Stack :=
  if st.sp > 0 then
    (st.data (st.sp - 1), { st with sp := st.sp - 1 })
  else (0, st)

/-- The class `Display`: dimensions and the pixel vector of size
`width * height`. -/
structure Display where
  width : Nat
  height : Nat
  display : Nat → Bool

/-- The constructor `Display(width, height)`. -/
def Display.new (width height : Nat) : Display :=
  { width := width, height := height, display := fun _ => false }

/-- Number of elements of the pixel vector. -/
def Display.size (d : Display) : Nat := d.width * d.height

/-- The class `Chip8`.  `lastPressed` is the function-local `static int` of the
`FX0A` case; `rand` lists the values the C library's `rand()` returns from now
on. -/
structure Chip8 where
  pc : Nat
  stack : Chip8Stack
  delay_timer : Nat
  sound_timer : Nat
  super_chip : Bool
  V : Nat → Nat
  memory : Nat → Nat
  index : Nat
  display : Display
  keypad : Nat → Bool
  lastPressed : Int
  rand : Nat → Nat

/-- The 80 bytes of `fontset`. -/
def fontset : List Nat :=
  [0xF0, 0x90, 0x90, 0x90, 0xF0,
   0x20, 0x60, 0x20, 0x20, 0x70,
   0xF0, 0x10, 0xF0, 0x80, 0xF0,
   0xF0, 0x10, 0xF0, 0x10, 0xF0,
   0x90, 0x90, 0xF0, 0x10, 0x10,
   0xF0, 0x80, 0xF0, 0x10, 0xF0,
   0xF0, 0x80, 0xF0, 0x90, 0xF0,
   0xF0, 0x10, 0x20, 0x40, 0x40,
   0xF0, 0x90, 0xF0, 0x90, 0xF0,
   0xF0, 0x90, 0xF0, 0x10, 0xF0,
   0xF0, 0x90, 0xF0, 0x90, 0x90,
   0xE0, 0x90, 0xE0, 0x90, 0xE0,
   0xF0, 0x80, 0x80, 0x80, 0xF0,
   0xE0, 0x90, 0x90, 0x90, 0xE0,
   0xF0, 0x80, 0xF0, 0x80, 0xF0,
   0xF0, 0x80, 0xF0, 0x80, 0x80]

/-- The constructor `Chip8::Chip8()`. -/
def Chip8.new (rand : Nat → Nat) : Chip8 :=
  { pc := 0x200
    stack := { data := fun _ => 0, sp := 0 }
    delay_timer := 0
    sound_timer := 0
    super_chip := false
    V := fun _ => 0
    memory := fun a => if 0x050 ≤ a ∧ a < 0x050 + 80 then fontset.getD (a - 0x050) 0 else 0
    index := 0
    display := Display.new 64 32
    keypad := fun _ => false
    lastPressed := -1
    rand := rand }

/-- The method `Chip8::setMode`. -/
def Chip8.setMode (s : Chip8) (superChip : Bool) : Chip8 :=
  { s with super_chip := superChip }

/-- The method `Chip8::clearDisplay`. -/
def Chip8.clearDisplay (s : Chip8) : Chip8 :=
  { s with display := { s.display with display := fun _ => false } }

/-- Read of `memory[a]`. -/
def Chip8.readMem (s : Chip8) (a : Nat) : Except Stop Nat :=
  if a < 4096 then .ok (s.memory a) else .error .outOfRange

/-- Store `memory[a] = v`. -/
def Chip8.writeMem (s : Chip8) (a v : Nat) : Except Stop Chip8 :=
  if a < 4096 then .ok { s with memory := setAt s.memory a (v % 256) }
  else .error .outOfRange

/-- The method `Chip8::fetch`: the instruction word and the state with the
advanced program counter. -/
def Chip8.fetch (s : Chip8) : Except Stop (Nat × Chip8) :=
  match s.readMem s.pc with
  | .error e => .error e
  | .ok hi =>
    match s.readMem (s.pc + 1) with
    | .error e => .error e
    | .ok lo => .ok ((hi <<< 8) ||| lo, { s with pc := (s.pc + 2) % 65536 })

/-- The method `Chip8::decode`. -/
def decode (instruction : Nat) : Instruction :=
  { opcode := ((instruction &&& 0xF000) >>> 12) % 256
    x := ((instruction &&& 0x0F00) >>> 8) % 256
    y := ((instruction &&& 0x00F0) >>> 4) % 256
    n := (instruction &&& 0x000F) % 256
    nn := instruction &&& 0x00FF
    nnn := instruction &&& 0x0FFF }

/-- The body of `if (pixel) { ... }` in the draw loops: the pixel at `idx` is
flipped, and `VF` becomes 1 when it was set. -/
def Chip8.plot (s : Chip8) (idx : Nat) : Except Stop Chip8 :=
  if idx < s.display.size then
    if s.display.display idx then
      .ok { s with
        V := setAt s.V 0xF 1
        display := { s.display with display := setAt s.display.display idx false } }
    else
      .ok { s with display := { s.display with display := setAt s.display.display idx true } }
  else .error .outOfRange

/-- Body of the column loop of `DXYN`, for the sprite byte `sprite` of row
`row`: plot, then test `x + col >= width` for the `break`. -/
def Chip8.drawCol (sprite x y row : Nat) (col : Nat) (s : Chip8) :
    Except Stop (Chip8 × Bool) :=
  match (if (sprite &&& (0x80 >>> col)) ≠ 0
         then s.plot (s.display.width * (y + row) + x + col) else .ok s) with
  | .error e => .error e
  | .ok s1 => .ok (s1, decide (x + col ≥ s1.display.width))

/-- Body of the row loop of `DXYN`: read the sprite byte, run the column loop,
then test `y + row >= height` for the `break`. -/
def Chip8.drawRow (x y : Nat) (row : Nat) (s : Chip8) : Except Stop (Chip8 × Bool) :=
  match s.readMem (s.index + row) with
  | .error e => .error e
  | .ok sprite =>
    match forLoop (Chip8.drawCol sprite x y row) 8 0 s with
    | .error e => .error e
    | .ok s1 => .ok (s1, decide (y + row ≥ s1.display.height))

/-- Body of the key scan of `FX0A`: the first pressed key is latched. -/
def Chip8.scanKey (j : Nat) (s : Chip8) : Except Stop (Chip8 × Bool) :=
  if s.keypad j then .ok ({ s with lastPressed := (j : Int) }, true) else .ok (s, false)

/-- Body of the `FX55` loop of the extended quirk: `memory[index + j] = V[j]`. -/
def Chip8.storeRegSuper (j : Nat) (s : Chip8) : Except Stop (Chip8 × Bool) :=
  match s.writeMem (s.index + j) (s.V j) with
  | .error e => .error e
  | .ok s1 => .ok (s1, false)

/-- Body of the `FX55` loop of the base quirk: `memory[index] = V[j]; index++`. -/
def Chip8.storeRegBase (j : Nat) (s : Chip8) : Except Stop (Chip8 × Bool) :=
  match s.writeMem s.index (s.V j) with
  | .error e => .error e
  | .ok s1 => .ok ({ s1 with index := (s1.index + 1) % 65536 }, false)

/-- Body of the `FX65` loop of the extended quirk: `V[j] = memory[index + j]`. -/
def Chip8.loadRegSuper (j : Nat) (s : Chip8) : Except Stop (Chip8 × Bool) :=
  match s.readMem (s.index + j) with
  | .error e => .error e
  | .ok v => .ok ({ s with V := setAt s.V j v }, false)

/-- Body of the `FX65` loop of the base quirk: `V[j] = memory[index]; index++`. -/
def Chip8.loadRegBase (j : Nat) (s : Chip8) : Except Stop (Chip8 × Bool) :=
  match s.readMem s.index with
  | .error e => .error e
  | .ok v => .ok ({ s with V := setAt s.V j v, index := (s.index + 1) % 65536 }, false)

/-- The case `0x08` of `Chip8::execute` (register arithmetic), selected by
`i.n`. -/
def Chip8.executeMath (s : Chip8) (i : Instruction) : Chip8 :=
  match i.n with
  | 0x00 => { s with V := setAt s.V i.x (s.V i.y) }
  | 0x01 =>
    let V1 := setAt s.V i.x ((s.V i.x ||| s.V i.y) % 256)
    if !s.super_chip then { s with V := setAt V1 0xF 0 } else { s with V := V1 }
  | 0x02 =>
    let V1 := setAt s.V i.x ((s.V i.x &&& s.V i.y) % 256)
    if !s.super_chip then { s with V := setAt V1 0xF 0 } else { s with V := V1 }
  | 0x03 =>
    let V1 := setAt s.V i.x ((s.V i.x ^^^ s.V i.y) % 256)
    if !s.super_chip then { s with V := setAt V1 0xF 0 } else { s with V := V1 }
  | 0x04 =>
    let x := s.V i.x
    let V1 := setAt s.V i.x ((s.V i.x + s.V i.y) % 256)
    { s with V := setAt V1 0xF (if x + V1 i.y > 0xFF then 1 else 0) }
  | 0x05 =>
    let x := s.V i.x
    let V1 := setAt s.V i.x (wrap8 ((s.V i.x : Int) - (s.V i.y : Int)))
    { s with V := setAt V1 0xF (if x ≥ V1 i.y then 1 else 0) }
  | 0x07 =>
    let x := s.V i.x
    let V1 := setAt s.V i.x (wrap8 ((s.V i.y : Int) - (s.V i.x : Int)))
    { s with V := setAt V1 0xF (if V1 i.y ≥ x then 1 else 0) }
  | 0x06 =>
    let V0 := if !s.super_chip then setAt s.V i.x (s.V i.y) else s.V
    let x := V0 i.x
    let V1 := setAt V0 i.x ((V0 i.x >>> 1) % 256)
    { s with V := setAt V1 0xF ((x &&& 0x01) % 256) }
  | 0x0E =>
    let V0 := if !s.super_chip then setAt s.V i.x (s.V i.y) else s.V
    let x := V0 i.x
    let V1 := setAt V0 i.x ((V0 i.x <<< 1) % 256)
    { s with V := setAt V1 0xF (((x &&& 0x80) >>> 7) % 256) }
  | _ => s

/-- The case `0x0F` of `Chip8::execute`, selected by `i.nn`. -/
def Chip8.executeMisc (s : Chip8) (i : Instruction) : Except Stop Chip8 :=
  match i.nn with
  | 0x07 => .ok { s with V := setAt s.V i.x (s.delay_timer % 256) }
  | 0x15 => .ok { s with delay_timer := s.V i.x % 256 }
  | 0x18 => .ok { s with sound_timer := s.V i.x % 256 }
  | 0x1E => .ok { s with index := (s.index + s.V i.x) % 65536 }
  | 0x0A =>
    if s.lastPressed = -1 then
      match forLoop Chip8.scanKey 16 0 s with
      | .error e => .error e
      | .ok s1 => .ok { s1 with pc := wrap16 ((s1.pc : Int) - 2) }
    else if s.lastPressed < 0 ∨ s.lastPressed ≥ 16 then .error .outOfRange
    else if !s.keypad s.lastPressed.toNat then
      .ok { s with V := setAt s.V i.x (wrap8 s.lastPressed), lastPressed := -1 }
    else .ok { s with pc := wrap16 ((s.pc : Int) - 2) }
  | 0x29 => .ok { s with index := (s.V i.x * 5) % 65536 }
  | 0x33 =>
    match s.writeMem s.index (s.V i.x / 100) with
    | .error e => .error e
    | .ok s1 =>
      match s1.writeMem (s1.index + 1) ((s1.V i.x / 10) % 10) with
      | .error e => .error e
      | .ok s2 => s2.writeMem (s2.index + 2) (s2.V i.x % 10)
  | 0x55 =>
    if s.super_chip then forLoop Chip8.storeRegSuper (i.x + 1) 0 s
    else forLoop Chip8.storeRegBase (i.x + 1) 0 s
  | 0x65 =>
    if s.super_chip then forLoop Chip8.loadRegSuper (i.x + 1) 0 s
    else forLoop Chip8.loadRegBase (i.x + 1) 0 s
  | _ => .ok s

/-- The method `Chip8::execute`.  The two diagnostic messages written to the
console (`0NNN`, unknown instruction) leave the state as it is. -/
def Chip8.execute (s : Chip8) (i : Instruction) : Except Stop Chip8 :=
  match i.opcode with
  | 0x00 =>
    match i.nnn with
    | 0x0E0 => .ok s.clearDisplay
    | 0x0EE => .ok { s with pc := s.stack.pop.1, stack := s.stack.pop.2 }
    | _ => .ok s
  | 0x01 => .ok { s with pc := i.nnn }
  | 0x02 => .ok { s with stack := s.stack.push s.pc, pc := i.nnn }
  | 0x03 => .ok (if s.V i.x = i.nn then { s with pc := (s.pc + 2) % 65536 } else s)
  | 0x04 => .ok (if s.V i.x ≠ i.nn then { s with pc := (s.pc + 2) % 65536 } else s)
  | 0x05 => .ok (if s.V i.x = s.V i.y then { s with pc := (s.pc + 2) % 65536 } else s)
  | 0x09 => .ok (if s.V i.x ≠ s.V i.y then { s with pc := (s.pc + 2) % 65536 } else s)
  | 0x06 => .ok { s with V := setAt s.V i.x (i.nn % 256) }
  | 0x07 => .ok { s with V := setAt s.V i.x ((s.V i.x + i.nn) % 256) }
  | 0x0A => .ok { s with index := i.nnn }
  | 0x08 => .ok (s.executeMath i)
  | 0x0B =>
    if s.super_chip then .ok { s with pc := (i.nnn + s.V i.x) % 65536 }
    else .ok { s with pc := (i.nnn + s.V 0) % 65536 }
  | 0x0C =>
    .ok { s with
      V := setAt s.V i.x (if s.rand 0 % 256 ≠ 0 ∧ i.nn ≠ 0 then 1 else 0)
      rand := fun k => s.rand (k + 1) }
  | 0x0D =>
    let x := (s.V i.x % s.display.width) % 256
    let y := (s.V i.y % s.display.height) % 256
    forLoop (Chip8.drawRow x y) i.n 0 { s with V := setAt s.V 0xF 0 }
  | 0x0E =>
    match i.nn with
    | 0x9E =>
      if s.V i.x < 16 then
        .ok (if s.keypad (s.V i.x) then { s with pc := (s.pc + 2) % 65536 } else s)
      else .error .outOfRange
    | 0xA1 =>
      if s.V i.x < 16 then
        .ok (if !s.keypad (s.V i.x) then { s with pc := (s.pc + 2) % 65536 } else s)
      else .error .outOfRange
    | _ => .ok s
  | 0x0F => s.executeMisc i
  | _ => .ok s

/-- The method `Chip8::emulateCycle`: fetch, decode, execute. -/
def Chip8.emulateCycle (s : Chip8) : Except Stop Chip8 :=
  match s.fetch with
  | .error e => .error e
  | .ok (instruction, s1) => s1.execute (decode instruction)

/-- The method `Chip8::updateTimers`: the state after one tick, and whether
`Beep!` was written. -/
def Chip8.updateTimers (s : Chip8) : Chip8 × Bool :=
  let s1 := if s.delay_timer > 0 then { s with delay_timer := s.delay_timer - 1 } else s
  if s1.sound_timer > 0 then
    ({ s1 with sound_timer := s1.sound_timer - 1 }, decide (s1.sound_timer - 1 = 0))
  else (s1, false)

/-- The class `SuperChip`, derived from `Chip8`. -/
structure SuperChip extends Chip8 where
  hiRes : Bool
  RPL : Nat → Nat

/-- The constructor `SuperChip::SuperChip()`. -/
def SuperChip.new (rand : Nat → Nat) : SuperChip :=
  { toChip8 := (Chip8.new rand).setMode true, hiRes := false, RPL := fun _ => 0 }

/-- The method `SuperChip::enableHiRes`. -/
def SuperChip.enableHiRes (s : SuperChip) : SuperChip :=
  { s with hiRes := true, display := Display.new 128 64 }

/-- The method `SuperChip::disableHiRes`. -/
def SuperChip.disableHiRes (s : SuperChip) : SuperChip :=
  { s with hiRes := false, display := Display.new 64 32 }

/-- The library function `std::move_backward` on the pixel vector: the `cnt`
elements from position `first` on are copied, the last one first, to the
positions that end just before `dLast`. -/
def moveBackward (d : Nat → Bool) (first : Nat) : Nat → Nat → (Nat → Bool)
  | 0, _ => d
  | k + 1, dLast => moveBackward (setAt d (dLast - 1) (d (first + k))) first k (dLast - 1)

/-- The library function `std::move` on the pixel vector: the `cnt` elements
from position `first` on are copied, the first one first, to the positions
from `dFirst` on. -/
def moveForward (d : Nat → Bool) : Nat → Nat → Nat → (Nat → Bool)
  | 0, _, _ => d
  | k + 1, first, dFirst => moveForward (setAt d dFirst (d first)) k (first + 1) (dFirst + 1)

/-- The library function `std::fill_n(begin + first, cnt, v)` on the pixel vector. -/
def fillN (d : Nat → Bool) (first cnt : Nat) (v : Bool) : Nat → Bool :=
  fun j => if first ≤ j ∧ j < first + cnt then v else d j

/-- Body of the row loop of `00FB` (scroll right by 4 pixels). -/
def SuperChip.scrollRightRow (y : Nat) (s : SuperChip) : Except Stop (SuperChip × Bool) :=
  let w := s.display.width
  let rowStart := y * w
  if 4 ≤ w ∧ rowStart + w ≤ s.display.size then
    let d1 := moveBackward s.display.display rowStart (w - 4) (rowStart + w)
    .ok ({ s with display := { s.display with display := fillN d1 rowStart 4 false } }, false)
  else .error .outOfRange

/-- Body of the row loop of `00FC` (scroll left by 4 pixels). -/
def SuperChip.scrollLeftRow (y : Nat) (s : SuperChip) : Except Stop (SuperChip × Bool) :=
  let w := s.display.width
  let rowStart := y * w
  if 4 ≤ w ∧ rowStart + w ≤ s.display.size then
    let d1 := moveForward s.display.display (w - 4) (rowStart + 4) rowStart
    .ok ({ s with display := { s.display with display := fillN d1 (rowStart + w - 4) 4 false } },
      false)
  else .error .outOfRange

/-- The pixel step of the 16x16 draw of `SuperChip::execute`. -/
def SuperChip.plot (s : SuperChip) (idx : Nat) : Except Stop SuperChip :=
  match s.toChip8.plot idx with
  | .error e => .error e
  | .ok c => .ok { s with toChip8 := c }

/-- Body of the column loop of `DXY0`. -/
def SuperChip.drawCol16 (sprite x y row : Nat) (col : Nat) (s : SuperChip) :
    Except Stop (SuperChip × Bool) :=
  match (if (sprite &&& (0x80 >>> col)) ≠ 0
         then s.plot (s.display.width * (y + row) + x + col) else .ok s) with
  | .error e => .error e
  | .ok s1 => .ok (s1, false)

/-- Body of the row loop of `DXY0`. -/
def SuperChip.drawRow16 (x y : Nat) (row : Nat) (s : SuperChip) :
    Except Stop (SuperChip × Bool) :=
  match s.toChip8.readMem (s.index + row) with
  | .error e => .error e
  | .ok sprite =>
    match forLoop (SuperChip.drawCol16 sprite x y row) 16 0 s with
    | .error e => .error e
    | .ok s1 => .ok (s1, false)

/-- Body of the `FX75` loop: `V[j] = RPL[j]`. -/
def SuperChip.loadFlag (j : Nat) (s : SuperChip) : Except Stop (SuperChip × Bool) :=
  .ok ({ s with V := setAt s.V j (s.RPL j) }, false)

/-- Body of the `FX85` loop: `RPL[j] = V[j]`. -/
def SuperChip.storeFlag (j : Nat) (s : SuperChip) : Except Stop (SuperChip × Bool) :=
  .ok ({ s with RPL := setAt s.RPL j (s.V j) }, false)

/-- The call `Chip8::execute(i)` at the end of `SuperChip::execute`. -/
def SuperChip.executeBase (s : SuperChip) (i : Instruction) : Except Stop SuperChip :=
  match s.toChip8.execute i with
  | .error e => .error e
  | .ok c => .ok { s with toChip8 := c }

/-- The method `SuperChip::execute`. -/
def SuperChip.execute (s : SuperChip) (i : Instruction) : Except Stop SuperChip :=
  match i.opcode with
  | 0x00 =>
    if i.x = 0 then
      match i.nn with
      | 0xFB => forLoop SuperChip.scrollRightRow s.display.height 0 s
      | 0xFC => forLoop SuperChip.scrollLeftRow s.display.height 0 s
      | 0xFD => .error .halted
      | 0xFE => .ok s.disableHiRes
      | 0xFF => .ok s.enableHiRes
      | _ =>
        if i.y = 0xC then
          if s.display.width * i.n ≤ s.display.size then
            let d1 := moveBackward s.display.display 0
              (s.display.size - s.display.width * i.n) s.display.size
            .ok { s with
              display := { s.display with display := fillN d1 0 (s.display.width * i.n) false } }
          else .error .outOfRange
        else s.executeBase i
    else s.executeBase i
  | 0x0D =>
    if i.n = 0 then
      let x := (s.V i.x % s.display.width) % 256
      let y := (s.V i.y % s.display.height) % 256
      forLoop (SuperChip.drawRow16 x y) 16 0 s
    else s.executeBase i
  | 0x0F =>
    match i.nn with
    | 0x30 => .ok { s with index := (s.V i.x * 10) % 65536 }
    | 0x75 => forLoop SuperChip.loadFlag (min i.x 8) 0 s
    | 0x85 => forLoop SuperChip.storeFlag (min (i.x + 1) 8) 0 s
    | _ => s.executeBase i
  | _ => s.executeBase i

/-- Registers, memory bytes and timers are 8-bit values; the program counter,
the index register and the stack slots are 16-bit values. -/
structure Chip8.WF (s : Chip8) : Prop where
  V_lt : ∀ r, s.V r < 256
  memory_lt : ∀ a, s.memory a < 256
  pc_lt : s.pc < 65536
  index_lt : s.index < 65536
  delay_lt : s.delay_timer < 256
  sound_lt : s.sound_timer < 256
  stack_lt : ∀ k, s.stack.data k < 65536

/-- The instruction is a register-arithmetic instruction `8XYn` with register
selectors `X`, `Y` in `0..15`. -/
def Instruction.IsMath (i : Instruction) (n : Nat) : Prop :=
  i.opcode = 8 ∧ i.n = n ∧ i.x < 16 ∧ i.y < 16

/-- A register file given by the list of its first values, `0` elsewhere. -/
def regs (l : List Nat) : Nat → Nat := fun r => l.getD r 0

/-- A freshly constructed base machine whose registers hold `l`. -/
def baseWith (l : List Nat) : Chip8 :=
  { Chip8.new (fun _ => 0) with V := regs l }

/-- A freshly constructed extended machine whose registers hold `l`. -/
def superWith (l : List Nat) : SuperChip :=
  { SuperChip.new (fun _ => 0) with V := regs l }

instance (i : Instruction) (n : Nat) : Decidable (i.IsMath n) :=
  inferInstanceAs (Decidable (i.opcode = 8 ∧ i.n = n ∧ i.x < 16 ∧ i.y < 16))

/-- The effect of `Chip8.plot` at a position inside the pixel vector. -/
def Chip8.flip (s : Chip8) (idx : Nat) : Chip8 :=
  if s.display.display idx then
    { s with
      V := setAt s.V 0xF 1
      display := { s.display with display := setAt s.display.display idx false } }
  else
    { s with display := { s.display with display := setAt s.display.display idx true } }

/-- The effect of plotting at the positions of `l`, in order. -/
def Chip8.flipAll (s : Chip8) : List Nat → Chip8
  | [] => s
  | idx :: l => (s.flip idx).flipAll l

/-- Whether plotting at the positions of `l`, in order, starting from the
pixels `d`, meets a set pixel. -/
def collides (d : Nat → Bool) : List Nat → Bool
  | [] => false
  | idx :: l => d idx || collides (setAt d idx (!d idx)) l

/-- The positions plotted by `k` iterations of the column loop of `DXYN` from
column `col` on, for a display of width `w`. -/
def colPlots (w sprite x y row : Nat) : Nat → Nat → List Nat
  | 0, _ => []
  | k + 1, col =>
    (if (sprite &&& (0x80 >>> col)) ≠ 0 then [w * (y + row) + x + col] else []) ++
      (if x + col ≥ w then [] else colPlots w sprite x y row k (col + 1))

/-- The positions plotted by `k` iterations of the row loop of `DXYN` from row
`row` on. -/
def rowPlots (w h : Nat) (mem : Nat → Nat) (index x y : Nat) : Nat → Nat → List Nat
  | 0, _ => []
  | k + 1, row =>
    colPlots w (mem (index + row)) x y row 8 0 ++
      (if y + row ≥ h then [] else rowPlots w h mem index x y k (row + 1))

/-- The sprite bytes read by `k` iterations of the row loop of `DXYN` from row
`row` on lie in memory. -/
def rowReadsOk (h index y : Nat) : Nat → Nat → Bool
  | 0, _ => true
  | k + 1, row =>
    decide (index + row < 4096) && (decide (y + row ≥ h) || rowReadsOk h index y k (row + 1))

/-- The horizontal start position of `DXYN`. -/
def Chip8.drawX (s : Chip8) (i : Instruction) : Nat := (s.V i.x % s.display.width) % 256

/-- The vertical start position of `DXYN`. -/
def Chip8.drawY (s : Chip8) (i : Instruction) : Nat := (s.V i.y % s.display.height) % 256

/-- The positions plotted by `DXYN`, in order. -/
def Chip8.drawPlots (s : Chip8) (i : Instruction) : List Nat :=
  rowPlots s.display.width s.display.height s.memory s.index (s.drawX i) (s.drawY i) i.n 0

/-- No subscript of `DXYN` is outside the memory or the pixel vector. -/
def Chip8.drawInRange (s : Chip8) (i : Instruction) : Bool :=
  rowReadsOk s.display.height s.index (s.drawY i) i.n 0 &&
    (s.drawPlots i).all (fun idx => decide (idx < s.display.size))

/-- Bit `7 - c` of the sprite byte `b`, the one drawn in column `c`. -/
def spriteBit (b c : Nat) : Bool := (b >>> (7 - c)) % 2 == 1

/-- The pixel in column `col` of row `row`. -/
def Display.pixel (d : Display) (col row : Nat) : Bool := d.display (d.width * row + col)

/-- The state `s` with the index register at `addr` and the bytes `bytes`
stored from `addr` on. -/
def Chip8.withSprite (s : Chip8) (addr : Nat) (bytes : List Nat) : Chip8 :=
  { s with
    index := addr
    memory := fun a =>
      if addr ≤ a ∧ a < addr + bytes.length then bytes.getD (a - addr) 0 else s.memory a }

/-- The instruction is a draw `DXYN` with `X, Y` in `0..15` whose sprite lies
wholly inside the display of `s`, at `(VX mod width, VY mod height)`, and whose
`N` sprite bytes lie in memory. -/
def Chip8.SpriteInside (s : Chip8) (i : Instruction) : Prop :=
  i.opcode = 0xD ∧ i.x < 16 ∧ i.y < 16 ∧
    s.V i.x % s.display.width + 8 ≤ s.display.width ∧
    s.V i.y % s.display.height + i.n ≤ s.display.height ∧
    s.index + i.n ≤ 4096

instance (s : Chip8) (i : Instruction) : Decidable (s.SpriteInside i) :=
  inferInstanceAs (Decidable (i.opcode = 0xD ∧ i.x < 16 ∧ i.y < 16 ∧
    s.V i.x % s.display.width + 8 ≤ s.display.width ∧
    s.V i.y % s.display.height + i.n ≤ s.display.height ∧
    s.index + i.n ≤ 4096))

/-- The instruction is a draw `DXYN` whose coordinate registers `VX`, `VY` are
not the flag register. -/
def Instruction.IsDraw (i : Instruction) : Prop :=
  i.opcode = 0xD ∧ i.x < 0xF ∧ i.y < 0xF

instance (i : Instruction) : Decidable i.IsDraw :=
  inferInstanceAs (Decidable (i.opcode = 0xD ∧ i.x < 0xF ∧ i.y < 0xF))

/-- A base machine with `V0 = 2`, `V1 = 3`, `I = 0x300` and the sprite bytes
`0xFF, 0x81, 0x3C` at `0x300`. -/
def spriteBase : Chip8 := (baseWith [2, 3]).withSprite 0x300 [0xFF, 0x81, 0x3C]

/-- An extended machine with the registers, index register and memory of
`spriteBase`. -/
def spriteSuper : SuperChip :=
  { superWith [2, 3] with
    toChip8 := (superWith [2, 3]).toChip8.withSprite 0x300 [0xFF, 0x81, 0x3C] }

/-- A base machine with `V0 = 60`, `V1 = 0`, `I = 0x300` and the sprite byte
`0xFF` at `0x300`. -/
def edgeBase : Chip8 := (baseWith [60, 0]).withSprite 0x300 [0xFF]

/-- The state `spriteBase` with the pixel `(2, 3)` set and `VF = 7`. -/
def spriteBaseLit : Chip8 :=
  { spriteBase with
    V := setAt spriteBase.V 0xF 7
    display := { spriteBase.display with display := fun idx => decide (idx = 64 * 3 + 2) } }

/-- The state `spriteSuper` with the pixel `(2, 3)` set and `VF = 7`. -/
def spriteSuperLit : SuperChip :=
  { spriteSuper with toChip8 :=
    { spriteSuper.toChip8 with
      V := setAt spriteSuper.V 0xF 7
      display := { spriteSuper.display with display := fun idx => decide (idx = 64 * 3 + 2) } } }

/-- A base machine with `V0 = 0`, `V1 = 31`, `I = 0x300` and the sprite bytes
`0xFF, 0xFF` at `0x300`. -/
def bottomBase : Chip8 := (baseWith [0, 31]).withSprite 0x300 [0xFF, 0xFF]

/-- The positions plotted by `k` iterations of the column loop of `DXY0` from
column `col` on. -/
def colPlots16 (w sprite x y row : Nat) : Nat → Nat → List Nat
  | 0, _ => []
  | k + 1, col =>
    (if (sprite &&& (0x80 >>> col)) ≠ 0 then [w * (y + row) + x + col] else []) ++
      colPlots16 w sprite x y row k (col + 1)

/-- The positions plotted by `k` iterations of the row loop of `DXY0` from row
`row` on. -/
def rowPlots16 (w : Nat) (mem : Nat → Nat) (index x y : Nat) : Nat → Nat → List Nat
  | 0, _ => []
  | k + 1, row =>
    colPlots16 w (mem (index + row)) x y row 16 0 ++ rowPlots16 w mem index x y k (row + 1)

/-- The positions plotted by `DXY0` on the extended machine, in order. -/
def Chip8.drawPlots16 (s : Chip8) (i : Instruction) : List Nat :=
  rowPlots16 s.display.width s.memory s.index (s.drawX i) (s.drawY i) 16 0

/-- No subscript of `DXY0` is outside the memory or the pixel vector. -/
def Chip8.drawInRange16 (s : Chip8) (i : Instruction) : Bool :=
  decide (s.index + 16 ≤ 4096) &&
    (s.drawPlots16 i).all (fun idx => decide (idx < s.display.size))

/-- The instruction is `FXnn` with the register selector `X` in `0..15`. -/
def Instruction.IsMisc (i : Instruction) (nn : Nat) : Prop :=
  i.opcode = 0xF ∧ i.nn = nn ∧ i.x < 16

instance (i : Instruction) (nn : Nat) : Decidable (i.IsMisc nn) :=
  inferInstanceAs (Decidable (i.opcode = 0xF ∧ i.nn = nn ∧ i.x < 16))

/-- The random source that returns 6 on every call. -/
def randSix : Nat → Nat := fun _ => 6

/-- A base machine with `V0 = 255`, `V1 = 1`, `V2 = 2`, `V3 = 3` and
`I = 0x300`. -/
def spriteBaseFF : Chip8 := (baseWith [255, 1, 2, 3]).withSprite 0x300 []

/-- An extended machine with the registers and index register of
`spriteBaseFF`. -/
def spriteSuperFF : SuperChip :=
  { superWith [255, 1, 2, 3] with
    toChip8 := (superWith [255, 1, 2, 3]).toChip8.withSprite 0x300 [] }

/-- The memory after the three stores of `FX33`. -/
def Chip8.bcdMemory (s : Chip8) (i : Instruction) : Nat → Nat :=
  setAt (setAt (setAt s.memory s.index (s.V i.x / 100)) (s.index + 1) (s.V i.x / 10 % 10))
    (s.index + 2) (s.V i.x % 10)

/-- The memory after the `k` stores `memory[a] = V[j]`, `memory[a + 1] =
V[j + 1]`, ... of the `FX55` loops. -/
def storedMem (V mem : Nat → Nat) : Nat → Nat → Nat → (Nat → Nat)
  | _, _, 0 => mem
  | a, j, k + 1 => storedMem V (setAt mem a (V j % 256)) (a + 1) (j + 1) k

/-- The registers after the `k` loads `V[j] = memory[a]`, `V[j + 1] =
memory[a + 1]`, ... of the `FX65` loops. -/
def loadedRegs (mem V : Nat → Nat) : Nat → Nat → Nat → (Nat → Nat)
  | _, _, 0 => V
  | a, j, k + 1 => loadedRegs mem (setAt V j (mem a)) (a + 1) (j + 1) k

/-- The two `std::runtime_error` exceptions of `Chip8::loadROM`. -/
inductive LoadError where
  /-- the file cannot be opened -/
  | cannotOpen
  /-- the file has more than 3584 bytes -/
  | tooLarge
  deriving DecidableEq, Repr

/-- The method `Chip8::loadROM`, on the bytes of the file at `path` (`none`
when the file cannot be opened): the state afterwards and the exception
thrown, if any.  `rom.read` copies the bytes to `memory[0x200]` onwards. -/
def Chip8.loadROM (s : Chip8) (rom : Option (List Nat)) : Chip8 × Option LoadError :=
  match rom with
  | none => (s, some .cannotOpen)
  | some bytes =>
    if bytes.length > 3584 then (s, some .tooLarge)
    else
      ({ s with memory := fun a =>
          if 0x200 ≤ a ∧ a < 0x200 + bytes.length then bytes.getD (a - 0x200) 0 % 256
          else s.memory a }, none)

/-- The method `Chip8::emulateCycle` on a `SuperChip` object, where `execute`
is the override. -/
def SuperChip.emulateCycle (t : SuperChip) : Except Stop SuperChip :=
  match t.toChip8.fetch with
  | .error e => .error e
  | .ok (instruction, c) => ({ t with toChip8 := c } : SuperChip).execute (decode instruction)

/-- The two bytes at the program counter are the call instruction `2NNN`, they
lie in memory, and the stack holds fewer than 16 entries. -/
def Chip8.CallAt (s : Chip8) (nnn : Nat) : Prop :=
  s.pc + 1 < 4096 ∧ s.memory s.pc = 0x20 + nnn / 256 ∧ s.memory (s.pc + 1) = nnn % 256 ∧
    s.stack.sp < 16

instance (s : Chip8) (nnn : Nat) : Decidable (s.CallAt nnn) :=
  inferInstanceAs (Decidable (s.pc + 1 < 4096 ∧ s.memory s.pc = 0x20 + nnn / 256 ∧
    s.memory (s.pc + 1) = nnn % 256 ∧ s.stack.sp < 16))

/-- The stack after pushing the values of the list, first one first. -/
def Chip8Stack.pushAll (st : Chip8Stack) : List Nat → Chip8Stack
  | [] => st
  | v :: vs => (st.push v).pushAll vs

/-- The values returned by `k` calls of `pop`, in order, and the stack
afterwards. -/
def Chip8Stack.popN (st : Chip8Stack) : Nat → List Nat × Chip8Stack
  | 0 => ([], st)
  | k + 1 => (st.pop.1 :: (st.pop.2.popN k).1, (st.pop.2.popN k).2)

/-- A base machine with the call `2345` at the program counter `0x200` and two
return addresses on the stack. -/
def callBase : Chip8 :=
  { (baseWith []).withSprite 0x200 [0x23, 0x45] with
    stack := { data := regs [0x111, 0x222], sp := 2 } }

/-- An extended machine in the state of `callBase`. -/
def callSuper : SuperChip :=
  { superWith [] with
    toChip8 := { (superWith []).toChip8.withSprite 0x200 [0x23, 0x45] with
      stack := { data := regs [0x111, 0x222], sp := 2 } } }

/-- An operation on the return-address stack. -/
inductive StackOp where
  | push (value : Nat)
  | pop
  deriving DecidableEq, Repr

/-- The stack after a sequence of pushes and pops, first one first. -/
def Chip8Stack.run (st : Chip8Stack) : List StackOp → Chip8Stack
  | [] => st
  | .push v :: ops => (st.push v).run ops
  | .pop :: ops => st.pop.2.run ops

/-- The stack with the sixteen entries `0x200, 0x202, ...`. -/
def fullStack : Chip8Stack := { data := fun k => 0x200 + 2 * k, sp := 16 }

/-- The stack without entries, as constructed. -/
def emptyStack : Chip8Stack := { data := fun _ => 0, sp := 0 }

/-- The state after `n` calls of `Chip8::updateTimers`. -/
def Chip8.ticks (s : Chip8) : Nat → Chip8
  | 0 => s
  | n + 1 => (s.updateTimers.1).ticks n

/-- A base machine as constructed, with the delay timer at 3 and the sound
timer at 1. -/
def timerBase : Chip8 := { baseWith [] with delay_timer := 3, sound_timer := 1 }

/-- The effect of a skip instruction: the program counter advances by 2, in
16-bit arithmetic, when the condition holds, and nothing changes otherwise. -/
def Chip8.skipIf (s : Chip8) (c : Bool) : Chip8 :=
  if c then { s with pc := (s.pc + 2) % 65536 } else s

/-- The instruction has the opcode `op` and register selectors `X`, `Y` in
`0..15`. -/
def Instruction.HasOp (i : Instruction) (op : Nat) : Prop :=
  i.opcode = op ∧ i.x < 16 ∧ i.y < 16

instance (i : Instruction) (op : Nat) : Decidable (i.HasOp op) :=
  inferInstanceAs (Decidable (i.opcode = op ∧ i.x < 16 ∧ i.y < 16))

/-- The instruction is `EXnn` with the register selector `X` in `0..15`. -/
def Instruction.IsKey (i : Instruction) (nn : Nat) : Prop :=
  i.opcode = 0xE ∧ i.nn = nn ∧ i.x < 16

instance (i : Instruction) (nn : Nat) : Decidable (i.IsKey nn) :=
  inferInstanceAs (Decidable (i.opcode = 0xE ∧ i.nn = nn ∧ i.x < 16))

/-- An extended machine as constructed, with `V0 = V1 = 0`, `I = 0x300` and 32
bytes `0xFF` from `0x300` on. -/
def bigSpriteSuper : SuperChip :=
  { superWith [] with
    toChip8 := (superWith []).toChip8.withSprite 0x300 (List.replicate 32 0xFF) }

/-- The first pressed key among the `k` keys from `j` on, if any: the key the
scan loop of `FX0A` latches. -/
def firstPressed (kp : Nat → Bool) : Nat → Nat → Option Nat
  | 0, _ => none
  | k + 1, j => if kp j then some j else firstPressed kp k (j + 1)

/-- What the driver in `main` does to a machine: a fetch-decode-execute cycle,
a timer tick, or a write of the keypad. -/
inductive Event where
  | cycle
  | tick
  | keys (kp : Nat → Bool)

/-- The base machine after the events of the list, first one first. -/
def Chip8.drive (s : Chip8) : List Event → Except Stop Chip8
  | [] => .ok s
  | .cycle :: es =>
    match s.emulateCycle with
    | .error e => .error e
    | .ok s1 => s1.drive es
  | .tick :: es => (s.updateTimers.1).drive es
  | .keys kp :: es => ({ s with keypad := kp } : Chip8).drive es

/-- The events of a wait: for each keypad snapshot the driver writes the
keypad and runs one cycle. -/
def waitEvents : List (Nat → Bool) → List Event
  | [] => []
  | kp :: kps => .keys kp :: .cycle :: waitEvents kps

/-- The two bytes at the program counter are the key wait `FX0A` and lie in
memory. -/
def Chip8.KeyWaitAt (s : Chip8) (x : Nat) : Prop :=
  s.pc + 1 < 4096 ∧ s.memory s.pc = 0xF0 + x ∧ s.memory (s.pc + 1) = 0x0A ∧ x < 16

instance (s : Chip8) (x : Nat) : Decidable (s.KeyWaitAt x) :=
  inferInstanceAs (Decidable (s.pc + 1 < 4096 ∧ s.memory s.pc = 0xF0 + x ∧
    s.memory (s.pc + 1) = 0x0A ∧ x < 16))

/-- The value of `lastPressed` after the scan loop of `FX0A` started without a
latched key: the lowest pressed key, or still `-1`. -/
def latchOf (kp : Nat → Bool) : Int :=
  match firstPressed kp 16 0 with
  | some key => (key : Int)
  | none => -1

/-- The keypad on which exactly the keys of the list are pressed. -/
def keysDown (l : List Nat) : Nat → Bool := fun j => decide (j ∈ l)

/-- A base machine with the key wait `F30A` at the program counter `0x200` and
no latched key. -/
def keyBase : Chip8 := (baseWith []).withSprite 0x200 [0xF3, 0x0A]

/-- The state `keyBase` after the fetch of `F30A`, with the latch `latch` and
the keys of `l` pressed. -/
def keyFetched (latch : Int) (l : List Nat) : Chip8 :=
  { keyBase with pc := 0x202, lastPressed := latch, keypad := keysDown l }

/-- The pixels after the row starting at `rowStart` was scrolled right by
the body of the `00FB` loop. -/
def rowRightPixels (d : Nat → Bool) (w rowStart : Nat) : Nat → Bool :=
  fillN (moveBackward d rowStart (w - 4) (rowStart + w)) rowStart 4 false

/-- The display after row `y` was scrolled right. -/
def Display.rowRight (d : Display) (y : Nat) : Display :=
  { d with display := rowRightPixels d.display d.width (y * d.width) }

/-- The display after the rows `y, y + 1, ...` (`k` of them) were scrolled
right. -/
def Display.rowsRight (d : Display) : Nat → Nat → Display
  | 0, _ => d
  | k + 1, y => (d.rowRight y).rowsRight k (y + 1)

/-- The pixels after the row starting at `rowStart` was scrolled left by
the body of the `00FC` loop. -/
def rowLeftPixels (d : Nat → Bool) (w rowStart : Nat) : Nat → Bool :=
  fillN (moveForward d (w - 4) (rowStart + 4) rowStart) (rowStart + w - 4) 4 false

/-- The display after row `y` was scrolled left. -/
def Display.rowLeft (d : Display) (y : Nat) : Display :=
  { d with display := rowLeftPixels d.display d.width (y * d.width) }

/-- The display after the rows `y, y + 1, ...` (`k` of them) were scrolled
left. -/
def Display.rowsLeft (d : Display) : Nat → Nat → Display
  | 0, _ => d
  | k + 1, y => (d.rowLeft y).rowsLeft k (y + 1)

/-- The program of a draw `D001` followed by a jump to itself, and nothing
else. -/
def bareDrawLoop : List Nat := [0xD0, 0x01, 0x12, 0x02]

/-- The program that points the index register at its own last byte `0xFF`,
draws it with `D001` and then jumps to itself. -/
def spriteDrawLoop : List Nat := [0xA2, 0x06, 0xD0, 0x01, 0x12, 0x04, 0xFF]

/-- A freshly constructed base machine after `loadROM` read the bytes `rom`. -/
def Chip8.loaded (rand : Nat → Nat) (rom : List Nat) : Chip8 :=
  ((Chip8.new rand).loadROM (some rom)).1

/-- The machine sits on a jump to itself at address `a`, with a 64x32 display
whose first `n` pixels are set and all others clear. -/
def Chip8.LoopAt (s : Chip8) (a n : Nat) : Prop :=
  s.pc = a ∧ s.memory a = 0x10 + a / 256 ∧ s.memory (a + 1) = a % 256 ∧
    s.display.width = 64 ∧ s.display.height = 32 ∧
    ∀ idx, s.display.display idx = decide (idx < n)

/-- The state of `spriteDrawLoop` after its first instruction. -/
def Chip8.afterIndex (rand : Nat → Nat) : Chip8 :=
  { Chip8.loaded rand spriteDrawLoop with pc := 0x202, index := 0x206 }

/-- The state of `spriteDrawLoop` when the draw is executed. -/
def Chip8.atDraw (rand : Nat → Nat) : Chip8 :=
  { Chip8.loaded rand spriteDrawLoop with pc := 0x204, index := 0x206 }

/-- The memory `mem` with the bytes `rom` copied to `0x200` on. -/
def romMemory (mem : Nat → Nat) (rom : List Nat) : Nat → Nat :=
  fun a => if 0x200 ≤ a ∧ a < 0x200 + rom.length then rom.getD (a - 0x200) 0 % 256 else mem a

/-- The state of `spriteDrawLoop` after the draw. -/
def Chip8.drawn (rand : Nat → Nat) : Chip8 :=
  ({ Chip8.atDraw rand with V := setAt (Chip8.atDraw rand).V 0xF 0 } : Chip8).flipAll
    [0, 1, 2, 3, 4, 5, 6, 7]

/-- The state of `bareDrawLoop` after the draw. -/
def Chip8.bareDrawn (rand : Nat → Nat) : Chip8 :=
  { Chip8.loaded rand bareDrawLoop with
    pc := 0x202, V := setAt (Chip8.loaded rand bareDrawLoop).V 0xF 0 }

/-- One hexadecimal digit in upper case, as `std::hex << std::uppercase`
writes it. -/
def hexDigit (d : Nat) : Char := if d < 10 then Char.ofNat (48 + d) else Char.ofNat (55 + d)

/-- The hexadecimal digits of `v`, most significant first, in front of `acc`;
the fuel bounds the number of digits. -/
def hexDigits : Nat → Nat → List Char → List Char
  | 0, _, acc => acc
  | fuel + 1, v, acc =>
    if v < 16 then hexDigit v :: acc else hexDigits fuel (v / 16) (hexDigit (v % 16) :: acc)

/-- The characters that `ss << std::hex << std::uppercase << std::setfill('0')
<< std::setw(4) << v` writes for an `int` `v` (at most 8 digits): the digits of
`v`, padded on the left with `0` to four characters. -/
def hexString (v : Nat) : List Char :=
  List.replicate (4 - (hexDigits 8 v []).length) '0' ++ hexDigits 8 v []

/-- The characters of `instructionString` in `Chip8::disassemble`. -/
def Instruction.hexText (i : Instruction) : List Char :=
  hexString ((i.opcode <<< 12) ||| (i.x <<< 8) ||| (i.y <<< 4) ||| i.n)

/-- The branch of `Chip8::disassemble` for the first character `8`; `t1` and
`t2` are `std::string(1, instructionString[1])` and the same for `[2]`. -/
def disassembleMath (s : List Char) : String :=
  let t1 := String.singleton (s.getD 1 (Char.ofNat 0))
  let t2 := String.singleton (s.getD 2 (Char.ofNat 0))
  let c3 := s.getD 3 (Char.ofNat 0)
  if c3 = '0' then "V(0x" ++ t1 ++ ") := V(0x" ++ t2 ++ ")"
  else if c3 = '1' then
    "V(0x" ++ t1 ++ ") := V(0x" ++ t1 ++ ") OR V(0x" ++ t2 ++ ")"
  else if c3 = '2' then
    "V(0x" ++ t1 ++ ") := V(0x" ++ t1 ++ ") AND V(0x" ++ t2 ++ ")"
  else if c3 = '3' then
    "V(0x" ++ t1 ++ ") := V(0x" ++ t1 ++ ") XOR V(0x" ++ t2 ++ ")"
  else if c3 = '4' then
    "V(0x" ++ t1 ++ ") := V(0x" ++ t1 ++ ") + V(0x" ++ t2 ++ ")"
  else if c3 = '5' then
    "V(0x" ++ t1 ++ ") := V(0x" ++ t1 ++ ") - V(0x" ++ t2 ++ ")"
  else if c3 = '6' then "V(0x" ++ t1 ++ ") := V(0x" ++ t1 ++ ") >> 1"
  else if c3 = '7' then
    "V(0x" ++ t1 ++ ") := V(0x" ++ t2 ++ ") - V(0x" ++ t1 ++ ")"
  else if c3 = 'E' then "V(0x" ++ t1 ++ ") := V(0x" ++ t1 ++ ") << 1"
  else ""

/-- The branch of `Chip8::disassemble` for the first character `E`. -/
def disassembleKey (s : List Char) : String :=
  let t1 := String.singleton (s.getD 1 (Char.ofNat 0))
  if s.drop 2 = ['9', 'E'] then "skip if key V(0x" ++ t1 ++ ") pressed"
  else if s.drop 2 = ['A', '1'] then "skip if key V(0x" ++ t1 ++ ") not pressed"
  else ""

/-- The branch of `Chip8::disassemble` for the first character `F`. -/
def disassembleMisc (s : List Char) : String :=
  let t1 := String.singleton (s.getD 1 (Char.ofNat 0))
  if s.drop 2 = ['0', '7'] then "delay store V(0x" ++ t1 ++ ")"
  else if s.drop 2 = ['0', 'A'] then "wait for key V(0x" ++ t1 ++ ")"
  else if s.drop 2 = ['1', '5'] then "delay set V(0x" ++ t1 ++ ")"
  else if s.drop 2 = ['1', '8'] then "sound set V(0x" ++ t1 ++ ")"
  else if s.drop 2 = ['1', 'E'] then "I += V(0x" ++ t1 ++ ")"
  else if s.drop 2 = ['2', '9'] then "I := addr sprite V(0x" ++ t1 ++ ")"
  else if s.drop 2 = ['3', '3'] then "BCD store V(0x" ++ t1 ++ ")"
  else if s.drop 2 = ['5', '5'] then "store V0 to V(0x" ++ t1 ++ ")"
  else if s.drop 2 = ['6', '5'] then "load V0 to V(0x" ++ t1 ++ ")"
  else ""

/-- The method `Chip8::disassemble`: the mnemonic of a decoded instruction, the
empty string when no branch matches. -/
def Chip8.disassemble (i : Instruction) : String :=
  let s := i.hexText
  let c0 := s.getD 0 (Char.ofNat 0)
  let t1 := String.singleton (s.getD 1 (Char.ofNat 0))
  let t2 := String.singleton (s.getD 2 (Char.ofNat 0))
  if s = ['0', '0', 'E', '0'] then "clear"
  else if s = ['0', '0', 'E', 'E'] then "return"
  else if s = ['0', '0', 'F', 'B'] then "scroll-right"
  else if s = ['0', '0', 'F', 'C'] then "scroll-left"
  else if s.take (s.length - 1) = ['0', '0', 'C'] then "scroll-down " ++ toString i.n
  else if s = ['0', '0', 'F', 'D'] then "exit"
  else if s = ['0', '0', 'F', 'E'] then "lores"
  else if s = ['0', '0', 'F', 'F'] then "hires"
  else if c0 = '1' then "jump 0x" ++ String.mk (s.drop 1)
  else if c0 = '2' then "call 0x" ++ String.mk (s.drop 1)
  else if c0 = '3' then "skip if V(0x" ++ t1 ++ ") == 0x" ++ String.mk (s.drop 2)
  else if c0 = '4' then "skip if V(0x" ++ t1 ++ ") != 0x" ++ String.mk (s.drop 2)
  else if c0 = '5' then
    "skip if V(0x" ++ t1 ++ ") == V(0x" ++ t2 ++ ")"
  else if c0 = '6' then "V(0x" ++ t1 ++ ") := 0x" ++ String.mk (s.drop 2)
  else if c0 = '7' then "V(0x" ++ t1 ++ ") += 0x" ++ String.mk (s.drop 2)
  else if c0 = '8' then disassembleMath s
  else if c0 = '9' then
    "skip if V(0x" ++ t1 ++ ") != V(0x" ++ t2 ++ ")"
  else if c0 = 'A' then "I := 0x" ++ String.mk (s.drop 1)
  else if c0 = 'B' then "jump V0 + 0x" ++ String.mk (s.drop 1)
  else if c0 = 'C' then "rand, bitmask V(0x" ++ t1 ++ ")"
  else if c0 = 'D' then
    "draw (" ++ toString i.x ++ ", " ++ toString i.y ++ "), height " ++ toString i.n
  else if c0 = 'E' then disassembleKey s
  else if c0 = 'F' then disassembleMisc s
  else ""

/-- A base machine with `V0 = 60`, `V1 = 31`, `I = 0x300` and the sprite byte
`0xFF` at `0x300`: a sprite at the bottom right corner. -/
def cornerBase : Chip8 := (baseWith [60, 31]).withSprite 0x300 [0xFF]

/-- The characters for which `Chip8::disassemble` has a branch. -/
def MnemonicChars (c0 c1 c2 c3 : Char) : Prop :=
  [c0, c1, c2, c3] ∈ [['0', '0', 'E', '0'], ['0', '0', 'E', 'E'], ['0', '0', 'F', 'B'],
      ['0', '0', 'F', 'C'], ['0', '0', 'F', 'D'], ['0', '0', 'F', 'E'], ['0', '0', 'F', 'F']] ∨
    [c0, c1, c2] = ['0', '0', 'C'] ∨
    c0 ∈ ['1', '2', '3', '4', '5', '6', '7', '9', 'A', 'B', 'C', 'D'] ∨
    (c0 = '8' ∧ c3 ∈ ['0', '1', '2', '3', '4', '5', '6', '7', 'E']) ∨
    (c0 = 'E' ∧ [c2, c3] ∈ [['9', 'E'], ['A', '1']]) ∨
    (c0 = 'F' ∧ [c2, c3] ∈ [['0', '7'], ['0', 'A'], ['1', '5'], ['1', '8'], ['1', 'E'],
      ['2', '9'], ['3', '3'], ['5', '5'], ['6', '5']])

/-- The instruction has nibble fields and is one of the forms for which
`Chip8::disassemble` has a branch: `00E0`, `00EE`, `00FB..00FF`, `00CN`, the
first nibbles `1..7`, `9`, `A..D`, `8XYN` with `N` in `0..7` or `E`, `EX9E`,
`EXA1` and `FXNN` with `NN` in `07, 0A, 15, 18, 1E, 29, 33, 55, 65`. -/
def Instruction.Listed (i : Instruction) : Prop :=
  i.opcode < 16 ∧ i.x < 16 ∧ i.y < 16 ∧ i.n < 16 ∧
  ((i.opcode = 0 ∧ i.x = 0 ∧ (i.y, i.n) ∈ [(0xE, 0), (0xE, 0xE), (0xF, 0xB), (0xF, 0xC),
      (0xF, 0xD), (0xF, 0xE), (0xF, 0xF)]) ∨
    (i.opcode = 0 ∧ i.x = 0 ∧ i.y = 0xC) ∨
    i.opcode ∈ [1, 2, 3, 4, 5, 6, 7, 9, 0xA, 0xB, 0xC, 0xD] ∨
    (i.opcode = 8 ∧ i.n ∈ [0, 1, 2, 3, 4, 5, 6, 7, 0xE]) ∨
    (i.opcode = 0xE ∧ (i.y, i.n) ∈ [(9, 0xE), (0xA, 1)]) ∨
    (i.opcode = 0xF ∧ (i.y, i.n) ∈ [(0, 7), (0, 0xA), (1, 5), (1, 8), (1, 0xE), (2, 9),
      (3, 3), (5, 5), (6, 5)]))

/-- An extended machine with `V0 = V1 = 0`, `VF = 7`, a clear display,
`I = 0x300` and 32 sprite bytes `0xFF` from `0x300` on. -/
def staleFlagSuper : SuperChip :=
  { bigSpriteSuper with
    toChip8 := { bigSpriteSuper.toChip8 with V := setAt bigSpriteSuper.V 0xF 7 } }

/-! ## Elementary facts -/

@[simp] theorem setAt_same {α : Type} (a : Nat → α) (i : Nat) (v : α) : setAt a i v i = v := by
  simp [setAt]

theorem setAt_of_ne {α : Type} (a : Nat → α) {i j : Nat} (v : α) (h : j ≠ i) :
    setAt a i v j = a j := by
  simp [setAt, h]

theorem wrap8_cast (z : Int) : ((wrap8 z : Nat) : Int) = z % 256 := by
  unfold wrap8
  exact Int.toNat_of_nonneg (Int.emod_nonneg z (by decide))

theorem chip8_execute_math (s : Chip8) (i : Instruction) (hop : i.opcode = 8) :
    s.execute i = .ok (s.executeMath i) := by
  simp [Chip8.execute, hop]

theorem superChip_execute_math (t : SuperChip) (i : Instruction) (hop : i.opcode = 8) :
    t.execute i = .ok { t with toChip8 := t.toChip8.executeMath i } := by
  simp [SuperChip.execute, SuperChip.executeBase, Chip8.execute, hop]

/-! ## Register arithmetic `8XYn` -/

theorem executeMath_add (s : Chip8) (i : Instruction) (hn : i.n = 4) (hxy : i.x ≠ i.y) :
    (s.executeMath i).V 0xF = (if s.V i.x + s.V i.y > 255 then 1 else 0) ∧
    (i.x ≠ 0xF → (s.executeMath i).V i.x = (s.V i.x + s.V i.y) % 256) := by
  constructor
  · simp [Chip8.executeMath, hn, setAt_of_ne _ _ (Ne.symm hxy)]
  · intro hx
    simp [Chip8.executeMath, hn, setAt_of_ne _ _ hx]

theorem executeMath_sub (s : Chip8) (i : Instruction) (hn : i.n = 5) :
    (s.executeMath i).V 0xF = (if s.V i.x ≥ s.V i.y then 1 else 0) ∧
    (i.x ≠ 0xF →
      ((s.executeMath i).V i.x : Int) = ((s.V i.x : Int) - (s.V i.y : Int)) % 256) := by
  constructor
  · by_cases hxy : i.y = i.x
    · simp [Chip8.executeMath, hn, hxy, wrap8]
    · simp [Chip8.executeMath, hn, setAt_of_ne _ _ hxy]
  · intro hx
    simp [Chip8.executeMath, hn, setAt_of_ne _ _ hx, wrap8_cast]

theorem executeMath_subn (s : Chip8) (i : Instruction) (hn : i.n = 7) (hxy : i.x ≠ i.y) :
    (s.executeMath i).V 0xF = (if s.V i.y ≥ s.V i.x then 1 else 0) ∧
    (i.x ≠ 0xF →
      ((s.executeMath i).V i.x : Int) = ((s.V i.y : Int) - (s.V i.x : Int)) % 256) := by
  constructor
  · simp [Chip8.executeMath, hn, setAt_of_ne _ _ (Ne.symm hxy)]
  · intro hx
    simp [Chip8.executeMath, hn, setAt_of_ne _ _ hx, wrap8_cast]

/-- C1, at the instruction `8004` with `V0 = 128`: the sum `128 + 128 = 256`
exceeds 255, yet `execute` leaves `VF = 0` (and `V0 = 0`), because the flag is
computed from `V[i.y]` after `V[i.x]`, the same register, has been
overwritten. -/
theorem add_8XY4_same_register_flag :
    (128 + 128 > 255) ∧
    ∃ s1, (baseWith [128]).execute (decode 0x8004) = .ok s1 ∧ s1.V 0 = 0 ∧ s1.V 0xF = 0 := by
  refine ⟨by decide, _, rfl, ?_, ?_⟩ <;> decide

/-- With distinct registers `X ≠ Y` the add instruction `8XY4` sets `VF` to 1
exactly when the sum exceeds 255 and stores the sum modulo 256, on the base
and on the extended machine. -/
theorem add_8XY4_distinct_registers (s : Chip8) (t : SuperChip) (i : Instruction)
    (hi : i.IsMath 4) (hxy : i.x ≠ i.y) :
    (∃ s1, s.execute i = .ok s1 ∧
      s1.V 0xF = (if s.V i.x + s.V i.y > 255 then 1 else 0) ∧
      (i.x ≠ 0xF → s1.V i.x = (s.V i.x + s.V i.y) % 256)) ∧
    (∃ t1, t.execute i = .ok t1 ∧
      t1.V 0xF = (if t.V i.x + t.V i.y > 255 then 1 else 0) ∧
      (i.x ≠ 0xF → t1.V i.x = (t.V i.x + t.V i.y) % 256)) := by
  obtain ⟨hop, hn, -, -⟩ := hi
  exact ⟨⟨_, chip8_execute_math s i hop, executeMath_add s i hn hxy⟩,
    ⟨_, superChip_execute_math t i hop, executeMath_add t.toChip8 i hn hxy⟩⟩

/-- C2, at the instruction `8007` with `V0 = 1`: `VY >= VX` holds (`1 >= 1`),
yet `execute` leaves `VF = 0`, because the flag compares `V[i.y]`, already
overwritten with the difference 0, against the old `VX`. -/
theorem subn_8XY7_same_register_flag :
    (1 ≥ 1) ∧
    ∃ s1, (baseWith [1]).execute (decode 0x8007) = .ok s1 ∧ s1.V 0 = 0 ∧ s1.V 0xF = 0 := by
  refine ⟨by decide, _, rfl, ?_, ?_⟩ <;> decide

/-- With distinct registers `X ≠ Y` the reverse subtract `8XY7` sets `VF` to 1
exactly when `VY >= VX` and stores `(VY - VX) mod 256`, on the base and on the
extended machine. -/
theorem subn_8XY7_distinct_registers (s : Chip8) (t : SuperChip) (i : Instruction)
    (hi : i.IsMath 7) (hxy : i.x ≠ i.y) :
    (∃ s1, s.execute i = .ok s1 ∧
      s1.V 0xF = (if s.V i.y ≥ s.V i.x then 1 else 0) ∧
      (i.x ≠ 0xF → (s1.V i.x : Int) = ((s.V i.y : Int) - (s.V i.x : Int)) % 256)) ∧
    (∃ t1, t.execute i = .ok t1 ∧
      t1.V 0xF = (if t.V i.y ≥ t.V i.x then 1 else 0) ∧
      (i.x ≠ 0xF → (t1.V i.x : Int) = ((t.V i.y : Int) - (t.V i.x : Int)) % 256)) := by
  obtain ⟨hop, hn, -, -⟩ := hi
  exact ⟨⟨_, chip8_execute_math s i hop, executeMath_subn s i hn hxy⟩,
    ⟨_, superChip_execute_math t i hop, executeMath_subn t.toChip8 i hn hxy⟩⟩

/-- C3: for every state of the base or of the extended machine and every
subtract instruction `8XY5` with `X, Y` in `0..15` (`X = Y` included), with
`a = VX` and `b = VY` before the instruction, `execute` leaves `VF = 1` if
`a >= b` and `VF = 0` otherwise, and `VX = (a - b) mod 256` whenever `X` is not
`0xF`. -/
theorem sub_8XY5_flag_and_difference (s : Chip8) (t : SuperChip) (i : Instruction)
    (hi : i.IsMath 5) :
    (∃ s1, s.execute i = .ok s1 ∧
      s1.V 0xF = (if s.V i.x ≥ s.V i.y then 1 else 0) ∧
      (i.x ≠ 0xF → (s1.V i.x : Int) = ((s.V i.x : Int) - (s.V i.y : Int)) % 256)) ∧
    (∃ t1, t.execute i = .ok t1 ∧
      t1.V 0xF = (if t.V i.x ≥ t.V i.y then 1 else 0) ∧
      (i.x ≠ 0xF → (t1.V i.x : Int) = ((t.V i.x : Int) - (t.V i.y : Int)) % 256)) := by
  obtain ⟨hop, hn, -, -⟩ := hi
  exact ⟨⟨_, chip8_execute_math s i hop, executeMath_sub s i hn⟩,
    ⟨_, superChip_execute_math t i hop, executeMath_sub t.toChip8 i hn⟩⟩

/-- C3 at `V1 = 3`, `V2 = 5` and the instruction `8125`. -/
theorem sub_8XY5_flag_and_difference_witness :
    (decode 0x8125).IsMath 5 ∧
    ((∃ s1, (baseWith [0, 3, 5]).execute (decode 0x8125) = .ok s1 ∧
      s1.V 0xF = (if (baseWith [0, 3, 5]).V (decode 0x8125).x
        ≥ (baseWith [0, 3, 5]).V (decode 0x8125).y then 1 else 0) ∧
      ((decode 0x8125).x ≠ 0xF → (s1.V (decode 0x8125).x : Int)
        = (((baseWith [0, 3, 5]).V (decode 0x8125).x : Int)
          - ((baseWith [0, 3, 5]).V (decode 0x8125).y : Int)) % 256)) ∧
    (∃ t1, (superWith [0, 3, 5]).execute (decode 0x8125) = .ok t1 ∧
      t1.V 0xF = (if (superWith [0, 3, 5]).V (decode 0x8125).x
        ≥ (superWith [0, 3, 5]).V (decode 0x8125).y then 1 else 0) ∧
      ((decode 0x8125).x ≠ 0xF → (t1.V (decode 0x8125).x : Int)
        = (((superWith [0, 3, 5]).V (decode 0x8125).x : Int)
          - ((superWith [0, 3, 5]).V (decode 0x8125).y : Int)) % 256))) :=
  ⟨by decide, sub_8XY5_flag_and_difference _ _ _ (by decide)⟩

theorem and_one_mod (x : Nat) : (x &&& 1) % 256 = x % 2 := by
  rw [Nat.and_one_is_mod]
  omega

theorem and_128_shift (x : Nat) : ((x &&& 0x80) >>> 7) % 256 = x / 128 % 2 := by
  have h : x &&& 2 ^ 7 = (x.testBit 7).toNat * 2 ^ 7 := Nat.and_two_pow x 7
  have h2 : (0x80 : Nat) = 2 ^ 7 := by norm_num
  rw [h2, h, Nat.shiftRight_eq_div_pow, Nat.testBit_to_div_mod]
  have h3 : (2 : Nat) ^ 7 = 128 := by norm_num
  rw [h3]
  have : x / 128 % 2 = 0 ∨ x / 128 % 2 = 1 := by omega
  rcases this with h0 | h1
  · simp [h0]
  · simp [h1]

theorem executeMath_shr_flag (s : Chip8) (i : Instruction) (hn : i.n = 6) :
    (s.executeMath i).V 0xF = (if s.super_chip then s.V i.x else s.V i.y) % 2 := by
  have hlt : ∀ v : Nat, v % 2 < 256 := fun v => by omega
  cases hs : s.super_chip <;> simp [Chip8.executeMath, hn, hs, and_one_mod, hlt]

theorem executeMath_shl_flag (s : Chip8) (i : Instruction) (hn : i.n = 0xE) :
    (s.executeMath i).V 0xF = (if s.super_chip then s.V i.x else s.V i.y) / 128 % 2 := by
  cases hs : s.super_chip <;> simp [Chip8.executeMath, hn, hs, and_128_shift]

theorem executeMath_shr_value (s : Chip8) (i : Instruction) (hn : i.n = 6) (hw : s.WF)
    (hx : i.x ≠ 0xF) :
    (s.executeMath i).V i.x = (if s.super_chip then s.V i.x else s.V i.y) >>> 1 ∧
    (i.y ≠ i.x → i.y ≠ 0xF → (s.executeMath i).V i.y = s.V i.y) := by
  have hlt : ∀ r, (s.V r >>> 1) % 256 = s.V r >>> 1 := fun r => by
    have := hw.V_lt r
    rw [Nat.shiftRight_eq_div_pow]
    omega
  constructor
  · cases hs : s.super_chip <;>
      simp [Chip8.executeMath, hn, hs, setAt_of_ne _ _ hx, hlt]
  · intro hyx hyf
    cases hs : s.super_chip <;>
      simp [Chip8.executeMath, hn, hs, setAt_of_ne _ _ hyx, setAt_of_ne _ _ hyf]

theorem executeMath_shl_value (s : Chip8) (i : Instruction) (hn : i.n = 0xE)
    (hx : i.x ≠ 0xF) :
    (s.executeMath i).V i.x = ((if s.super_chip then s.V i.x else s.V i.y) <<< 1) % 256 ∧
    (i.y ≠ i.x → i.y ≠ 0xF → (s.executeMath i).V i.y = s.V i.y) := by
  constructor
  · cases hs : s.super_chip <;>
      simp [Chip8.executeMath, hn, hs, setAt_of_ne _ _ hx]
  · intro hyx hyf
    cases hs : s.super_chip <;>
      simp [Chip8.executeMath, hn, hs, setAt_of_ne _ _ hyx, setAt_of_ne _ _ hyf]

theorem byte_or_lt {a b : Nat} (ha : a < 256) (hb : b < 256) : (a ||| b) % 256 = a ||| b :=
  Nat.mod_eq_of_lt (Nat.or_lt_two_pow (n := 8) ha hb)

theorem byte_and_lt {a b : Nat} (ha : a < 256) : (a &&& b) % 256 = a &&& b :=
  Nat.mod_eq_of_lt (Nat.lt_of_le_of_lt Nat.and_le_left ha)

theorem byte_xor_lt {a b : Nat} (ha : a < 256) (hb : b < 256) : (a ^^^ b) % 256 = a ^^^ b :=
  Nat.mod_eq_of_lt (Nat.xor_lt_two_pow (n := 8) ha hb)

theorem executeMath_or (s : Chip8) (i : Instruction) (hn : i.n = 1) (hw : s.WF)
    (hx : i.x ≠ 0xF) :
    (s.executeMath i).V i.x = s.V i.x ||| s.V i.y ∧
    (s.executeMath i).V 0xF = (if s.super_chip then s.V 0xF else 0) := by
  have hb := byte_or_lt (hw.V_lt i.x) (hw.V_lt i.y)
  have hx2 : (15 : Nat) ≠ i.x := Ne.symm hx
  cases hs : s.super_chip <;>
    simp [Chip8.executeMath, hn, hs, setAt_of_ne _ _ hx, setAt_of_ne _ _ hx2, hb]

theorem executeMath_and (s : Chip8) (i : Instruction) (hn : i.n = 2) (hw : s.WF)
    (hx : i.x ≠ 0xF) :
    (s.executeMath i).V i.x = s.V i.x &&& s.V i.y ∧
    (s.executeMath i).V 0xF = (if s.super_chip then s.V 0xF else 0) := by
  have hb := byte_and_lt (b := s.V i.y) (hw.V_lt i.x)
  have hx2 : (15 : Nat) ≠ i.x := Ne.symm hx
  cases hs : s.super_chip <;>
    simp [Chip8.executeMath, hn, hs, setAt_of_ne _ _ hx, setAt_of_ne _ _ hx2, hb]

theorem executeMath_xor (s : Chip8) (i : Instruction) (hn : i.n = 3) (hw : s.WF)
    (hx : i.x ≠ 0xF) :
    (s.executeMath i).V i.x = s.V i.x ^^^ s.V i.y ∧
    (s.executeMath i).V 0xF = (if s.super_chip then s.V 0xF else 0) := by
  have hb := byte_xor_lt (hw.V_lt i.x) (hw.V_lt i.y)
  have hx2 : (15 : Nat) ≠ i.x := Ne.symm hx
  cases hs : s.super_chip <;>
    simp [Chip8.executeMath, hn, hs, setAt_of_ne _ _ hx, setAt_of_ne _ _ hx2, hb]

theorem getD_lt_of_forall (l : List Nat) (b : Nat) (h : ∀ v ∈ l, v < b) (hb : 0 < b)
    (k : Nat) : l.getD k 0 < b := by
  rw [List.getD_eq_getElem?_getD]
  cases hk : l[k]? with
  | none => simpa using hb
  | some v =>
    have hv : v ∈ l := List.getElem?_mem hk
    simpa using h v hv

theorem Chip8.new_WF (rand : Nat → Nat) : (Chip8.new rand).WF := by
  refine ⟨fun r => by simp [Chip8.new], fun a => ?_, by simp [Chip8.new], by simp [Chip8.new],
    by simp [Chip8.new], by simp [Chip8.new], fun k => by simp [Chip8.new]⟩
  simp only [Chip8.new]
  split
  · exact getD_lt_of_forall fontset 256 (by decide) (by decide) _
  · decide

theorem baseWith_WF (l : List Nat) (h : ∀ v ∈ l, v < 256) : (baseWith l).WF := by
  have h0 := Chip8.new_WF (fun _ => 0)
  exact ⟨fun r => getD_lt_of_forall l 256 h (by decide) r, h0.memory_lt, h0.pc_lt, h0.index_lt,
    h0.delay_lt, h0.sound_lt, h0.stack_lt⟩

theorem superWith_WF (l : List Nat) (h : ∀ v ∈ l, v < 256) : (superWith l).toChip8.WF := by
  have h0 := Chip8.new_WF (fun _ => 0)
  exact ⟨fun r => getD_lt_of_forall l 256 h (by decide) r, h0.memory_lt, h0.pc_lt, h0.index_lt,
    h0.delay_lt, h0.sound_lt, h0.stack_lt⟩

/-- C4: on the base machine the shifts `8XY6` and `8XYE` leave in `VF` bit 0,
respectively bit 7, of `VY` as it was before the instruction; on the extended
machine they leave bit 0, respectively bit 7, of the old `VX`; for every
`X, Y` in `0..15`, `X = 0xF` included. -/
theorem shift_flag_is_shifted_out_bit (s : Chip8) (t : SuperChip) (i j : Instruction)
    (hi : i.IsMath 6) (hj : j.IsMath 0xE)
    (hs : s.super_chip = false) (ht : t.super_chip = true) :
    (∃ s1, s.execute i = .ok s1 ∧ s1.V 0xF = s.V i.y % 2) ∧
    (∃ s1, s.execute j = .ok s1 ∧ s1.V 0xF = s.V j.y / 128 % 2) ∧
    (∃ t1, t.execute i = .ok t1 ∧ t1.V 0xF = t.V i.x % 2) ∧
    (∃ t1, t.execute j = .ok t1 ∧ t1.V 0xF = t.V j.x / 128 % 2) := by
  obtain ⟨hop, hn, -, -⟩ := hi
  obtain ⟨hop2, hn2, -, -⟩ := hj
  refine ⟨⟨_, chip8_execute_math s i hop, ?_⟩, ⟨_, chip8_execute_math s j hop2, ?_⟩,
    ⟨_, superChip_execute_math t i hop, ?_⟩, ⟨_, superChip_execute_math t j hop2, ?_⟩⟩
  · simpa [hs] using executeMath_shr_flag s i hn
  · simpa [hs] using executeMath_shl_flag s j hn2
  · simpa [ht] using executeMath_shr_flag t.toChip8 i hn
  · simpa [ht] using executeMath_shl_flag t.toChip8 j hn2

/-- C4 at `VF = 0x81`, `V1 = 0x81` and the instructions `8F16`, `8F1E` (base) and
at `VF = 0x81` (extended). -/
theorem shift_flag_is_shifted_out_bit_witness :
    ((decode 0x8F16).IsMath 6 ∧ (decode 0x8F1E).IsMath 0xE ∧
      (baseWith [0, 0x81]).super_chip = false ∧
      (superWith [0, 0, 0, 0, 0, 0, 0, 0, 0, 0, 0, 0, 0, 0, 0, 0x81]).super_chip = true) ∧
    ((∃ s1, (baseWith [0, 0x81]).execute (decode 0x8F16) = .ok s1 ∧ s1.V 0xF = 1) ∧
    (∃ s1, (baseWith [0, 0x81]).execute (decode 0x8F1E) = .ok s1 ∧ s1.V 0xF = 1) ∧
    (∃ t1, (superWith [0, 0, 0, 0, 0, 0, 0, 0, 0, 0, 0, 0, 0, 0, 0, 0x81]).execute
      (decode 0x8F16) = .ok t1 ∧ t1.V 0xF = 1) ∧
    (∃ t1, (superWith [0, 0, 0, 0, 0, 0, 0, 0, 0, 0, 0, 0, 0, 0, 0, 0x81]).execute
      (decode 0x8F1E) = .ok t1 ∧ t1.V 0xF = 1)) :=
  ⟨by decide, shift_flag_is_shifted_out_bit _ _ _ _ (by decide) (by decide) rfl rfl⟩

/-- C5: for `X` other than `0xF`, on the base machine `8XY6` leaves
`VX = (old VY) >> 1` and `8XYE` leaves `VX = ((old VY) << 1) mod 256`; on the
extended machine `8XY6` leaves `VX = (old VX) >> 1` and `8XYE` leaves
`VX = ((old VX) << 1) mod 256`; in both variants `VY` is unchanged when `Y`
differs from `X` and from `0xF`. -/
theorem shift_result_and_source (s : Chip8) (t : SuperChip) (i j : Instruction)
    (hi : i.IsMath 6) (hj : j.IsMath 0xE)
    (hs : s.super_chip = false) (ht : t.super_chip = true)
    (hws : s.WF) (hwt : t.toChip8.WF) (hxi : i.x ≠ 0xF) (hxj : j.x ≠ 0xF) :
    (∃ s1, s.execute i = .ok s1 ∧ s1.V i.x = s.V i.y >>> 1 ∧
      (i.y ≠ i.x → i.y ≠ 0xF → s1.V i.y = s.V i.y)) ∧
    (∃ s1, s.execute j = .ok s1 ∧ s1.V j.x = (s.V j.y <<< 1) % 256 ∧
      (j.y ≠ j.x → j.y ≠ 0xF → s1.V j.y = s.V j.y)) ∧
    (∃ t1, t.execute i = .ok t1 ∧ t1.V i.x = t.V i.x >>> 1 ∧
      (i.y ≠ i.x → i.y ≠ 0xF → t1.V i.y = t.V i.y)) ∧
    (∃ t1, t.execute j = .ok t1 ∧ t1.V j.x = (t.V j.x <<< 1) % 256 ∧
      (j.y ≠ j.x → j.y ≠ 0xF → t1.V j.y = t.V j.y)) := by
  obtain ⟨hop, hn, -, -⟩ := hi
  obtain ⟨hop2, hn2, -, -⟩ := hj
  refine ⟨⟨_, chip8_execute_math s i hop, ?_⟩, ⟨_, chip8_execute_math s j hop2, ?_⟩,
    ⟨_, superChip_execute_math t i hop, ?_⟩, ⟨_, superChip_execute_math t j hop2, ?_⟩⟩
  · simpa [hs] using executeMath_shr_value s i hn hws hxi
  · simpa [hs] using executeMath_shl_value s j hn2 hxj
  · simpa [ht] using executeMath_shr_value t.toChip8 i hn hwt hxi
  · simpa [ht] using executeMath_shl_value t.toChip8 j hn2 hxj

/-- C5 at `V1 = 7`, `V2 = 0x85` and the instructions `8126`, `812E`. -/
theorem shift_result_and_source_witness :
    ((decode 0x8126).IsMath 6 ∧ (decode 0x812E).IsMath 0xE ∧
      (baseWith [0, 7, 0x85]).super_chip = false ∧ (superWith [0, 7, 0x85]).super_chip = true ∧
      (decode 0x8126).x ≠ 0xF ∧ (decode 0x812E).x ≠ 0xF) ∧
    ((∃ s1, (baseWith [0, 7, 0x85]).execute (decode 0x8126) = .ok s1 ∧ s1.V 1 = 0x42 ∧
      ((2 : Nat) ≠ 1 → (2 : Nat) ≠ 0xF → s1.V 2 = 0x85)) ∧
    (∃ s1, (baseWith [0, 7, 0x85]).execute (decode 0x812E) = .ok s1 ∧ s1.V 1 = 0x0A ∧
      ((2 : Nat) ≠ 1 → (2 : Nat) ≠ 0xF → s1.V 2 = 0x85)) ∧
    (∃ t1, (superWith [0, 7, 0x85]).execute (decode 0x8126) = .ok t1 ∧ t1.V 1 = 3 ∧
      ((2 : Nat) ≠ 1 → (2 : Nat) ≠ 0xF → t1.V 2 = 0x85)) ∧
    (∃ t1, (superWith [0, 7, 0x85]).execute (decode 0x812E) = .ok t1 ∧ t1.V 1 = 14 ∧
      ((2 : Nat) ≠ 1 → (2 : Nat) ≠ 0xF → t1.V 2 = 0x85))) :=
  ⟨by decide, shift_result_and_source _ _ _ _ (by decide) (by decide) rfl rfl
    (baseWith_WF _ (by decide)) (superWith_WF _ (by decide)) (by decide) (by decide)⟩

/-- C6: for the instructions `8XY1`, `8XY2`, `8XY3` with `X` other than `0xF`,
`VX` becomes the bitwise OR, AND, XOR of the old `VX` and `VY`; on the base
machine `VF` is 0 afterwards, on the extended machine `VF` keeps its value. -/
theorem bitwise_result_and_flag (s : Chip8) (t : SuperChip) (i j k : Instruction)
    (hi : i.IsMath 1) (hj : j.IsMath 2) (hk : k.IsMath 3)
    (hs : s.super_chip = false) (ht : t.super_chip = true)
    (hws : s.WF) (hwt : t.toChip8.WF)
    (hxi : i.x ≠ 0xF) (hxj : j.x ≠ 0xF) (hxk : k.x ≠ 0xF) :
    (∃ s1, s.execute i = .ok s1 ∧ s1.V i.x = s.V i.x ||| s.V i.y ∧ s1.V 0xF = 0) ∧
    (∃ s1, s.execute j = .ok s1 ∧ s1.V j.x = s.V j.x &&& s.V j.y ∧ s1.V 0xF = 0) ∧
    (∃ s1, s.execute k = .ok s1 ∧ s1.V k.x = s.V k.x ^^^ s.V k.y ∧ s1.V 0xF = 0) ∧
    (∃ t1, t.execute i = .ok t1 ∧ t1.V i.x = t.V i.x ||| t.V i.y ∧ t1.V 0xF = t.V 0xF) ∧
    (∃ t1, t.execute j = .ok t1 ∧ t1.V j.x = t.V j.x &&& t.V j.y ∧ t1.V 0xF = t.V 0xF) ∧
    (∃ t1, t.execute k = .ok t1 ∧ t1.V k.x = t.V k.x ^^^ t.V k.y ∧ t1.V 0xF = t.V 0xF) := by
  obtain ⟨hop1, hn1, -, -⟩ := hi
  obtain ⟨hop2, hn2, -, -⟩ := hj
  obtain ⟨hop3, hn3, -, -⟩ := hk
  refine ⟨⟨_, chip8_execute_math s i hop1, ?_⟩, ⟨_, chip8_execute_math s j hop2, ?_⟩,
    ⟨_, chip8_execute_math s k hop3, ?_⟩, ⟨_, superChip_execute_math t i hop1, ?_⟩,
    ⟨_, superChip_execute_math t j hop2, ?_⟩, ⟨_, superChip_execute_math t k hop3, ?_⟩⟩
  · simpa [hs] using executeMath_or s i hn1 hws hxi
  · simpa [hs] using executeMath_and s j hn2 hws hxj
  · simpa [hs] using executeMath_xor s k hn3 hws hxk
  · simpa [ht] using executeMath_or t.toChip8 i hn1 hwt hxi
  · simpa [ht] using executeMath_and t.toChip8 j hn2 hwt hxj
  · simpa [ht] using executeMath_xor t.toChip8 k hn3 hwt hxk

/-- C6 at `V1 = 0x0C`, `V2 = 0x0A`, `VF = 1` and the instructions `8121`,
`8122`, `8123`. -/
theorem bitwise_result_and_flag_witness :
    ((decode 0x8121).IsMath 1 ∧ (decode 0x8122).IsMath 2 ∧ (decode 0x8123).IsMath 3 ∧
      (baseWith [0, 0x0C, 0x0A, 0, 0, 0, 0, 0, 0, 0, 0, 0, 0, 0, 0, 1]).super_chip = false ∧
      (superWith [0, 0x0C, 0x0A, 0, 0, 0, 0, 0, 0, 0, 0, 0, 0, 0, 0, 1]).super_chip = true ∧
      (decode 0x8121).x ≠ 0xF ∧ (decode 0x8122).x ≠ 0xF ∧ (decode 0x8123).x ≠ 0xF) ∧
    ((∃ s1, (baseWith [0, 0x0C, 0x0A, 0, 0, 0, 0, 0, 0, 0, 0, 0, 0, 0, 0, 1]).execute
        (decode 0x8121) = .ok s1 ∧ s1.V 1 = 0x0E ∧ s1.V 0xF = 0) ∧
    (∃ s1, (baseWith [0, 0x0C, 0x0A, 0, 0, 0, 0, 0, 0, 0, 0, 0, 0, 0, 0, 1]).execute
        (decode 0x8122) = .ok s1 ∧ s1.V 1 = 0x08 ∧ s1.V 0xF = 0) ∧
    (∃ s1, (baseWith [0, 0x0C, 0x0A, 0, 0, 0, 0, 0, 0, 0, 0, 0, 0, 0, 0, 1]).execute
        (decode 0x8123) = .ok s1 ∧ s1.V 1 = 0x06 ∧ s1.V 0xF = 0) ∧
    (∃ t1, (superWith [0, 0x0C, 0x0A, 0, 0, 0, 0, 0, 0, 0, 0, 0, 0, 0, 0, 1]).execute
        (decode 0x8121) = .ok t1 ∧ t1.V 1 = 0x0E ∧ t1.V 0xF = 1) ∧
    (∃ t1, (superWith [0, 0x0C, 0x0A, 0, 0, 0, 0, 0, 0, 0, 0, 0, 0, 0, 0, 1]).execute
        (decode 0x8122) = .ok t1 ∧ t1.V 1 = 0x08 ∧ t1.V 0xF = 1) ∧
    (∃ t1, (superWith [0, 0x0C, 0x0A, 0, 0, 0, 0, 0, 0, 0, 0, 0, 0, 0, 0, 1]).execute
        (decode 0x8123) = .ok t1 ∧ t1.V 1 = 0x06 ∧ t1.V 0xF = 1)) :=
  ⟨by decide, bitwise_result_and_flag _ _ _ _ _ (by decide) (by decide) (by decide) rfl rfl
    (baseWith_WF _ (by decide)) (superWith_WF _ (by decide)) (by decide) (by decide)
    (by decide)⟩

/-! ## The draw instruction `DXYN` -/

theorem plot_eq (s : Chip8) (idx : Nat) :
    s.plot idx = if idx < s.display.size then .ok (s.flip idx) else .error .outOfRange := by
  unfold Chip8.plot Chip8.flip
  split
  · split <;> rfl
  · rfl

@[simp] theorem flip_width (s : Chip8) (idx : Nat) :
    (s.flip idx).display.width = s.display.width := by
  unfold Chip8.flip; split <;> rfl

@[simp] theorem flip_height (s : Chip8) (idx : Nat) :
    (s.flip idx).display.height = s.display.height := by
  unfold Chip8.flip; split <;> rfl

@[simp] theorem flip_size (s : Chip8) (idx : Nat) :
    (s.flip idx).display.size = s.display.size := by
  simp [Display.size]

@[simp] theorem flip_memory (s : Chip8) (idx : Nat) : (s.flip idx).memory = s.memory := by
  unfold Chip8.flip; split <;> rfl

@[simp] theorem flip_index (s : Chip8) (idx : Nat) : (s.flip idx).index = s.index := by
  unfold Chip8.flip; split <;> rfl

@[simp] theorem flipAll_width (s : Chip8) (l : List Nat) :
    (s.flipAll l).display.width = s.display.width := by
  induction l generalizing s with
  | nil => rfl
  | cons a l ih => simp [Chip8.flipAll, ih]

@[simp] theorem flipAll_height (s : Chip8) (l : List Nat) :
    (s.flipAll l).display.height = s.display.height := by
  induction l generalizing s with
  | nil => rfl
  | cons a l ih => simp [Chip8.flipAll, ih]

@[simp] theorem flipAll_size (s : Chip8) (l : List Nat) :
    (s.flipAll l).display.size = s.display.size := by
  simp [Display.size]

@[simp] theorem flipAll_memory (s : Chip8) (l : List Nat) : (s.flipAll l).memory = s.memory := by
  induction l generalizing s with
  | nil => rfl
  | cons a l ih => simp [Chip8.flipAll, ih]

@[simp] theorem flipAll_index (s : Chip8) (l : List Nat) : (s.flipAll l).index = s.index := by
  induction l generalizing s with
  | nil => rfl
  | cons a l ih => simp [Chip8.flipAll, ih]

theorem flipAll_append (s : Chip8) (l1 l2 : List Nat) :
    s.flipAll (l1 ++ l2) = (s.flipAll l1).flipAll l2 := by
  induction l1 generalizing s with
  | nil => rfl
  | cons a l ih => simp [Chip8.flipAll, ih]

theorem forLoop_zero {σ : Type} (body : Nat → σ → Except Stop (σ × Bool)) (j : Nat)
    (s : σ) : forLoop body 0 j s = .ok s := rfl

theorem forLoop_succ {σ : Type} (body : Nat → σ → Except Stop (σ × Bool)) (k j : Nat)
    (s : σ) :
    forLoop body (k + 1) j s =
      match body j s with
      | .error e => .error e
      | .ok (s1, true) => .ok s1
      | .ok (s1, false) => forLoop body k (j + 1) s1 := rfl

theorem drawCol_eq (sprite x y row col : Nat) (s : Chip8) :
    Chip8.drawCol sprite x y row col s =
      if (sprite &&& (0x80 >>> col)) ≠ 0 then
        if s.display.width * (y + row) + x + col < s.display.size then
          .ok (s.flip (s.display.width * (y + row) + x + col), decide (x + col ≥ s.display.width))
        else .error .outOfRange
      else .ok (s, decide (x + col ≥ s.display.width)) := by
  unfold Chip8.drawCol
  by_cases hbit : (sprite &&& (0x80 >>> col)) ≠ 0
  · by_cases hin : s.display.width * (y + row) + x + col < s.display.size
    · simp [hbit, plot_eq, hin]
    · simp [hbit, plot_eq, hin]
  · simp [hbit]

/-- The column loop of `DXYN` plots the positions of `colPlots`, and fails
exactly when one of them is outside the pixel vector. -/
theorem forLoop_drawCol (sprite x y row : Nat) (k col : Nat) (s : Chip8) :
    forLoop (Chip8.drawCol sprite x y row) k col s =
      if (colPlots s.display.width sprite x y row k col).all
          (fun idx => decide (idx < s.display.size))
      then .ok (s.flipAll (colPlots s.display.width sprite x y row k col))
      else .error .outOfRange := by
  induction k generalizing col s with
  | zero => simp [forLoop, colPlots, Chip8.flipAll]
  | succ k ih =>
    rw [forLoop_succ, drawCol_eq]
    unfold colPlots
    by_cases hbit : (sprite &&& (0x80 >>> col)) ≠ 0
    · by_cases hin : s.display.width * (y + row) + x + col < s.display.size
      · by_cases hbrk : x + col ≥ s.display.width
        · simp [hbit, hin, hbrk, Chip8.flipAll]
        · simp [hbit, hin, hbrk, Chip8.flipAll, ih]
      · simp [hbit, hin]
    · by_cases hbrk : x + col ≥ s.display.width
      · simp [hbit, hbrk, Chip8.flipAll]
      · simp [hbit, hbrk, Chip8.flipAll, ih]

theorem drawRow_eq (x y row : Nat) (s : Chip8) :
    Chip8.drawRow x y row s =
      if s.index + row < 4096 ∧
          (colPlots s.display.width (s.memory (s.index + row)) x y row 8 0).all
            (fun idx => decide (idx < s.display.size)) = true
      then .ok (s.flipAll (colPlots s.display.width (s.memory (s.index + row)) x y row 8 0),
        decide (y + row ≥ s.display.height))
      else .error .outOfRange := by
  unfold Chip8.drawRow Chip8.readMem
  by_cases hm : s.index + row < 4096
  · by_cases hc : (colPlots s.display.width (s.memory (s.index + row)) x y row 8 0).all
        (fun idx => decide (idx < s.display.size)) = true
    · rw [if_pos hm, if_pos ⟨hm, hc⟩]
      simp only [forLoop_drawCol, if_pos hc, flipAll_height]
    · rw [if_pos hm, if_neg (fun h => hc h.2)]
      simp only [forLoop_drawCol, if_neg hc]
  · rw [if_neg hm, if_neg (fun h => hm h.1)]

/-- The row loop of `DXYN` plots the positions of `rowPlots`, and fails exactly
when a sprite byte is read outside the memory or a position is outside the
pixel vector. -/
theorem forLoop_drawRow (x y : Nat) (k row : Nat) (s : Chip8) :
    forLoop (Chip8.drawRow x y) k row s =
      if rowReadsOk s.display.height s.index y k row = true ∧
          (rowPlots s.display.width s.display.height s.memory s.index x y k row).all
            (fun idx => decide (idx < s.display.size)) = true
      then .ok (s.flipAll (rowPlots s.display.width s.display.height s.memory s.index x y k row))
      else .error .outOfRange := by
  induction k generalizing row s with
  | zero => simp [forLoop, rowPlots, rowReadsOk, Chip8.flipAll]
  | succ k ih =>
    rw [forLoop_succ, drawRow_eq]
    unfold rowPlots rowReadsOk
    by_cases hm : s.index + row < 4096
    · by_cases hc : (colPlots s.display.width (s.memory (s.index + row)) x y row 8 0).all
          (fun idx => decide (idx < s.display.size)) = true
      · rw [if_pos ⟨hm, hc⟩]
        by_cases hbrk : y + row ≥ s.display.height
        · simp [hm, hc, hbrk]
        · simp only [hbrk, decide_False, ih, flipAll_height, flipAll_index, flipAll_width,
            flipAll_memory, flipAll_size, flipAll_append, List.all_append, hc, hm, decide_True,
            Bool.true_and, Bool.false_or, if_false]
      · rw [if_neg (fun h => hc h.2), if_neg]
        intro h
        rw [List.all_append] at h
        simp only [Bool.and_eq_true] at h
        exact hc h.2.1
    · rw [if_neg (fun h => hm h.1), if_neg]
      intro h
      simp [hm] at h

/-- The draw `DXYN` resets `VF` and plots the positions of `drawPlots`; it fails exactly
when a subscript is outside its array. -/
theorem execute_draw (s : Chip8) (i : Instruction) (hop : i.opcode = 0xD) :
    s.execute i =
      if s.drawInRange i = true
      then .ok (({ s with V := setAt s.V 0xF 0 } : Chip8).flipAll (s.drawPlots i))
      else .error .outOfRange := by
  simp only [Chip8.execute, hop, forLoop_drawRow, Chip8.drawInRange, Chip8.drawPlots,
    Chip8.drawX, Chip8.drawY, Bool.and_eq_true]

theorem superChip_execute_draw (t : SuperChip) (i : Instruction) (hop : i.opcode = 0xD)
    (hn : i.n ≠ 0) :
    t.execute i =
      if t.drawInRange i = true
      then .ok { t with toChip8 :=
        ({ t.toChip8 with V := setAt t.V 0xF 0 } : Chip8).flipAll (t.drawPlots i) }
      else .error .outOfRange := by
  have hb : t.execute i = t.executeBase i := by
    simp only [SuperChip.execute, hop, hn, if_false]
  rw [hb, SuperChip.executeBase, execute_draw _ _ hop]
  by_cases h : t.drawInRange i = true
  · rw [if_pos h, if_pos h]
  · rw [if_neg h, if_neg h]

theorem flip_display (s : Chip8) (a idx : Nat) :
    (s.flip a).display.display idx = xor (s.display.display idx) (decide (idx = a)) := by
  unfold Chip8.flip
  by_cases h : idx = a
  · subst h
    cases hd : s.display.display idx <;> simp [hd]
  · cases hd : s.display.display a <;> simp [hd, h, setAt_of_ne]

/-- After plotting at the positions of `l` a pixel differs from its old value
exactly when it occurs an odd number of times in `l`. -/
theorem flipAll_display (s : Chip8) (l : List Nat) (idx : Nat) :
    (s.flipAll l).display.display idx =
      xor (s.display.display idx) (decide (l.count idx % 2 = 1)) := by
  induction l generalizing s with
  | nil => simp [Chip8.flipAll]
  | cons a l ih =>
    rw [Chip8.flipAll, ih, flip_display, List.count_cons]
    by_cases h : idx = a
    · subst h
      have h2 : (List.count idx l + 1) % 2 = 1 ↔ ¬ (List.count idx l % 2 = 1) := by omega
      simp only [beq_self_eq_true, if_true, decide_True, h2, decide_not]
      cases s.display.display idx <;> cases decide (List.count idx l % 2 = 1) <;> rfl
    · have h3 : (a == idx) = false := by
        simp only [beq_eq_false_iff_ne, ne_eq]
        exact fun e => h e.symm
      simp [h, h3]

theorem flip_V_of_ne (s : Chip8) (a : Nat) {r : Nat} (hr : r ≠ 0xF) :
    (s.flip a).V r = s.V r := by
  unfold Chip8.flip
  split
  · exact setAt_of_ne _ _ hr
  · rfl

theorem flipAll_V_of_ne (s : Chip8) (l : List Nat) {r : Nat} (hr : r ≠ 0xF) :
    (s.flipAll l).V r = s.V r := by
  induction l generalizing s with
  | nil => rfl
  | cons a l ih => rw [Chip8.flipAll, ih, flip_V_of_ne s a hr]

theorem flip_VF (s : Chip8) (a : Nat) :
    (s.flip a).V 0xF = if s.display.display a then 1 else s.V 0xF := by
  unfold Chip8.flip
  split <;> simp

theorem flip_VF_one (s : Chip8) (a : Nat) (h : s.V 0xF = 1) : (s.flip a).V 0xF = 1 := by
  rw [flip_VF]; split <;> simp [h]

theorem flipAll_VF_one (s : Chip8) (l : List Nat) (h : s.V 0xF = 1) :
    (s.flipAll l).V 0xF = 1 := by
  induction l generalizing s with
  | nil => exact h
  | cons a l ih => exact ih _ (flip_VF_one s a h)

theorem flip_display_fun (s : Chip8) (a : Nat) :
    (s.flip a).display.display = setAt s.display.display a (!s.display.display a) := by
  unfold Chip8.flip
  cases hd : s.display.display a <;> simp [hd]

/-- After plotting at the positions of `l`, `VF` is 1 when a set pixel was met
and keeps its value otherwise. -/
theorem flipAll_VF (s : Chip8) (l : List Nat) :
    (s.flipAll l).V 0xF = if collides s.display.display l then 1 else s.V 0xF := by
  induction l generalizing s with
  | nil => simp [Chip8.flipAll, collides]
  | cons a l ih =>
    rw [Chip8.flipAll, collides]
    cases hd : s.display.display a
    · rw [ih, flip_display_fun, flip_VF, hd]
      simp
    · have h1 : (s.flip a).V 0xF = 1 := by rw [flip_VF, hd]; simp
      rw [flipAll_VF_one _ _ h1]
      simp

theorem display_eq_of (d1 d2 : Display) (hw : d1.width = d2.width) (hh : d1.height = d2.height)
    (hd : ∀ idx, d1.display idx = d2.display idx) : d1 = d2 := by
  cases d1
  cases d2
  simp only [Display.mk.injEq]
  exact ⟨hw, hh, funext hd⟩

theorem collides_of_mem (d : Nat → Bool) (l : List Nat) (idx : Nat) (hm : idx ∈ l)
    (hd : d idx = true) : collides d l = true := by
  induction l generalizing d with
  | nil => cases hm
  | cons a l ih =>
    rw [collides]
    cases hda : d a
    · have hne : idx ≠ a := fun e => by rw [e, hda] at hd; cases hd
      have hm2 : idx ∈ l := by
        rcases List.mem_cons.mp hm with h | h
        · exact absurd h hne
        · exact h
      simpa using ih _ hm2 (by rw [setAt_of_ne _ _ hne]; exact hd)
    · rfl

theorem flipAll_display_of_not_mem (s : Chip8) (l : List Nat) (idx : Nat) (h : idx ∉ l) :
    (s.flipAll l).display.display idx = s.display.display idx := by
  rw [flipAll_display, List.count_eq_zero_of_not_mem h]
  simp

/-- Plotting the positions of `l` a second time restores the pixels, and meets
a set pixel if the first time turned a pixel on. -/
theorem flipAll_twice (s s1 : Chip8) (l : List Nat)
    (hw : s1.display.width = s.display.width) (hh : s1.display.height = s.display.height)
    (hd : ∀ idx, s1.display.display idx =
      xor (s.display.display idx) (decide (l.count idx % 2 = 1))) :
    (s1.flipAll l).display = s.display ∧
    ((∃ idx, s.display.display idx = false ∧ s1.display.display idx = true) →
      (s1.flipAll l).V 0xF = 1) := by
  constructor
  · apply display_eq_of
    · simp [hw]
    · simp [hh]
    · intro idx
      rw [flipAll_display, hd]
      cases s.display.display idx <;> cases decide (List.count idx l % 2 = 1) <;> rfl
  · rintro ⟨idx, h0, h1x⟩
    have hmem : idx ∈ l := by
      by_contra hn
      have := hd idx
      rw [List.count_eq_zero_of_not_mem hn, h0, h1x] at this
      simp at this
    rw [flipAll_VF, if_pos (collides_of_mem _ _ idx hmem h1x)]

/-- What a second, identical `DXYN` does to the result of the first. -/
theorem draw_again (s s1 : Chip8) (i : Instruction) (hop : i.opcode = 0xD)
    (hx : i.x ≠ 0xF) (hy : i.y ≠ 0xF) (h1 : s.execute i = .ok s1) :
    ∃ s2, s1.execute i = .ok s2 ∧ s2.display = s.display ∧
      ((∃ idx, s.display.display idx = false ∧ s1.display.display idx = true) →
        s2.V 0xF = 1) := by
  rw [execute_draw s i hop] at h1
  by_cases hr : s.drawInRange i = true
  · rw [if_pos hr] at h1
    injection h1 with h1
    have hV : ∀ r, r ≠ 0xF → s1.V r = s.V r := fun r hr => by
      rw [← h1, flipAll_V_of_ne _ _ hr]
      exact setAt_of_ne _ _ hr
    have hw : s1.display.width = s.display.width := by rw [← h1]; simp
    have hh : s1.display.height = s.display.height := by rw [← h1]; simp
    have hm : s1.memory = s.memory := by rw [← h1]; simp
    have hi : s1.index = s.index := by rw [← h1]; simp
    have hX : s1.drawX i = s.drawX i := by simp only [Chip8.drawX, hV _ hx, hw]
    have hY : s1.drawY i = s.drawY i := by simp only [Chip8.drawY, hV _ hy, hh]
    have hl : s1.drawPlots i = s.drawPlots i := by
      simp only [Chip8.drawPlots, hw, hh, hm, hi, hX, hY]
    have hr1 : s1.drawInRange i = true := by
      rw [← hr]
      simp only [Chip8.drawInRange, hl, hh, hi, hY, Display.size, hw]
    have hd1 : ∀ idx, s1.display.display idx =
        xor (s.display.display idx) (decide ((s.drawPlots i).count idx % 2 = 1)) := fun idx => by
      rw [← h1, flipAll_display]
    refine ⟨_, by rw [execute_draw s1 i hop, if_pos hr1], ?_⟩
    rw [hl]
    exact flipAll_twice s ({ s1 with V := setAt s1.V 0xF 0 } : Chip8) (s.drawPlots i) hw hh hd1
  · rw [if_neg hr] at h1
    cases h1

theorem mask_shift (c : Nat) (hc : c < 8) : (0x80 : Nat) >>> c = 2 ^ (7 - c) := by
  interval_cases c <;> rfl

/-- The mask test of the draw loops selects bit `7 - c` of the sprite byte. -/
theorem mask_test (b c : Nat) (hc : c < 8) :
    ((b &&& (0x80 >>> c)) ≠ 0) ↔ spriteBit b c = true := by
  rw [mask_shift c hc, Nat.and_two_pow, spriteBit, Nat.shiftRight_eq_div_pow,
    Nat.testBit_to_div_mod]
  by_cases h : b / 2 ^ (7 - c) % 2 = 1
  · simp [h]
  · simp [h]

theorem colPlots_mem {w b x y row k col idx : Nat}
    (h : idx ∈ colPlots w b x y row k col) :
    ∃ c, col ≤ c ∧ c < col + k ∧ (b &&& (0x80 >>> c)) ≠ 0 ∧
      idx = w * (y + row) + x + c := by
  induction k generalizing col with
  | zero => simp [colPlots] at h
  | succ k ih =>
    rw [colPlots, List.mem_append] at h
    rcases h with h | h
    · by_cases hb : (b &&& (0x80 >>> col)) ≠ 0
      · rw [if_pos hb, List.mem_singleton] at h
        exact ⟨col, le_refl _, by omega, hb, h⟩
      · rw [if_neg hb] at h
        cases h
    · by_cases hbrk : x + col ≥ w
      · rw [if_pos hbrk] at h
        cases h
      · rw [if_neg hbrk] at h
        obtain ⟨c, h1, h2, h3, h4⟩ := ih h
        exact ⟨c, by omega, by omega, h3, h4⟩

theorem colPlots_mem_of {w b x y row k col c : Nat} (hw : x + col + k ≤ w)
    (h1 : col ≤ c) (h2 : c < col + k) (hb : (b &&& (0x80 >>> c)) ≠ 0) :
    w * (y + row) + x + c ∈ colPlots w b x y row k col := by
  induction k generalizing col with
  | zero => omega
  | succ k ih =>
    rw [colPlots, List.mem_append]
    by_cases hc : c = col
    · subst hc
      left
      rw [if_pos hb]
      exact List.mem_singleton.mpr rfl
    · right
      have hbrk : ¬ (x + col ≥ w) := by omega
      rw [if_neg hbrk]
      exact ih (by omega) (by omega) (by omega)

theorem colPlots_sorted (w b x y row k col : Nat) :
    (colPlots w b x y row k col).Pairwise (· < ·) := by
  induction k generalizing col with
  | zero => simp [colPlots]
  | succ k ih =>
    rw [colPlots, List.pairwise_append]
    refine ⟨?_, ?_, ?_⟩
    · split
      · exact List.pairwise_singleton _ _
      · exact List.Pairwise.nil
    · split
      · exact List.Pairwise.nil
      · exact ih _
    · intro a ha c hc
      by_cases hb : (b &&& (0x80 >>> col)) ≠ 0
      · rw [if_pos hb, List.mem_singleton] at ha
        by_cases hbrk : x + col ≥ w
        · rw [if_pos hbrk] at hc
          cases hc
        · rw [if_neg hbrk] at hc
          obtain ⟨c', h1, -, -, h4⟩ := colPlots_mem hc
          omega
      · rw [if_neg hb] at ha
        cases ha

theorem rowPlots_mem {w h : Nat} {mem : Nat → Nat} {index x y k row idx : Nat}
    (hm : idx ∈ rowPlots w h mem index x y k row) :
    ∃ r c, row ≤ r ∧ r < row + k ∧ c < 8 ∧ (mem (index + r) &&& (0x80 >>> c)) ≠ 0 ∧
      idx = w * (y + r) + x + c := by
  induction k generalizing row with
  | zero => simp [rowPlots] at hm
  | succ k ih =>
    rw [rowPlots, List.mem_append] at hm
    rcases hm with hm | hm
    · obtain ⟨c, -, h2, h3, h4⟩ := colPlots_mem hm
      exact ⟨row, c, le_refl _, by omega, by omega, h3, h4⟩
    · by_cases hbrk : y + row ≥ h
      · rw [if_pos hbrk] at hm
        cases hm
      · rw [if_neg hbrk] at hm
        obtain ⟨r, c, h1, h2, h3, h4, h5⟩ := ih hm
        exact ⟨r, c, by omega, by omega, h3, h4, h5⟩

theorem rowPlots_mem_of {w h : Nat} {mem : Nat → Nat} {index x y k row r c : Nat}
    (hw : x + 8 ≤ w) (hh : y + row + k ≤ h) (h1 : row ≤ r) (h2 : r < row + k) (hc : c < 8)
    (hb : (mem (index + r) &&& (0x80 >>> c)) ≠ 0) :
    w * (y + r) + x + c ∈ rowPlots w h mem index x y k row := by
  induction k generalizing row with
  | zero => omega
  | succ k ih =>
    rw [rowPlots, List.mem_append]
    by_cases hr : r = row
    · subst hr
      left
      exact colPlots_mem_of (by omega) (Nat.zero_le _) (by omega) hb
    · right
      have hbrk : ¬ (y + row ≥ h) := by omega
      rw [if_neg hbrk]
      exact ih (by omega) (by omega) (by omega)

theorem rowPlots_sorted (w h : Nat) (mem : Nat → Nat) (index x y k row : Nat) (hw : x + 8 ≤ w) :
    (rowPlots w h mem index x y k row).Pairwise (· < ·) := by
  induction k generalizing row with
  | zero => simp [rowPlots]
  | succ k ih =>
    rw [rowPlots, List.pairwise_append]
    refine ⟨colPlots_sorted _ _ _ _ _ _ _, ?_, ?_⟩
    · split
      · exact List.Pairwise.nil
      · exact ih _
    · intro a ha c hc
      by_cases hbrk : y + row ≥ h
      · rw [if_pos hbrk] at hc
        cases hc
      · rw [if_neg hbrk] at hc
        obtain ⟨c1, -, h2, -, h4⟩ := colPlots_mem ha
        obtain ⟨r, c2, h5, -, -, -, h9⟩ := rowPlots_mem hc
        have hmul : w * (y + row) + w ≤ w * (y + r) := by
          have : w * (y + row + 1) ≤ w * (y + r) := Nat.mul_le_mul_left w (by omega)
          rw [Nat.mul_succ] at this
          exact this
        omega

theorem linear_index_unique {w a p b q : Nat} (hp : p < w) (hq : q < w)
    (h : w * a + p = w * b + q) : a = b ∧ p = q := by
  rcases Nat.lt_trichotomy a b with hab | hab | hab
  · have : w * (a + 1) ≤ w * b := Nat.mul_le_mul_left w hab
    rw [Nat.mul_succ] at this
    omega
  · subst hab
    exact ⟨rfl, by omega⟩
  · have : w * (b + 1) ≤ w * a := Nat.mul_le_mul_left w hab
    rw [Nat.mul_succ] at this
    omega

theorem drawX_eq (s : Chip8) (i : Instruction) (hw : s.WF) :
    s.drawX i = s.V i.x % s.display.width := by
  unfold Chip8.drawX
  exact Nat.mod_eq_of_lt (Nat.lt_of_le_of_lt (Nat.mod_le _ _) (hw.V_lt _))

theorem drawY_eq (s : Chip8) (i : Instruction) (hw : s.WF) :
    s.drawY i = s.V i.y % s.display.height := by
  unfold Chip8.drawY
  exact Nat.mod_eq_of_lt (Nat.lt_of_le_of_lt (Nat.mod_le _ _) (hw.V_lt _))

theorem rowReadsOk_of (h index y k row : Nat) (hm : index + row + k ≤ 4096) :
    rowReadsOk h index y k row = true := by
  induction k generalizing row with
  | zero => rfl
  | succ k ih =>
    rw [rowReadsOk, ih (row + 1) (by omega)]
    simp
    omega

/-- The positions plotted by a `DXYN` whose sprite lies inside the display:
one for each set sprite bit, each inside the pixel vector, none twice. -/
theorem drawPlots_inside (s : Chip8) (i : Instruction) (hw : s.WF)
    (hxin : s.V i.x % s.display.width + 8 ≤ s.display.width)
    (hyin : s.V i.y % s.display.height + i.n ≤ s.display.height)
    (hmem : s.index + i.n ≤ 4096) :
    s.drawInRange i = true ∧ (s.drawPlots i).Nodup ∧
    ∀ idx, idx ∈ s.drawPlots i ↔ ∃ r c, r < i.n ∧ c < 8 ∧
      spriteBit (s.memory (s.index + r)) c = true ∧
      idx = s.display.width * (s.V i.y % s.display.height + r) + s.V i.x % s.display.width + c := by
  have hX := drawX_eq s i hw
  have hY := drawY_eq s i hw
  have hmemb : ∀ idx, idx ∈ s.drawPlots i ↔ ∃ r c, r < i.n ∧ c < 8 ∧
      spriteBit (s.memory (s.index + r)) c = true ∧
      idx = s.display.width * (s.V i.y % s.display.height + r)
        + s.V i.x % s.display.width + c := by
    intro idx
    unfold Chip8.drawPlots
    rw [hX, hY]
    constructor
    · intro h
      obtain ⟨r, c, -, h2, h3, h4, h5⟩ := rowPlots_mem h
      exact ⟨r, c, by omega, h3, (mask_test _ c h3).mp h4, h5⟩
    · rintro ⟨r, c, h1, h2, h3, h4⟩
      rw [h4]
      exact rowPlots_mem_of hxin (by omega) (Nat.zero_le _) (by omega) h2
        ((mask_test _ c h2).mpr h3)
  refine ⟨?_, ?_, hmemb⟩
  · unfold Chip8.drawInRange
    rw [rowReadsOk_of _ _ _ _ _ (by omega), Bool.true_and, List.all_eq_true]
    intro idx hidx
    obtain ⟨r, c, h1, h2, -, h4⟩ := (hmemb idx).mp hidx
    rw [decide_eq_true_eq, Display.size, h4]
    have : s.display.width * (s.V i.y % s.display.height + r + 1)
        ≤ s.display.width * s.display.height := Nat.mul_le_mul_left _ (by omega)
    rw [Nat.mul_succ] at this
    omega
  · unfold Chip8.drawPlots
    rw [hX, hY]
    exact (rowPlots_sorted _ _ _ _ _ _ _ _ hxin).imp (fun h => Nat.ne_of_lt h)

theorem count_mod_two_of_nodup {l : List Nat} (hl : l.Nodup) (idx : Nat) :
    decide (l.count idx % 2 = 1) = decide (idx ∈ l) := by
  by_cases h : idx ∈ l
  · rw [List.count_eq_one_of_mem hl h]
    simp [h]
  · rw [List.count_eq_zero_of_not_mem h]
    simp [h]

theorem collides_iff_of_nodup (d : Nat → Bool) {l : List Nat} (hl : l.Nodup) :
    collides d l = true ↔ ∃ idx ∈ l, d idx = true := by
  induction l generalizing d with
  | nil => simp [collides]
  | cons a l ih =>
    obtain ⟨ha, hl2⟩ := List.nodup_cons.mp hl
    rw [collides, Bool.or_eq_true, ih _ hl2]
    constructor
    · rintro (h | ⟨idx, hm, hd⟩)
      · exact ⟨a, List.mem_cons_self _ _, h⟩
      · have hne : idx ≠ a := fun e => ha (e ▸ hm)
        rw [setAt_of_ne _ _ hne] at hd
        exact ⟨idx, List.mem_cons_of_mem _ hm, hd⟩
    · rintro ⟨idx, hm, hd⟩
      rcases List.mem_cons.mp hm with h | h
      · left
        rw [← h]
        exact hd
      · right
        have hne : idx ≠ a := fun e => ha (e ▸ h)
        exact ⟨idx, h, by rw [setAt_of_ne _ _ hne]; exact hd⟩

/-- A `DXYN` whose sprite lies inside the display succeeds with the state in
which `VF` was reset and the positions of `drawPlots` were plotted. -/
theorem execute_draw_inside (s : Chip8) (i : Instruction) (hw : s.WF) (hin : s.SpriteInside i) :
    s.execute i =
      .ok (({ s with V := setAt s.V 0xF 0 } : Chip8).flipAll (s.drawPlots i)) := by
  obtain ⟨hop, -, -, hxin, hyin, hmem⟩ := hin
  rw [execute_draw s i hop, if_pos (drawPlots_inside s i hw hxin hyin hmem).1]

theorem superChip_execute_draw_inside (t : SuperChip) (i : Instruction) (hw : t.WF)
    (hin : t.SpriteInside i) (hn : 1 ≤ i.n) :
    t.execute i = .ok { t with toChip8 :=
      ({ t.toChip8 with V := setAt t.V 0xF 0 } : Chip8).flipAll (t.drawPlots i) } := by
  obtain ⟨hop, -, -, hxin, hyin, hmem⟩ := hin
  rw [superChip_execute_draw t i hop (by omega),
    if_pos (drawPlots_inside t.toChip8 i hw hxin hyin hmem).1]

/-- The pixels after a `DXYN` whose sprite lies inside the display. -/
theorem draw_inside_pixels (s : Chip8) (i : Instruction) (hw : s.WF) (hin : s.SpriteInside i) :
    (∀ r c, r < i.n → c < 8 →
      (({ s with V := setAt s.V 0xF 0 } : Chip8).flipAll (s.drawPlots i)).display.pixel
          (s.V i.x % s.display.width + c) (s.V i.y % s.display.height + r) =
        xor (s.display.pixel (s.V i.x % s.display.width + c) (s.V i.y % s.display.height + r))
          (spriteBit (s.memory (s.index + r)) c)) ∧
    (∀ col row, col < s.display.width →
      ¬ (s.V i.x % s.display.width ≤ col ∧ col < s.V i.x % s.display.width + 8 ∧
        s.V i.y % s.display.height ≤ row ∧ row < s.V i.y % s.display.height + i.n) →
      (({ s with V := setAt s.V 0xF 0 } : Chip8).flipAll (s.drawPlots i)).display.pixel col row =
        s.display.pixel col row) := by
  obtain ⟨hop, -, -, hxin, hyin, hmem⟩ := hin
  obtain ⟨-, hnd, hmemb⟩ := drawPlots_inside s i hw hxin hyin hmem
  constructor
  · intro r c hr hc
    simp only [Display.pixel, flipAll_width, flipAll_display, count_mod_two_of_nodup hnd]
    congr 1
    by_cases hb : spriteBit (s.memory (s.index + r)) c = true
    · rw [hb, decide_eq_true_eq, hmemb]
      exact ⟨r, c, hr, hc, hb, by omega⟩
    · rw [Bool.not_eq_true] at hb
      rw [hb, decide_eq_false_iff_not, hmemb]
      rintro ⟨r2, c2, -, hc2, hb2, he⟩
      have := linear_index_unique (w := s.display.width)
        (a := s.V i.y % s.display.height + r) (b := s.V i.y % s.display.height + r2)
        (p := s.V i.x % s.display.width + c) (q := s.V i.x % s.display.width + c2)
        (by omega) (by omega) (by omega)
      have hr2 : r = r2 := by omega
      have hc3 : c = c2 := by omega
      subst hr2
      subst hc3
      rw [hb] at hb2
      cases hb2
  · intro col row hcol hout
    simp only [Display.pixel, flipAll_width, flipAll_display, count_mod_two_of_nodup hnd]
    have hnot : (s.display.width * row + col) ∉ s.drawPlots i := by
      rw [hmemb]
      rintro ⟨r, c, hr, hc, -, he⟩
      have := linear_index_unique (w := s.display.width)
        (a := row) (b := s.V i.y % s.display.height + r) (p := col)
        (q := s.V i.x % s.display.width + c) hcol (by omega) (by omega)
      omega
    simp [hnot]

theorem withSprite_WF (s : Chip8) (addr : Nat) (bytes : List Nat) (hs : s.WF)
    (ha : addr < 65536) (hb : ∀ v ∈ bytes, v < 256) : (s.withSprite addr bytes).WF := by
  refine ⟨hs.V_lt, fun a => ?_, hs.pc_lt, ha, hs.delay_lt, hs.sound_lt, hs.stack_lt⟩
  simp only [Chip8.withSprite]
  split
  · exact getD_lt_of_forall bytes 256 hb (by decide) _
  · exact hs.memory_lt a

theorem spriteBase_WF : spriteBase.WF :=
  withSprite_WF _ _ _ (baseWith_WF _ (by decide)) (by decide) (by decide)

theorem spriteSuper_WF : spriteSuper.WF :=
  withSprite_WF _ _ _ (superWith_WF _ (by decide)) (by decide) (by decide)

theorem edgeBase_WF : edgeBase.WF :=
  withSprite_WF _ _ _ (baseWith_WF _ (by decide)) (by decide) (by decide)

/-- C7: a draw `DXYN` (`N >= 1` on the extended machine) whose sprite lies
wholly inside the display and whose data lies in memory succeeds; afterwards
each pixel `(x0 + c, y0 + r)` with `r < N`, `c < 8` is its old value XOR bit
`7 - c` of `memory[I + r]`, and every other pixel is unchanged; here
`x0 = VX mod width` and `y0 = VY mod height`. -/
theorem draw_inside_xors_sprite (s : Chip8) (t : SuperChip) (i j : Instruction)
    (hws : s.WF) (hwt : t.WF) (hi : s.SpriteInside i) (hj : t.SpriteInside j) (hjn : 1 ≤ j.n) :
    (∃ s1, s.execute i = .ok s1 ∧
      s1.display.width = s.display.width ∧ s1.display.height = s.display.height ∧
      (∀ r c, r < i.n → c < 8 →
        s1.display.pixel (s.V i.x % s.display.width + c) (s.V i.y % s.display.height + r) =
          xor (s.display.pixel (s.V i.x % s.display.width + c) (s.V i.y % s.display.height + r))
            (spriteBit (s.memory (s.index + r)) c)) ∧
      (∀ col row, col < s.display.width →
        ¬ (s.V i.x % s.display.width ≤ col ∧ col < s.V i.x % s.display.width + 8 ∧
          s.V i.y % s.display.height ≤ row ∧ row < s.V i.y % s.display.height + i.n) →
        s1.display.pixel col row = s.display.pixel col row)) ∧
    (∃ t1, t.execute j = .ok t1 ∧
      t1.display.width = t.display.width ∧ t1.display.height = t.display.height ∧
      (∀ r c, r < j.n → c < 8 →
        t1.display.pixel (t.V j.x % t.display.width + c) (t.V j.y % t.display.height + r) =
          xor (t.display.pixel (t.V j.x % t.display.width + c) (t.V j.y % t.display.height + r))
            (spriteBit (t.memory (t.index + r)) c)) ∧
      (∀ col row, col < t.display.width →
        ¬ (t.V j.x % t.display.width ≤ col ∧ col < t.V j.x % t.display.width + 8 ∧
          t.V j.y % t.display.height ≤ row ∧ row < t.V j.y % t.display.height + j.n) →
        t1.display.pixel col row = t.display.pixel col row)) := by
  refine ⟨⟨_, execute_draw_inside s i hws hi, by simp, by simp,
      draw_inside_pixels s i hws hi⟩,
    ⟨_, superChip_execute_draw_inside t j hwt hj hjn, ?_, ?_, ?_⟩⟩
  · simp
  · simp
  · exact draw_inside_pixels t.toChip8 j hwt hj

/-- C7 at the instruction `D013` on `spriteBase` and `spriteSuper`: a sprite of
three rows at `(2, 3)`. -/
theorem draw_inside_xors_sprite_witness :
    (spriteBase.WF ∧ spriteSuper.WF ∧ spriteBase.SpriteInside (decode 0xD013) ∧
      spriteSuper.SpriteInside (decode 0xD013) ∧ 1 ≤ (decode 0xD013).n) ∧
    ((∃ s1, spriteBase.execute (decode 0xD013) = .ok s1 ∧
      s1.display.width = 64 ∧ s1.display.height = 32 ∧
      (∀ r c, r < 3 → c < 8 →
        s1.display.pixel (2 + c) (3 + r) =
          xor (spriteBase.display.pixel (2 + c) (3 + r))
            (spriteBit (spriteBase.memory (0x300 + r)) c)) ∧
      (∀ col row, col < 64 → ¬ (2 ≤ col ∧ col < 2 + 8 ∧ 3 ≤ row ∧ row < 3 + 3) →
        s1.display.pixel col row = spriteBase.display.pixel col row)) ∧
    (∃ t1, spriteSuper.execute (decode 0xD013) = .ok t1 ∧
      t1.display.width = 64 ∧ t1.display.height = 32 ∧
      (∀ r c, r < 3 → c < 8 →
        t1.display.pixel (2 + c) (3 + r) =
          xor (spriteSuper.display.pixel (2 + c) (3 + r))
            (spriteBit (spriteSuper.memory (0x300 + r)) c)) ∧
      (∀ col row, col < 64 → ¬ (2 ≤ col ∧ col < 2 + 8 ∧ 3 ≤ row ∧ row < 3 + 3) →
        t1.display.pixel col row = spriteSuper.display.pixel col row))) :=
  ⟨⟨spriteBase_WF, spriteSuper_WF, by decide, by decide, by decide⟩,
    draw_inside_xors_sprite spriteBase spriteSuper (decode 0xD013) (decode 0xD013)
      spriteBase_WF spriteSuper_WF (by decide) (by decide) (by decide)⟩

/-! ## The 16-row draw `DXY0` of the extended machine -/

theorem superChip_plot_eq (t : SuperChip) (idx : Nat) :
    t.plot idx =
      if idx < t.display.size then .ok { t with toChip8 := t.toChip8.flip idx }
      else .error .outOfRange := by
  unfold SuperChip.plot
  rw [plot_eq]
  by_cases h : idx < t.display.size
  · rw [if_pos h, if_pos h]
  · rw [if_neg h, if_neg h]

theorem drawCol16_eq (sprite x y row col : Nat) (t : SuperChip) :
    SuperChip.drawCol16 sprite x y row col t =
      if (sprite &&& (0x80 >>> col)) ≠ 0 then
        if t.display.width * (y + row) + x + col < t.display.size then
          .ok ({ t with toChip8 := t.toChip8.flip (t.display.width * (y + row) + x + col) }, false)
        else .error .outOfRange
      else .ok (t, false) := by
  unfold SuperChip.drawCol16
  by_cases hbit : (sprite &&& (0x80 >>> col)) ≠ 0
  · by_cases hin : t.display.width * (y + row) + x + col < t.display.size
    · simp [hbit, superChip_plot_eq, hin]
    · simp [hbit, superChip_plot_eq, hin]
  · simp [hbit]

theorem forLoop_drawCol16 (sprite x y row : Nat) (k col : Nat) (t : SuperChip) :
    forLoop (SuperChip.drawCol16 sprite x y row) k col t =
      if (colPlots16 t.display.width sprite x y row k col).all
          (fun idx => decide (idx < t.display.size)) = true
      then .ok { t with toChip8 :=
        t.toChip8.flipAll (colPlots16 t.display.width sprite x y row k col) }
      else .error .outOfRange := by
  induction k generalizing col t with
  | zero => simp [forLoop, colPlots16, Chip8.flipAll]
  | succ k ih =>
    rw [forLoop_succ, drawCol16_eq]
    unfold colPlots16
    by_cases hbit : (sprite &&& (0x80 >>> col)) ≠ 0
    · by_cases hin : t.display.width * (y + row) + x + col < t.display.size
      · simp [hbit, hin, Chip8.flipAll, ih]
      · simp [hbit, hin]
    · simp [hbit, Chip8.flipAll, ih]

theorem drawRow16_eq (x y row : Nat) (t : SuperChip) :
    SuperChip.drawRow16 x y row t =
      if t.index + row < 4096 ∧
          (colPlots16 t.display.width (t.memory (t.index + row)) x y row 16 0).all
            (fun idx => decide (idx < t.display.size)) = true
      then .ok ({ t with toChip8 :=
        t.toChip8.flipAll (colPlots16 t.display.width (t.memory (t.index + row)) x y row 16 0) },
        false)
      else .error .outOfRange := by
  unfold SuperChip.drawRow16 Chip8.readMem
  by_cases hm : t.index + row < 4096
  · by_cases hc : (colPlots16 t.display.width (t.memory (t.index + row)) x y row 16 0).all
        (fun idx => decide (idx < t.display.size)) = true
    · rw [if_pos hm, if_pos ⟨hm, hc⟩]
      simp only [forLoop_drawCol16, if_pos hc]
    · rw [if_pos hm, if_neg (fun h => hc h.2)]
      simp only [forLoop_drawCol16, if_neg hc]
  · rw [if_neg hm, if_neg (fun h => hm h.1)]

theorem forLoop_drawRow16 (x y : Nat) (k row : Nat) (t : SuperChip) :
    forLoop (SuperChip.drawRow16 x y) k row t =
      if (k = 0 ∨ t.index + row + k ≤ 4096) ∧
          (rowPlots16 t.display.width t.memory t.index x y k row).all
            (fun idx => decide (idx < t.display.size)) = true
      then .ok { t with toChip8 :=
        t.toChip8.flipAll (rowPlots16 t.display.width t.memory t.index x y k row) }
      else .error .outOfRange := by
  induction k generalizing row t with
  | zero => simp [forLoop, rowPlots16, Chip8.flipAll]
  | succ k ih =>
    rw [forLoop_succ, drawRow16_eq]
    unfold rowPlots16
    by_cases hm : t.index + row < 4096
    · by_cases hc : (colPlots16 t.display.width (t.memory (t.index + row)) x y row 16 0).all
          (fun idx => decide (idx < t.display.size)) = true
      · rw [if_pos ⟨hm, hc⟩]
        simp only [ih, flipAll_index, flipAll_width, flipAll_memory, flipAll_size,
          flipAll_append, List.all_append, hc, Bool.true_and]
        have hiff : (k = 0 ∨ t.index + (row + 1) + k ≤ 4096) ↔
            (k + 1 = 0 ∨ t.index + row + (k + 1) ≤ 4096) := by omega
        simp only [hiff]
      · rw [if_neg (fun h => hc h.2), if_neg]
        intro h
        rw [List.all_append] at h
        simp only [Bool.and_eq_true] at h
        exact hc h.2.1
    · rw [if_neg (fun h => hm h.1), if_neg]
      intro h
      omega

/-- The draw `DXY0` on the extended machine plots the positions of `drawPlots16` without
resetting `VF`; it fails exactly when a subscript is outside its array. -/
theorem superChip_execute_draw16 (t : SuperChip) (i : Instruction) (hop : i.opcode = 0xD)
    (hn : i.n = 0) :
    t.execute i =
      if t.drawInRange16 i = true
      then .ok { t with toChip8 := t.toChip8.flipAll (t.drawPlots16 i) }
      else .error .outOfRange := by
  have h16 : ((16 : Nat) = 0 ∨ t.index + 0 + 16 ≤ 4096) ↔ t.index + 16 ≤ 4096 := by omega
  simp only [SuperChip.execute, hop, hn, if_true, forLoop_drawRow16, Chip8.drawInRange16,
    Chip8.drawPlots16, Chip8.drawX, Chip8.drawY, Bool.and_eq_true, decide_eq_true_eq, h16]

/-- What a second, identical `DXY0` does to the result of the first on the
extended machine. -/
theorem draw16_again (t t1 : SuperChip) (i : Instruction) (hop : i.opcode = 0xD)
    (hn : i.n = 0) (hx : i.x ≠ 0xF) (hy : i.y ≠ 0xF) (h1 : t.execute i = .ok t1) :
    ∃ t2, t1.execute i = .ok t2 ∧ t2.display = t.display ∧
      ((∃ idx, t.display.display idx = false ∧ t1.display.display idx = true) →
        t2.V 0xF = 1) := by
  rw [superChip_execute_draw16 t i hop hn] at h1
  by_cases hr : t.drawInRange16 i = true
  · rw [if_pos hr] at h1
    injection h1 with h1
    have hV : ∀ r, r ≠ 0xF → t1.V r = t.V r := fun r hr => by
      rw [← h1]
      exact flipAll_V_of_ne _ _ hr
    have hw : t1.display.width = t.display.width := by rw [← h1]; simp
    have hh : t1.display.height = t.display.height := by rw [← h1]; simp
    have hm : t1.memory = t.memory := by rw [← h1]; simp
    have hi : t1.index = t.index := by rw [← h1]; simp
    have hX : t1.drawX i = t.drawX i := by simp only [Chip8.drawX, hV _ hx, hw]
    have hY : t1.drawY i = t.drawY i := by simp only [Chip8.drawY, hV _ hy, hh]
    have hl : t1.drawPlots16 i = t.drawPlots16 i := by
      simp only [Chip8.drawPlots16, hw, hm, hi, hX, hY]
    have hr1 : t1.drawInRange16 i = true := by
      rw [← hr]
      simp only [Chip8.drawInRange16, hl, hh, hi, Display.size, hw]
    have hd1 : ∀ idx, t1.display.display idx =
        xor (t.display.display idx) (decide ((t.drawPlots16 i).count idx % 2 = 1)) :=
      fun idx => by rw [← h1]; exact flipAll_display _ _ _
    refine ⟨_, by rw [superChip_execute_draw16 t1 i hop hn, if_pos hr1], ?_⟩
    rw [hl]
    exact flipAll_twice t.toChip8 t1.toChip8 (t.drawPlots16 i) hw hh hd1
  · rw [if_neg hr] at h1
    cases h1

/-! ## Claims on the draw instruction -/

theorem execute_draw_ok (s : Chip8) (i : Instruction) (hop : i.opcode = 0xD)
    (h : s.execute i ≠ .error .outOfRange) :
    s.execute i = .ok (({ s with V := setAt s.V 0xF 0 } : Chip8).flipAll (s.drawPlots i)) := by
  rw [execute_draw s i hop] at h ⊢
  by_cases hr : s.drawInRange i = true
  · rw [if_pos hr]
  · rw [if_neg hr] at h
    exact absurd rfl h

theorem superChip_execute_draw_ok (t : SuperChip) (i : Instruction) (hop : i.opcode = 0xD)
    (hn : 1 ≤ i.n) (h : t.execute i ≠ .error .outOfRange) :
    ∃ s1, t.toChip8.execute i = .ok s1 ∧ t.execute i = .ok { t with toChip8 := s1 } := by
  have hn0 : i.n ≠ 0 := by omega
  rw [superChip_execute_draw t i hop hn0] at h
  by_cases hr : t.drawInRange i = true
  · refine ⟨({ t.toChip8 with V := setAt t.V 0xF 0 } : Chip8).flipAll (t.drawPlots i), ?_, ?_⟩
    · rw [execute_draw _ i hop, if_pos hr]
    · rw [superChip_execute_draw t i hop hn0, if_pos hr]
  · rw [if_neg hr] at h
    exact absurd rfl h

theorem superChip_execute_draw_of_base (t : SuperChip) (i : Instruction) (hop : i.opcode = 0xD)
    (hn : 1 ≤ i.n) (s1 : Chip8) (h : t.toChip8.execute i = .ok s1) :
    t.execute i = .ok { t with toChip8 := s1 } := by
  have hb : t.execute i = t.executeBase i := by
    have hn0 : i.n ≠ 0 := by omega
    simp only [SuperChip.execute, hop, hn0, if_false]
  rw [hb, SuperChip.executeBase, h]

/-- C8: when a draw `DXYN` with coordinate registers other than `VF` indexes
neither outside the pixel vector nor outside memory, executing it twice in a
row leaves the display equal to its content before the first draw, and if the
first draw turned a pixel on then `VF` is 1 after the second draw; on the base
machine and on the extended machine, the 16-row draw `DXY0` included. -/
theorem draw_twice_restores_display (s : Chip8) (t : SuperChip) (i j : Instruction)
    (hi : i.IsDraw) (hj : j.IsDraw)
    (hs : s.execute i ≠ .error .outOfRange) (ht : t.execute j ≠ .error .outOfRange) :
    (∃ s1 s2, s.execute i = .ok s1 ∧ s1.execute i = .ok s2 ∧ s2.display = s.display ∧
      ((∃ col row, s.display.pixel col row = false ∧ s1.display.pixel col row = true) →
        s2.V 0xF = 1)) ∧
    (∃ t1 t2, t.execute j = .ok t1 ∧ t1.execute j = .ok t2 ∧ t2.display = t.display ∧
      ((∃ col row, t.display.pixel col row = false ∧ t1.display.pixel col row = true) →
        t2.V 0xF = 1)) := by
  obtain ⟨hop, hx, hy⟩ := hi
  obtain ⟨hop2, hx2, hy2⟩ := hj
  constructor
  · have h1 := execute_draw_ok s i hop hs
    obtain ⟨s2, h2, hd, hf⟩ := draw_again s _ i hop (by omega) (by omega) h1
    refine ⟨_, s2, h1, h2, hd, ?_⟩
    rintro ⟨col, row, h0, h1x⟩
    apply hf
    refine ⟨s.display.width * row + col, h0, ?_⟩
    simpa [Display.pixel] using h1x
  · by_cases hn : j.n = 0
    · have h1 : t.execute j =
          .ok { t with toChip8 := t.toChip8.flipAll (t.drawPlots16 j) } := by
        rw [superChip_execute_draw16 t j hop2 hn] at ht ⊢
        by_cases hr : t.drawInRange16 j = true
        · rw [if_pos hr]
        · rw [if_neg hr] at ht
          exact absurd rfl ht
      obtain ⟨t2, h2, hd, hf⟩ := draw16_again t _ j hop2 hn (by omega) (by omega) h1
      refine ⟨_, t2, h1, h2, hd, ?_⟩
      rintro ⟨col, row, h0, h1x⟩
      apply hf
      refine ⟨t.display.width * row + col, h0, ?_⟩
      simpa [Display.pixel] using h1x
    · have hjn : 1 ≤ j.n := by omega
      obtain ⟨s1, hb1, ht1⟩ := superChip_execute_draw_ok t j hop2 hjn ht
      obtain ⟨s2, h2, hd, hf⟩ := draw_again t.toChip8 s1 j hop2 (by omega) (by omega) hb1
      have hw : s1.display.width = t.display.width := by
        have := execute_draw_ok t.toChip8 j hop2 (by rw [hb1]; exact fun h => by cases h)
        rw [hb1] at this
        injection this with this
        rw [this]
        simp
      refine ⟨_, _, ht1, superChip_execute_draw_of_base _ j hop2 hjn s2 h2, hd, ?_⟩
      rintro ⟨col, row, h0, h1x⟩
      apply hf
      refine ⟨t.display.width * row + col, h0, ?_⟩
      simpa [Display.pixel, hw] using h1x

/-- C8 at the instruction `D013` on `spriteBase` and at the 16-row draw `D010`
on `spriteSuper`. -/
theorem draw_twice_restores_display_witness :
    ((decode 0xD013).IsDraw ∧ (decode 0xD010).IsDraw ∧
      spriteBase.execute (decode 0xD013) ≠ .error .outOfRange ∧
      spriteSuper.execute (decode 0xD010) ≠ .error .outOfRange) ∧
    ((∃ s1 s2, spriteBase.execute (decode 0xD013) = .ok s1 ∧
      s1.execute (decode 0xD013) = .ok s2 ∧ s2.display = spriteBase.display ∧
      ((∃ col row, spriteBase.display.pixel col row = false ∧
        s1.display.pixel col row = true) → s2.V 0xF = 1)) ∧
    (∃ t1 t2, spriteSuper.execute (decode 0xD010) = .ok t1 ∧
      t1.execute (decode 0xD010) = .ok t2 ∧ t2.display = spriteSuper.display ∧
      ((∃ col row, spriteSuper.display.pixel col row = false ∧
        t1.display.pixel col row = true) → t2.V 0xF = 1))) :=
  have hs : spriteBase.execute (decode 0xD013) ≠ .error .outOfRange := by
    rw [execute_draw_inside _ _ spriteBase_WF (by decide)]
    exact fun h => by cases h
  have ht : spriteSuper.execute (decode 0xD010) ≠ .error .outOfRange := by
    rw [superChip_execute_draw16 _ _ (by decide) (by decide), if_pos (by decide)]
    exact fun h => by cases h
  ⟨⟨by decide, by decide, hs, ht⟩,
    draw_twice_restores_display spriteBase spriteSuper (decode 0xD013) (decode 0xD010)
      (by decide) (by decide) hs ht⟩

/-- The flag `VF` and the colliding pixels after a `DXYN` whose sprite lies inside the
display. -/
theorem draw_inside_flag (s : Chip8) (i : Instruction) (hw : s.WF) (hin : s.SpriteInside i) :
    ((∃ r c, r < i.n ∧ c < 8 ∧ spriteBit (s.memory (s.index + r)) c = true ∧
        s.display.pixel (s.V i.x % s.display.width + c) (s.V i.y % s.display.height + r) = true) →
      (({ s with V := setAt s.V 0xF 0 } : Chip8).flipAll (s.drawPlots i)).V 0xF = 1) ∧
    ((¬ ∃ r c, r < i.n ∧ c < 8 ∧ spriteBit (s.memory (s.index + r)) c = true ∧
        s.display.pixel (s.V i.x % s.display.width + c) (s.V i.y % s.display.height + r) = true) →
      (({ s with V := setAt s.V 0xF 0 } : Chip8).flipAll (s.drawPlots i)).V 0xF = 0) ∧
    (∀ r c, r < i.n → c < 8 → spriteBit (s.memory (s.index + r)) c = true →
      s.display.pixel (s.V i.x % s.display.width + c) (s.V i.y % s.display.height + r) = true →
      (({ s with V := setAt s.V 0xF 0 } : Chip8).flipAll (s.drawPlots i)).display.pixel
        (s.V i.x % s.display.width + c) (s.V i.y % s.display.height + r) = false) := by
  have hpix := (draw_inside_pixels s i hw hin).1
  obtain ⟨hop, -, -, hxin, hyin, hmem⟩ := hin
  obtain ⟨-, hnd, hmemb⟩ := drawPlots_inside s i hw hxin hyin hmem
  have hcol : collides s.display.display (s.drawPlots i) = true ↔
      ∃ r c, r < i.n ∧ c < 8 ∧ spriteBit (s.memory (s.index + r)) c = true ∧
        s.display.pixel (s.V i.x % s.display.width + c) (s.V i.y % s.display.height + r)
          = true := by
    rw [collides_iff_of_nodup _ hnd]
    constructor
    · rintro ⟨idx, hm, hd⟩
      obtain ⟨r, c, h1, h2, h3, h4⟩ := (hmemb idx).mp hm
      refine ⟨r, c, h1, h2, h3, ?_⟩
      rw [Display.pixel, ← Nat.add_assoc, ← h4]
      exact hd
    · rintro ⟨r, c, h1, h2, h3, h4⟩
      refine ⟨_, (hmemb _).mpr ⟨r, c, h1, h2, h3, rfl⟩, ?_⟩
      rw [Display.pixel, ← Nat.add_assoc] at h4
      exact h4
  refine ⟨fun h => ?_, fun h => ?_, fun r c hr hc hb hp => ?_⟩
  · rw [flipAll_VF]
    show (if collides s.display.display (s.drawPlots i) = true then 1 else _) = 1
    rw [if_pos (hcol.mpr h)]
  · rw [flipAll_VF]
    show (if collides s.display.display (s.drawPlots i) = true then 1 else setAt s.V 0xF 0 0xF) = 0
    rw [if_neg (fun hc => h (hcol.mp hc)), setAt_same]
  · rw [hpix r c hr hc, hb, hp]
    rfl

/-- The collision flag away from the 16x16 draw: a draw `DXYN` (`N >= 1` on the
extended machine) whose sprite lies inside the display and whose data lies in
memory, whatever `VF` held before, leaves `VF = 1` if a set sprite bit landed
on a pixel that was set before the draw, and such a pixel is clear afterwards;
otherwise it leaves `VF = 0`. -/
theorem draw_inside_collision_flag (s : Chip8) (t : SuperChip) (i j : Instruction)
    (hws : s.WF) (hwt : t.WF) (hi : s.SpriteInside i) (hj : t.SpriteInside j) (hjn : 1 ≤ j.n) :
    (∃ s1, s.execute i = .ok s1 ∧
      ((∃ r c, r < i.n ∧ c < 8 ∧ spriteBit (s.memory (s.index + r)) c = true ∧
          s.display.pixel (s.V i.x % s.display.width + c) (s.V i.y % s.display.height + r)
            = true) → s1.V 0xF = 1) ∧
      ((¬ ∃ r c, r < i.n ∧ c < 8 ∧ spriteBit (s.memory (s.index + r)) c = true ∧
          s.display.pixel (s.V i.x % s.display.width + c) (s.V i.y % s.display.height + r)
            = true) → s1.V 0xF = 0) ∧
      (∀ r c, r < i.n → c < 8 → spriteBit (s.memory (s.index + r)) c = true →
        s.display.pixel (s.V i.x % s.display.width + c) (s.V i.y % s.display.height + r)
          = true →
        s1.display.pixel (s.V i.x % s.display.width + c) (s.V i.y % s.display.height + r)
          = false)) ∧
    (∃ t1, t.execute j = .ok t1 ∧
      ((∃ r c, r < j.n ∧ c < 8 ∧ spriteBit (t.memory (t.index + r)) c = true ∧
          t.display.pixel (t.V j.x % t.display.width + c) (t.V j.y % t.display.height + r)
            = true) → t1.V 0xF = 1) ∧
      ((¬ ∃ r c, r < j.n ∧ c < 8 ∧ spriteBit (t.memory (t.index + r)) c = true ∧
          t.display.pixel (t.V j.x % t.display.width + c) (t.V j.y % t.display.height + r)
            = true) → t1.V 0xF = 0) ∧
      (∀ r c, r < j.n → c < 8 → spriteBit (t.memory (t.index + r)) c = true →
        t.display.pixel (t.V j.x % t.display.width + c) (t.V j.y % t.display.height + r)
          = true →
        t1.display.pixel (t.V j.x % t.display.width + c) (t.V j.y % t.display.height + r)
          = false)) :=
  ⟨⟨_, execute_draw_inside s i hws hi, draw_inside_flag s i hws hi⟩,
    ⟨_, superChip_execute_draw_inside t j hwt hj hjn, draw_inside_flag t.toChip8 j hwt hj⟩⟩

theorem spriteBaseLit_WF : spriteBaseLit.WF := by
  have h := spriteBase_WF
  refine ⟨fun r => ?_, h.memory_lt, h.pc_lt, h.index_lt, h.delay_lt, h.sound_lt, h.stack_lt⟩
  show setAt spriteBase.V 0xF 7 r < 256
  by_cases hr : r = 0xF
  · rw [hr, setAt_same]
    decide
  · rw [setAt_of_ne _ _ hr]
    exact h.V_lt r

theorem spriteSuperLit_WF : spriteSuperLit.WF := by
  have h := spriteSuper_WF
  refine ⟨fun r => ?_, h.memory_lt, h.pc_lt, h.index_lt, h.delay_lt, h.sound_lt, h.stack_lt⟩
  show setAt spriteSuper.V 0xF 7 r < 256
  by_cases hr : r = 0xF
  · rw [hr, setAt_same]
    decide
  · rw [setAt_of_ne _ _ hr]
    exact h.V_lt r

/-- The collision flag at the instruction `D013` on `spriteBaseLit` and
`spriteSuperLit`, where the sprite bit of column 0, row 0 lands on the set
pixel `(2, 3)` and `VF` was 7. -/
theorem draw_inside_collision_flag_witness :
    (spriteBaseLit.WF ∧ spriteSuperLit.WF ∧ spriteBaseLit.SpriteInside (decode 0xD013) ∧
      spriteSuperLit.SpriteInside (decode 0xD013) ∧ 1 ≤ (decode 0xD013).n) ∧
    ((∃ s1, spriteBaseLit.execute (decode 0xD013) = .ok s1 ∧
      ((∃ r c, r < 3 ∧ c < 8 ∧ spriteBit (spriteBaseLit.memory (0x300 + r)) c = true ∧
          spriteBaseLit.display.pixel (2 + c) (3 + r) = true) → s1.V 0xF = 1) ∧
      ((¬ ∃ r c, r < 3 ∧ c < 8 ∧ spriteBit (spriteBaseLit.memory (0x300 + r)) c = true ∧
          spriteBaseLit.display.pixel (2 + c) (3 + r) = true) → s1.V 0xF = 0) ∧
      (∀ r c, r < 3 → c < 8 → spriteBit (spriteBaseLit.memory (0x300 + r)) c = true →
        spriteBaseLit.display.pixel (2 + c) (3 + r) = true →
        s1.display.pixel (2 + c) (3 + r) = false)) ∧
    (∃ t1, spriteSuperLit.execute (decode 0xD013) = .ok t1 ∧
      ((∃ r c, r < 3 ∧ c < 8 ∧ spriteBit (spriteSuperLit.memory (0x300 + r)) c = true ∧
          spriteSuperLit.display.pixel (2 + c) (3 + r) = true) → t1.V 0xF = 1) ∧
      ((¬ ∃ r c, r < 3 ∧ c < 8 ∧ spriteBit (spriteSuperLit.memory (0x300 + r)) c = true ∧
          spriteSuperLit.display.pixel (2 + c) (3 + r) = true) → t1.V 0xF = 0) ∧
      (∀ r c, r < 3 → c < 8 → spriteBit (spriteSuperLit.memory (0x300 + r)) c = true →
        spriteSuperLit.display.pixel (2 + c) (3 + r) = true →
        t1.display.pixel (2 + c) (3 + r) = false))) :=
  ⟨⟨spriteBaseLit_WF, spriteSuperLit_WF, by decide, by decide, by decide⟩,
    draw_inside_collision_flag spriteBaseLit spriteSuperLit (decode 0xD013) (decode 0xD013)
      spriteBaseLit_WF spriteSuperLit_WF (by decide) (by decide) (by decide)⟩

/-- C9, at the right edge: with `V0 = 60`, `V1 = 0` and the sprite byte `0xFF`
the instruction `D011` draws a sprite that extends past column 63.  `execute`
plots column 4 of the sprite at position `64 * 0 + 60 + 4 = 64` before it tests
`x + col >= width`, so the pixel `(0, 1)`, in a column left of `x0 = 60` and in
a row the one-row sprite does not cover, is turned on.  At the bottom edge:
with `V1 = 31` the instruction `D012` plots its second row at position
`64 * 32 = 2048`, outside the pixel vector, before it tests
`y + row >= height`. -/
theorem draw_edge_not_clipped :
    (∃ s1, edgeBase.execute (decode 0xD011) = .ok s1 ∧
      edgeBase.V 0 % edgeBase.display.width + 8 > edgeBase.display.width ∧
      edgeBase.display.pixel 0 1 = false ∧ s1.display.pixel 0 1 = true) ∧
    bottomBase.execute (decode 0xD012) = .error .outOfRange := by
  refine ⟨⟨_, rfl, by decide, by decide, by decide⟩, ?_⟩
  rfl

/-! ## The decoder -/

theorem and_mask_shift (w c k : Nat) : (w &&& (c <<< k)) >>> k = (w >>> k) &&& c := by
  apply Nat.eq_of_testBit_eq
  intro j
  simp only [Nat.testBit_shiftRight, Nat.testBit_and, Nat.testBit_shiftLeft]
  have h1 : k + j ≥ k := Nat.le_add_right k j
  have h2 : k + j - k = j := by omega
  simp [h1, h2]

theorem and_low_mask (w n : Nat) : w &&& (2 ^ n - 1) = w % 2 ^ n :=
  Nat.and_pow_two_sub_one_eq_mod w n

theorem decode_opcode (w : Nat) : (decode w).opcode = w / 4096 % 16 := by
  have h : (0xF000 : Nat) = 15 <<< 12 := by decide
  have h15 : (15 : Nat) = 2 ^ 4 - 1 := by decide
  simp only [decode]
  rw [h, and_mask_shift, h15, and_low_mask, Nat.shiftRight_eq_div_pow]
  omega

theorem decode_x (w : Nat) : (decode w).x = w / 256 % 16 := by
  have h : (0x0F00 : Nat) = 15 <<< 8 := by decide
  have h15 : (15 : Nat) = 2 ^ 4 - 1 := by decide
  simp only [decode]
  rw [h, and_mask_shift, h15, and_low_mask, Nat.shiftRight_eq_div_pow]
  omega

theorem decode_y (w : Nat) : (decode w).y = w / 16 % 16 := by
  have h : (0x00F0 : Nat) = 15 <<< 4 := by decide
  have h15 : (15 : Nat) = 2 ^ 4 - 1 := by decide
  simp only [decode]
  rw [h, and_mask_shift, h15, and_low_mask, Nat.shiftRight_eq_div_pow]
  omega

theorem decode_n (w : Nat) : (decode w).n = w % 16 := by
  have h15 : (0x000F : Nat) = 2 ^ 4 - 1 := by decide
  simp only [decode]
  rw [h15, and_low_mask]
  omega

theorem decode_nn (w : Nat) : (decode w).nn = w % 256 := by
  have h : (0x00FF : Nat) = 2 ^ 8 - 1 := by decide
  simp only [decode]
  rw [h, and_low_mask]
  rfl

theorem decode_nnn (w : Nat) : (decode w).nnn = w % 4096 := by
  have h : (0x0FFF : Nat) = 2 ^ 12 - 1 := by decide
  simp only [decode]
  rw [h, and_low_mask]
  rfl

/-- C18: for every 16-bit word `w`, `decode` (a total function) returns the
record with `opcode = w >> 12`, `x = (w >> 8) mod 16`, `y = (w >> 4) mod 16`,
`n = w mod 16`, `nn = w mod 256`, `nnn = w mod 4096`; `w` is recovered as
`opcode * 4096 + nnn`, and a 16-bit word `v` with the same record is `w`. -/
theorem decode_fields_and_injective (w v : Nat) (hw : w < 65536) (hv : v < 65536) :
    (decode w).opcode = w >>> 12 ∧ (decode w).x = (w >>> 8) % 16 ∧
    (decode w).y = (w >>> 4) % 16 ∧ (decode w).n = w % 16 ∧
    (decode w).nn = w % 256 ∧ (decode w).nnn = w % 4096 ∧
    w = (decode w).opcode * 4096 + (decode w).nnn ∧
    (decode v = decode w → v = w) := by
  simp only [Nat.shiftRight_eq_div_pow]
  refine ⟨?_, ?_, ?_, decode_n w, decode_nn w, decode_nnn w, ?_, ?_⟩
  · rw [decode_opcode]; omega
  · rw [decode_x]
  · rw [decode_y]
  · rw [decode_opcode, decode_nnn]; omega
  · intro h
    have h1 : (decode v).opcode = (decode w).opcode := by rw [h]
    have h2 : (decode v).nnn = (decode w).nnn := by rw [h]
    rw [decode_opcode, decode_opcode] at h1
    rw [decode_nnn, decode_nnn] at h2
    omega

/-- C18 at the words `0xD123` and `0x8125`. -/
theorem decode_fields_and_injective_witness :
    ((0xD123 : Nat) < 65536 ∧ (0x8125 : Nat) < 65536) ∧
    ((decode 0xD123).opcode = 0xD ∧ (decode 0xD123).x = 1 ∧
    (decode 0xD123).y = 2 ∧ (decode 0xD123).n = 3 ∧
    (decode 0xD123).nn = 0x23 ∧ (decode 0xD123).nnn = 0x123 ∧
    0xD123 = (decode 0xD123).opcode * 4096 + (decode 0xD123).nnn ∧
    (decode 0x8125 = decode 0xD123 → (0x8125 : Nat) = 0xD123)) :=
  ⟨by decide, decode_fields_and_injective 0xD123 0x8125 (by decide) (by decide)⟩

/-! ## Instructions the extended machine hands to the base table -/

theorem superChip_execute_other (t : SuperChip) (i : Instruction) (h0 : i.opcode ≠ 0)
    (hD : i.opcode ≠ 0xD) (hF : i.opcode ≠ 0xF) : t.execute i = t.executeBase i := by
  unfold SuperChip.execute
  split
  · exact absurd (by assumption) h0
  · exact absurd (by assumption) hD
  · exact absurd (by assumption) hF
  · rfl

theorem superChip_execute_misc (t : SuperChip) (i : Instruction) (hop : i.opcode = 0xF)
    (h30 : i.nn ≠ 0x30) (h75 : i.nn ≠ 0x75) (h85 : i.nn ≠ 0x85) :
    t.execute i = t.executeBase i := by
  unfold SuperChip.execute
  simp only [hop]

theorem chip8_execute_misc (s : Chip8) (i : Instruction) (hop : i.opcode = 0xF) :
    s.execute i = s.executeMisc i := by
  simp [Chip8.execute, hop]

/-! ## Font lookup, BCD store, jump with offset, random -/

/-- C11, at the instruction `F029` with `V0 = 0` on a freshly constructed
machine: the glyph of digit 0 lies at `0x050` (`memory[0x050] = 0xF0`), yet
`execute` sets `I = 0`, where memory holds 0; with `V0 = 1` (first register of
the second machine) it sets `I = 5`, not `0x055`. -/
theorem font_lookup_misses_font_base :
    (∃ s1, (baseWith [0]).execute (decode 0xF029) = .ok s1 ∧ s1.index = 0 ∧
      s1.memory s1.index = 0 ∧ s1.memory 0x050 = 0xF0) ∧
    (∃ s1, (baseWith [1]).execute (decode 0xF029) = .ok s1 ∧ s1.index = 5 ∧
      s1.memory s1.index = 0 ∧ s1.memory 0x055 = 0x20) := by
  refine ⟨⟨_, rfl, ?_, ?_, ?_⟩, ⟨_, rfl, ?_, ?_, ?_⟩⟩ <;> decide

/-- The font lookup `FX29` sets `I = 5 * VX` and changes nothing else. -/
theorem font_lookup_times_five (s : Chip8) (i : Instruction) (hi : i.IsMisc 0x29) (hw : s.WF) :
    s.execute i = .ok { s with index := 5 * s.V i.x } := by
  obtain ⟨hop, hnn, -⟩ := hi
  have := hw.V_lt i.x
  have h : s.V i.x * 5 % 65536 = 5 * s.V i.x := by omega
  simp [chip8_execute_misc s i hop, Chip8.executeMisc, hnn, h]

/-- C16, at the instruction `C002` when `rand()` returns 6: the bitwise AND of 6
and the mask 2 is 2, yet `execute` stores the truth value of `6 && 2`, which is
1, so `V0` has bit 0 set although it is clear in the mask. -/
theorem random_stores_truth_value :
    (6 &&& 2 = 2) ∧
    ∃ s1, ({ baseWith [] with rand := randSix } : Chip8).execute (decode 0xC002) = .ok s1 ∧
      s1.V 0 = 1 := by
  refine ⟨by decide, _, rfl, ?_⟩
  decide

theorem spriteBaseFF_WF : spriteBaseFF.WF :=
  withSprite_WF _ _ _ (baseWith_WF _ (by decide)) (by decide) (by decide)

theorem spriteSuperFF_WF : spriteSuperFF.WF :=
  withSprite_WF _ _ _ (superWith_WF _ (by decide)) (by decide) (by decide)

/-- The state after the BCD store `FX33` when the three bytes lie in memory. -/
theorem executeMisc_bcd (s : Chip8) (i : Instruction) (hnn : i.nn = 0x33) (hw : s.WF)
    (hI : s.index + 2 < 4096) :
    s.executeMisc i = .ok { s with memory := s.bcdMemory i } := by
  have hv := hw.V_lt i.x
  have h0 : s.index < 4096 := by omega
  have h1 : s.index + 1 < 4096 := by omega
  have e1 : s.V i.x / 100 % 256 = s.V i.x / 100 := by omega
  have e2 : s.V i.x / 10 % 10 % 256 = s.V i.x / 10 % 10 := by omega
  have e3 : s.V i.x % 10 % 256 = s.V i.x % 10 := by omega
  simp [Chip8.executeMisc, hnn, Chip8.writeMem, h0, h1, hI, e1, e2, e3, Chip8.bcdMemory]

theorem bcd_post (s : Chip8) (i : Instruction) (hw : s.WF) :
    s.bcdMemory i s.index = s.V i.x / 100 ∧
    s.bcdMemory i (s.index + 1) = s.V i.x / 10 % 10 ∧
    s.bcdMemory i (s.index + 2) = s.V i.x % 10 ∧
    s.V i.x / 100 ≤ 9 ∧ s.V i.x / 10 % 10 ≤ 9 ∧ s.V i.x % 10 ≤ 9 ∧
    100 * (s.V i.x / 100) + 10 * (s.V i.x / 10 % 10) + s.V i.x % 10 = s.V i.x ∧
    (∀ a, a ≠ s.index → a ≠ s.index + 1 → a ≠ s.index + 2 →
      s.bcdMemory i a = s.memory a) := by
  have hv := hw.V_lt i.x
  unfold Chip8.bcdMemory
  refine ⟨?_, ?_, ?_, by omega, by omega, by omega, by omega, ?_⟩
  · rw [setAt_of_ne _ _ (by omega), setAt_of_ne _ _ (by omega), setAt_same]
  · rw [setAt_of_ne _ _ (by omega), setAt_same]
  · rw [setAt_same]
  · intro a h0 h1 h2
    rw [setAt_of_ne _ _ h2, setAt_of_ne _ _ h1, setAt_of_ne _ _ h0]

/-- C12: for every 8-bit value `v` in `VX` and every `I` with `I + 2 < 4096`,
the BCD store `FX33` writes `h = v / 100`, `t = v / 10 mod 10`, `u = v mod 10`
to `memory[I]`, `memory[I + 1]`, `memory[I + 2]`, each at most 9 and with
`100 h + 10 t + u = v`, and changes no other memory byte, no register and not
the index register; on the base and on the extended machine. -/
theorem bcd_store_digits (s : Chip8) (t : SuperChip) (i : Instruction) (hi : i.IsMisc 0x33)
    (hws : s.WF) (hwt : t.WF) (hsI : s.index + 2 < 4096) (htI : t.index + 2 < 4096) :
    (∃ s1, s.execute i = .ok s1 ∧
      s1.memory s.index = s.V i.x / 100 ∧ s1.memory (s.index + 1) = s.V i.x / 10 % 10 ∧
      s1.memory (s.index + 2) = s.V i.x % 10 ∧
      s.V i.x / 100 ≤ 9 ∧ s.V i.x / 10 % 10 ≤ 9 ∧ s.V i.x % 10 ≤ 9 ∧
      100 * (s.V i.x / 100) + 10 * (s.V i.x / 10 % 10) + s.V i.x % 10 = s.V i.x ∧
      (∀ a, a ≠ s.index → a ≠ s.index + 1 → a ≠ s.index + 2 → s1.memory a = s.memory a) ∧
      s1.V = s.V ∧ s1.index = s.index) ∧
    (∃ t1, t.execute i = .ok t1 ∧
      t1.memory t.index = t.V i.x / 100 ∧ t1.memory (t.index + 1) = t.V i.x / 10 % 10 ∧
      t1.memory (t.index + 2) = t.V i.x % 10 ∧
      t.V i.x / 100 ≤ 9 ∧ t.V i.x / 10 % 10 ≤ 9 ∧ t.V i.x % 10 ≤ 9 ∧
      100 * (t.V i.x / 100) + 10 * (t.V i.x / 10 % 10) + t.V i.x % 10 = t.V i.x ∧
      (∀ a, a ≠ t.index → a ≠ t.index + 1 → a ≠ t.index + 2 → t1.memory a = t.memory a) ∧
      t1.V = t.V ∧ t1.index = t.index) := by
  obtain ⟨hop, hnn, -⟩ := hi
  constructor
  · obtain ⟨h1, h2, h3, h4, h5, h6, h7, h8⟩ := bcd_post s i hws
    exact ⟨{ s with memory := s.bcdMemory i },
      by rw [chip8_execute_misc s i hop, executeMisc_bcd s i hnn hws hsI],
      h1, h2, h3, h4, h5, h6, h7, h8, rfl, rfl⟩
  · obtain ⟨h1, h2, h3, h4, h5, h6, h7, h8⟩ := bcd_post t.toChip8 i hwt
    have he : t.execute i =
        .ok { t with toChip8 := { t.toChip8 with memory := t.bcdMemory i } } := by
      rw [superChip_execute_misc t i hop (by omega) (by omega) (by omega), SuperChip.executeBase,
        chip8_execute_misc _ i hop, executeMisc_bcd _ i hnn hwt htI]
    exact ⟨_, he, h1, h2, h3, h4, h5, h6, h7, h8, rfl, rfl⟩

/-- C12 at `V0 = 255`, `I = 0x300` and the instruction `F033`: the bytes are
2, 5, 5. -/
theorem bcd_store_digits_witness :
    ((decode 0xF033).IsMisc 0x33 ∧ spriteBaseFF.WF ∧ spriteSuperFF.WF ∧
      spriteBaseFF.index + 2 < 4096 ∧ spriteSuperFF.index + 2 < 4096) ∧
    ((∃ s1, spriteBaseFF.execute (decode 0xF033) = .ok s1 ∧
      s1.memory 0x300 = 2 ∧ s1.memory 0x301 = 5 ∧ s1.memory 0x302 = 5 ∧
      2 ≤ 9 ∧ 5 ≤ 9 ∧ 5 ≤ 9 ∧ 100 * 2 + 10 * 5 + 5 = 255 ∧
      (∀ a, a ≠ 0x300 → a ≠ 0x301 → a ≠ 0x302 → s1.memory a = spriteBaseFF.memory a) ∧
      s1.V = spriteBaseFF.V ∧ s1.index = 0x300) ∧
    (∃ t1, spriteSuperFF.execute (decode 0xF033) = .ok t1 ∧
      t1.memory 0x300 = 2 ∧ t1.memory 0x301 = 5 ∧ t1.memory 0x302 = 5 ∧
      2 ≤ 9 ∧ 5 ≤ 9 ∧ 5 ≤ 9 ∧ 100 * 2 + 10 * 5 + 5 = 255 ∧
      (∀ a, a ≠ 0x300 → a ≠ 0x301 → a ≠ 0x302 → t1.memory a = spriteSuperFF.memory a) ∧
      t1.V = spriteSuperFF.V ∧ t1.index = 0x300)) :=
  ⟨⟨by decide, spriteBaseFF_WF, spriteSuperFF_WF, by decide, by decide⟩,
    bcd_store_digits spriteBaseFF spriteSuperFF (decode 0xF033) (by decide)
      spriteBaseFF_WF spriteSuperFF_WF (by decide) (by decide)⟩

theorem decode_jump_offset (nnn : Nat) (h : nnn < 4096) :
    (decode (0xB000 + nnn)).opcode = 0xB ∧ (decode (0xB000 + nnn)).nnn = nnn ∧
    (decode (0xB000 + nnn)).x = nnn / 256 := by
  rw [decode_opcode, decode_nnn, decode_x]
  omega

/-- C15: for every 12-bit address `NNN` and every register state, the jump
with offset `BNNN` sets the program counter to `NNN + V0` on the base machine
and to `NNN + VX` on the extended machine, `X` being bits 11-8 of `NNN`; no
register, memory byte or stack entry changes. -/
theorem jump_with_offset_target (s : Chip8) (t : SuperChip) (nnn : Nat) (hn : nnn < 4096)
    (hs : s.super_chip = false) (ht : t.super_chip = true) (hws : s.WF) (hwt : t.WF) :
    (∃ s1, s.execute (decode (0xB000 + nnn)) = .ok s1 ∧ s1.pc = nnn + s.V 0 ∧
      s1.V = s.V ∧ s1.memory = s.memory ∧ s1.stack = s.stack) ∧
    (∃ t1, t.execute (decode (0xB000 + nnn)) = .ok t1 ∧ t1.pc = nnn + t.V (nnn / 256) ∧
      t1.V = t.V ∧ t1.memory = t.memory ∧ t1.stack = t.stack) := by
  obtain ⟨hop, hnnn, hx⟩ := decode_jump_offset nnn hn
  constructor
  · have h0 := hws.V_lt 0
    refine ⟨{ s with pc := nnn + s.V 0 }, ?_, rfl, rfl, rfl, rfl⟩
    have hm : (nnn + s.V 0) % 65536 = nnn + s.V 0 := by omega
    simp only [Chip8.execute, hop, hs, hnnn, hm]
    rfl
  · have h0 := hwt.V_lt (nnn / 256)
    refine ⟨{ t with pc := nnn + t.V (nnn / 256) }, ?_, rfl, rfl, rfl, rfl⟩
    have hm : (nnn + t.V (nnn / 256)) % 65536 = nnn + t.V (nnn / 256) := by omega
    rw [superChip_execute_other t _ (by omega) (by omega) (by omega), SuperChip.executeBase]
    simp only [Chip8.execute, hop, ht, hnnn, hx, hm]
    rfl

/-- C15 at `NNN = 0x234` with `V0 = 255`, `V2 = 2`. -/
theorem jump_with_offset_target_witness :
    ((0x234 : Nat) < 4096 ∧ spriteBaseFF.super_chip = false ∧ spriteSuperFF.super_chip = true ∧
      spriteBaseFF.WF ∧ spriteSuperFF.WF) ∧
    ((∃ s1, spriteBaseFF.execute (decode (0xB000 + 0x234)) = .ok s1 ∧ s1.pc = 0x234 + 255 ∧
      s1.V = spriteBaseFF.V ∧ s1.memory = spriteBaseFF.memory ∧
      s1.stack = spriteBaseFF.stack) ∧
    (∃ t1, spriteSuperFF.execute (decode (0xB000 + 0x234)) = .ok t1 ∧ t1.pc = 0x234 + 2 ∧
      t1.V = spriteSuperFF.V ∧ t1.memory = spriteSuperFF.memory ∧
      t1.stack = spriteSuperFF.stack)) :=
  ⟨⟨by decide, rfl, rfl, spriteBaseFF_WF, spriteSuperFF_WF⟩,
    jump_with_offset_target spriteBaseFF spriteSuperFF 0x234 (by decide) rfl rfl
      spriteBaseFF_WF spriteSuperFF_WF⟩

/-! ## Register block store `FX55` and load `FX65` -/

/-- The memory after `k` registers from `V[j]` on were stored from address `a`
on. -/
theorem storedMem_spec (V mem : Nat → Nat) (a j k : Nat) (b : Nat) :
    storedMem V mem a j k b =
      if a ≤ b ∧ b < a + k then V (j + (b - a)) % 256 else mem b := by
  induction k generalizing mem a j with
  | zero =>
    have h : ¬ (a ≤ b ∧ b < a + 0) := by omega
    rw [storedMem, if_neg h]
  | succ k ih =>
    rw [storedMem, ih]
    by_cases h1 : a + 1 ≤ b ∧ b < a + 1 + k
    · have h2 : a ≤ b ∧ b < a + (k + 1) := by omega
      have h3 : j + 1 + (b - (a + 1)) = j + (b - a) := by omega
      rw [if_pos h1, if_pos h2, h3]
    · rw [if_neg h1]
      by_cases hb : b = a
      · subst hb
        have h2 : b ≤ b ∧ b < b + (k + 1) := by omega
        rw [if_pos h2, setAt_same]
        simp
      · have h2 : ¬ (a ≤ b ∧ b < a + (k + 1)) := by omega
        rw [if_neg h2, setAt_of_ne _ _ hb]

theorem forLoop_storeRegBase (k j : Nat) (s : Chip8) (h : s.index + k ≤ 4096) :
    forLoop Chip8.storeRegBase k j s =
      .ok { s with memory := storedMem s.V s.memory s.index j k, index := s.index + k } := by
  induction k generalizing j s with
  | zero => rfl
  | succ k ih =>
    have h0 : s.index < 4096 := by omega
    have hm : (s.index + 1) % 65536 = s.index + 1 := by omega
    rw [forLoop_succ]
    simp only [Chip8.storeRegBase, Chip8.writeMem, h0, if_true, hm]
    rw [ih _ _ (by simp only; omega)]
    simp only [storedMem, Nat.add_assoc, Nat.add_comm 1 k]

theorem forLoop_storeRegSuper (k j : Nat) (s : Chip8) (h : k = 0 ∨ s.index + j + k ≤ 4096) :
    forLoop Chip8.storeRegSuper k j s =
      .ok { s with memory := storedMem s.V s.memory (s.index + j) j k } := by
  induction k generalizing j s with
  | zero => rfl
  | succ k ih =>
    have h0 : s.index + j < 4096 := by omega
    rw [forLoop_succ]
    simp only [Chip8.storeRegSuper, Chip8.writeMem, h0, if_true]
    rw [ih _ _ (by simp only; omega)]
    simp only [storedMem, Nat.add_assoc]

/-- The registers after `k` registers from `V[j]` on were loaded from address
`a` on. -/
theorem loadedRegs_spec (mem V : Nat → Nat) (a j k : Nat) (r : Nat) :
    loadedRegs mem V a j k r =
      if j ≤ r ∧ r < j + k then mem (a + (r - j)) else V r := by
  induction k generalizing V a j with
  | zero =>
    have h : ¬ (j ≤ r ∧ r < j + 0) := by omega
    rw [loadedRegs, if_neg h]
  | succ k ih =>
    rw [loadedRegs, ih]
    by_cases h1 : j + 1 ≤ r ∧ r < j + 1 + k
    · have h2 : j ≤ r ∧ r < j + (k + 1) := by omega
      have h3 : a + 1 + (r - (j + 1)) = a + (r - j) := by omega
      rw [if_pos h1, if_pos h2, h3]
    · rw [if_neg h1]
      by_cases hb : r = j
      · subst hb
        have h2 : r ≤ r ∧ r < r + (k + 1) := by omega
        rw [if_pos h2, setAt_same]
        simp
      · have h2 : ¬ (j ≤ r ∧ r < j + (k + 1)) := by omega
        rw [if_neg h2, setAt_of_ne _ _ hb]

theorem forLoop_loadRegBase (k j : Nat) (s : Chip8) (h : s.index + k ≤ 4096) :
    forLoop Chip8.loadRegBase k j s =
      .ok { s with V := loadedRegs s.memory s.V s.index j k, index := s.index + k } := by
  induction k generalizing j s with
  | zero => rfl
  | succ k ih =>
    have h0 : s.index < 4096 := by omega
    have hm : (s.index + 1) % 65536 = s.index + 1 := by omega
    rw [forLoop_succ]
    simp only [Chip8.loadRegBase, Chip8.readMem, h0, if_true, hm]
    rw [ih _ _ (by simp only; omega)]
    simp only [loadedRegs, Nat.add_assoc, Nat.add_comm 1 k]

theorem forLoop_loadRegSuper (k j : Nat) (s : Chip8) (h : k = 0 ∨ s.index + j + k ≤ 4096) :
    forLoop Chip8.loadRegSuper k j s =
      .ok { s with V := loadedRegs s.memory s.V (s.index + j) j k } := by
  induction k generalizing j s with
  | zero => rfl
  | succ k ih =>
    have h0 : s.index + j < 4096 := by omega
    rw [forLoop_succ]
    simp only [Chip8.loadRegSuper, Chip8.readMem, h0, if_true]
    rw [ih _ _ (by simp only; omega)]
    simp only [loadedRegs, Nat.add_assoc]

/-- The state after the register block store `FX55` when the block lies in
memory. -/
theorem executeMisc_store (s : Chip8) (i : Instruction) (hnn : i.nn = 0x55)
    (hI : s.index + i.x < 4096) :
    s.executeMisc i = .ok { s with
      memory := storedMem s.V s.memory s.index 0 (i.x + 1)
      index := if s.super_chip then s.index else s.index + (i.x + 1) } := by
  rcases Bool.eq_false_or_eq_true s.super_chip with hs | hs
  · simp [Chip8.executeMisc, hnn, hs, forLoop_storeRegSuper (i.x + 1) 0 s (by omega)]
  · simp [Chip8.executeMisc, hnn, hs, forLoop_storeRegBase (i.x + 1) 0 s (by omega)]

/-- The state after the register block load `FX65` when the block lies in
memory. -/
theorem executeMisc_load (s : Chip8) (i : Instruction) (hnn : i.nn = 0x65)
    (hI : s.index + i.x < 4096) :
    s.executeMisc i = .ok { s with
      V := loadedRegs s.memory s.V s.index 0 (i.x + 1)
      index := if s.super_chip then s.index else s.index + (i.x + 1) } := by
  rcases Bool.eq_false_or_eq_true s.super_chip with hs | hs
  · simp [Chip8.executeMisc, hnn, hs, forLoop_loadRegSuper (i.x + 1) 0 s (by omega)]
  · simp [Chip8.executeMisc, hnn, hs, forLoop_loadRegBase (i.x + 1) 0 s (by omega)]

theorem chip8_execute_store (s : Chip8) (i : Instruction) (hi : i.IsMisc 0x55)
    (hI : s.index + i.x < 4096) :
    s.execute i = .ok { s with
      memory := storedMem s.V s.memory s.index 0 (i.x + 1)
      index := if s.super_chip then s.index else s.index + (i.x + 1) } := by
  rw [chip8_execute_misc s i hi.1, executeMisc_store s i hi.2.1 hI]

theorem chip8_execute_load (s : Chip8) (i : Instruction) (hi : i.IsMisc 0x65)
    (hI : s.index + i.x < 4096) :
    s.execute i = .ok { s with
      V := loadedRegs s.memory s.V s.index 0 (i.x + 1)
      index := if s.super_chip then s.index else s.index + (i.x + 1) } := by
  rw [chip8_execute_misc s i hi.1, executeMisc_load s i hi.2.1 hI]

theorem superChip_execute_store (t : SuperChip) (i : Instruction) (hi : i.IsMisc 0x55)
    (hI : t.index + i.x < 4096) :
    t.execute i = .ok { t with toChip8 := { t.toChip8 with
      memory := storedMem t.V t.memory t.index 0 (i.x + 1)
      index := if t.super_chip then t.index else t.index + (i.x + 1) } } := by
  obtain ⟨hop, hnn, -⟩ := hi
  rw [superChip_execute_misc t i hop (by omega) (by omega) (by omega), SuperChip.executeBase,
    chip8_execute_misc _ i hop, executeMisc_store _ i hnn hI]

theorem superChip_execute_load (t : SuperChip) (i : Instruction) (hi : i.IsMisc 0x65)
    (hI : t.index + i.x < 4096) :
    t.execute i = .ok { t with toChip8 := { t.toChip8 with
      V := loadedRegs t.memory t.V t.index 0 (i.x + 1)
      index := if t.super_chip then t.index else t.index + (i.x + 1) } } := by
  obtain ⟨hop, hnn, -⟩ := hi
  rw [superChip_execute_misc t i hop (by omega) (by omega) (by omega), SuperChip.executeBase,
    chip8_execute_misc _ i hop, executeMisc_load _ i hnn hI]

theorem storedMem_block (s : Chip8) (hw : s.WF) (x r : Nat) (hr : r ≤ x) :
    storedMem s.V s.memory s.index 0 (x + 1) (s.index + r) = s.V r := by
  have hv := hw.V_lt r
  have h : s.index ≤ s.index + r ∧ s.index + r < s.index + (x + 1) := by omega
  have h2 : 0 + (s.index + r - s.index) = r := by omega
  rw [storedMem_spec, if_pos h, h2]
  omega

theorem storedMem_outside (s : Chip8) (x a : Nat) (ha : a < s.index ∨ s.index + x < a) :
    storedMem s.V s.memory s.index 0 (x + 1) a = s.memory a := by
  have h : ¬ (s.index ≤ a ∧ a < s.index + (x + 1)) := by omega
  rw [storedMem_spec, if_neg h]

/-- C14: for `X` in `0..15` and `I0 + X < 4096` the register block store `FX55`
writes `Vj` to `memory[I0 + j]` for every `j <= X` and changes no other memory
byte; `FX55` and `FX65` leave the index register at `I0 + X + 1` on the base
machine and at `I0` on the extended machine. -/
theorem block_transfer_memory_and_index (s : Chip8) (t : SuperChip) (i j : Instruction)
    (hi : i.IsMisc 0x55) (hj : j.IsMisc 0x65)
    (hs : s.super_chip = false) (ht : t.super_chip = true) (hws : s.WF) (hwt : t.WF)
    (hsi : s.index + i.x < 4096) (hsj : s.index + j.x < 4096)
    (hti : t.index + i.x < 4096) (htj : t.index + j.x < 4096) :
    (∃ s1, s.execute i = .ok s1 ∧
      (∀ r, r ≤ i.x → s1.memory (s.index + r) = s.V r) ∧
      (∀ a, a < s.index ∨ s.index + i.x < a → s1.memory a = s.memory a) ∧
      s1.index = s.index + i.x + 1) ∧
    (∃ s1, s.execute j = .ok s1 ∧ s1.index = s.index + j.x + 1) ∧
    (∃ t1, t.execute i = .ok t1 ∧
      (∀ r, r ≤ i.x → t1.memory (t.index + r) = t.V r) ∧
      (∀ a, a < t.index ∨ t.index + i.x < a → t1.memory a = t.memory a) ∧
      t1.index = t.index) ∧
    (∃ t1, t.execute j = .ok t1 ∧ t1.index = t.index) := by
  refine ⟨⟨_, chip8_execute_store s i hi hsi, fun r hr => storedMem_block s hws i.x r hr,
      fun a ha => storedMem_outside s i.x a ha, ?_⟩,
    ⟨_, chip8_execute_load s j hj hsj, ?_⟩,
    ⟨_, superChip_execute_store t i hi hti, fun r hr => storedMem_block t.toChip8 hwt i.x r hr,
      fun a ha => storedMem_outside t.toChip8 i.x a ha, ?_⟩,
    ⟨_, superChip_execute_load t j hj htj, ?_⟩⟩
  · simp [hs, Nat.add_assoc]
  · simp [hs, Nat.add_assoc]
  · simp [ht]
  · simp [ht]

/-- C14 at `V0..V3 = 255, 1, 2, 3`, `I = 0x300` and the instructions `F355`,
`F365`. -/
theorem block_transfer_memory_and_index_witness :
    ((decode 0xF355).IsMisc 0x55 ∧ (decode 0xF365).IsMisc 0x65 ∧
      spriteBaseFF.super_chip = false ∧ spriteSuperFF.super_chip = true ∧
      spriteBaseFF.WF ∧ spriteSuperFF.WF ∧
      spriteBaseFF.index + (decode 0xF355).x < 4096 ∧
      spriteBaseFF.index + (decode 0xF365).x < 4096 ∧
      spriteSuperFF.index + (decode 0xF355).x < 4096 ∧
      spriteSuperFF.index + (decode 0xF365).x < 4096) ∧
    ((∃ s1, spriteBaseFF.execute (decode 0xF355) = .ok s1 ∧
      (∀ r, r ≤ 3 → s1.memory (0x300 + r) = spriteBaseFF.V r) ∧
      (∀ a, a < 0x300 ∨ 0x300 + 3 < a → s1.memory a = spriteBaseFF.memory a) ∧
      s1.index = 0x304) ∧
    (∃ s1, spriteBaseFF.execute (decode 0xF365) = .ok s1 ∧ s1.index = 0x304) ∧
    (∃ t1, spriteSuperFF.execute (decode 0xF355) = .ok t1 ∧
      (∀ r, r ≤ 3 → t1.memory (0x300 + r) = spriteSuperFF.V r) ∧
      (∀ a, a < 0x300 ∨ 0x300 + 3 < a → t1.memory a = spriteSuperFF.memory a) ∧
      t1.index = 0x300) ∧
    (∃ t1, spriteSuperFF.execute (decode 0xF365) = .ok t1 ∧ t1.index = 0x300)) :=
  ⟨⟨by decide, by decide, rfl, rfl, spriteBaseFF_WF, spriteSuperFF_WF, by decide, by decide,
      by decide, by decide⟩,
    block_transfer_memory_and_index spriteBaseFF spriteSuperFF (decode 0xF355) (decode 0xF365)
      (by decide) (by decide) rfl rfl spriteBaseFF_WF spriteSuperFF_WF (by decide) (by decide)
      (by decide) (by decide)⟩

theorem loaded_block (s s2 : Chip8) (hw : s.WF) (x : Nat) :
    (∀ r, r ≤ x →
      loadedRegs (storedMem s.V s.memory s.index 0 (x + 1)) s2.V s.index 0 (x + 1) r = s.V r) ∧
    (∀ r, x < r →
      loadedRegs (storedMem s.V s.memory s.index 0 (x + 1)) s2.V s.index 0 (x + 1) r
        = s2.V r) := by
  constructor
  · intro r hr
    have h : 0 ≤ r ∧ r < 0 + (x + 1) := by omega
    rw [loadedRegs_spec, if_pos h, Nat.sub_zero]
    exact storedMem_block s hw x r hr
  · intro r hr
    have h : ¬ (0 ≤ r ∧ r < 0 + (x + 1)) := by omega
    rw [loadedRegs_spec, if_neg h]

/-- C13: for `X` in `0..15` and `I0 + X < 4096`, after the register block store
`FX55` executed with `I = I0`, the register block load `FX65` with the same `X`
on a machine that has the resulting memory, arbitrary registers and `I = I0`
yields `V0..VX` as they were stored and leaves the registers above `VX` as
they were before the load; for `Chip8::execute` under either quirk flag and
for `SuperChip::execute`. -/
theorem block_store_load_round_trip (s s2 : Chip8) (t t2 : SuperChip) (i j : Instruction)
    (hi : i.IsMisc 0x55) (hj : j.IsMisc 0x65) (hx : j.x = i.x) (hws : s.WF) (hwt : t.WF)
    (hsI : s.index + i.x < 4096) (htI : t.index + i.x < 4096) :
    (∃ s1 s3, s.execute i = .ok s1 ∧
      ({ s2 with memory := s1.memory, index := s.index } : Chip8).execute j = .ok s3 ∧
      (∀ r, r ≤ i.x → s3.V r = s.V r) ∧ (∀ r, i.x < r → s3.V r = s2.V r)) ∧
    (∃ t1 t3, t.execute i = .ok t1 ∧
      ({ t2 with toChip8 := { t2.toChip8 with memory := t1.memory, index := t.index } } :
        SuperChip).execute j = .ok t3 ∧
      (∀ r, r ≤ i.x → t3.V r = t.V r) ∧ (∀ r, i.x < r → t3.V r = t2.V r)) := by
  constructor
  · refine ⟨_, _, chip8_execute_store s i hi hsI,
      chip8_execute_load _ j hj (by rw [hx]; exact hsI), ?_, ?_⟩
    · intro r hr
      rw [hx]
      exact (loaded_block s s2 hws i.x).1 r hr
    · intro r hr
      rw [hx]
      exact (loaded_block s s2 hws i.x).2 r hr
  · refine ⟨_, _, superChip_execute_store t i hi htI,
      superChip_execute_load _ j hj (by rw [hx]; exact htI), ?_, ?_⟩
    · intro r hr
      rw [hx]
      exact (loaded_block t.toChip8 t2.toChip8 hwt i.x).1 r hr
    · intro r hr
      rw [hx]
      exact (loaded_block t.toChip8 t2.toChip8 hwt i.x).2 r hr

/-- C13 at `V0..V3 = 255, 1, 2, 3`, `I = 0x300`, the instructions `F355`, `F365`
and second machines whose registers hold `9, 9, 9, 9, 9, 9`. -/
theorem block_store_load_round_trip_witness :
    ((decode 0xF355).IsMisc 0x55 ∧ (decode 0xF365).IsMisc 0x65 ∧
      (decode 0xF365).x = (decode 0xF355).x ∧ spriteBaseFF.WF ∧ spriteSuperFF.WF ∧
      spriteBaseFF.index + (decode 0xF355).x < 4096 ∧
      spriteSuperFF.index + (decode 0xF355).x < 4096) ∧
    ((∃ s1 s3, spriteBaseFF.execute (decode 0xF355) = .ok s1 ∧
      ({ baseWith [9, 9, 9, 9, 9, 9] with memory := s1.memory, index := 0x300 } :
        Chip8).execute (decode 0xF365) = .ok s3 ∧
      (∀ r, r ≤ 3 → s3.V r = spriteBaseFF.V r) ∧
      (∀ r, 3 < r → s3.V r = (baseWith [9, 9, 9, 9, 9, 9]).V r)) ∧
    (∃ t1 t3, spriteSuperFF.execute (decode 0xF355) = .ok t1 ∧
      ({ superWith [9, 9, 9, 9, 9, 9] with
          toChip8 := { (superWith [9, 9, 9, 9, 9, 9]).toChip8 with
            memory := t1.memory, index := 0x300 } } :
        SuperChip).execute (decode 0xF365) = .ok t3 ∧
      (∀ r, r ≤ 3 → t3.V r = spriteSuperFF.V r) ∧
      (∀ r, 3 < r → t3.V r = (superWith [9, 9, 9, 9, 9, 9]).V r))) :=
  ⟨⟨by decide, by decide, by decide, spriteBaseFF_WF, spriteSuperFF_WF, by decide, by decide⟩,
    block_store_load_round_trip spriteBaseFF (baseWith [9, 9, 9, 9, 9, 9]) spriteSuperFF
      (superWith [9, 9, 9, 9, 9, 9]) (decode 0xF355) (decode 0xF365)
      (by decide) (by decide) (by decide) spriteBaseFF_WF spriteSuperFF_WF
      (by decide) (by decide)⟩

/-! ## Program load -/

/-- C17: program load on a byte sequence succeeds if and only if the sequence
has at most 3584 bytes; on success `memory[0x200 + k]` is byte `k` for every
`k` below the length and nothing else changes (other memory addresses, the
font region included, and every register); on failure the state is
unchanged. -/
theorem load_rom_bounds_and_frame (s : Chip8) (bytes small large : List Nat)
    (hs : small.length ≤ 3584) (hb : ∀ b ∈ small, b < 256) (hl : 3584 < large.length) :
    ((s.loadROM (some bytes)).2 = none ↔ bytes.length ≤ 3584) ∧
    ((s.loadROM (some small)).2 = none ∧
      (∀ k, k < small.length → (s.loadROM (some small)).1.memory (0x200 + k) = small.getD k 0) ∧
      (∀ a, a < 0x200 ∨ 0x200 + small.length ≤ a →
        (s.loadROM (some small)).1.memory a = s.memory a) ∧
      (s.loadROM (some small)).1 = { s with memory := (s.loadROM (some small)).1.memory }) ∧
    ((s.loadROM (some large)).2 = some .tooLarge ∧ (s.loadROM (some large)).1 = s) := by
  refine ⟨?_, ⟨?_, ?_, ?_, ?_⟩, ?_, ?_⟩
  · by_cases h : bytes.length > 3584
    · simp [Chip8.loadROM, h]
    · simp only [Chip8.loadROM, if_neg h]
      constructor
      · intro _; omega
      · intro _; trivial
  · simp [Chip8.loadROM, Nat.not_lt.mpr hs]
  · intro k hk
    have h1 : 0x200 ≤ 0x200 + k ∧ 0x200 + k < 0x200 + small.length := by omega
    have h2 : small.getD k 0 < 256 := getD_lt_of_forall small 256 hb (by decide) k
    simp only [Chip8.loadROM, if_neg (Nat.not_lt.mpr hs), if_pos h1, Nat.add_sub_cancel_left]
    omega
  · intro a ha
    have h1 : ¬ (0x200 ≤ a ∧ a < 0x200 + small.length) := by omega
    simp only [Chip8.loadROM, if_neg (Nat.not_lt.mpr hs), if_neg h1]
  · simp only [Chip8.loadROM, if_neg (Nat.not_lt.mpr hs)]
  · simp [Chip8.loadROM, hl]
  · simp [Chip8.loadROM, hl]

/-- C17 at a two-byte program and a program of 3585 bytes. -/
theorem load_rom_bounds_and_frame_witness :
    (([0xD0, 0x11] : List Nat).length ≤ 3584 ∧ (∀ b ∈ ([0xD0, 0x11] : List Nat), b < 256) ∧
      3584 < (List.replicate 3585 0).length) ∧
    ((((Chip8.new randSix).loadROM (some [0x12, 0x00])).2 = none ↔
      ([0x12, 0x00] : List Nat).length ≤ 3584) ∧
    (((Chip8.new randSix).loadROM (some [0xD0, 0x11])).2 = none ∧
      (∀ k, k < 2 →
        ((Chip8.new randSix).loadROM (some [0xD0, 0x11])).1.memory (0x200 + k)
          = ([0xD0, 0x11] : List Nat).getD k 0) ∧
      (∀ a, a < 0x200 ∨ 0x200 + 2 ≤ a →
        ((Chip8.new randSix).loadROM (some [0xD0, 0x11])).1.memory a
          = (Chip8.new randSix).memory a) ∧
      ((Chip8.new randSix).loadROM (some [0xD0, 0x11])).1 =
        { Chip8.new randSix with
          memory := ((Chip8.new randSix).loadROM (some [0xD0, 0x11])).1.memory }) ∧
    (((Chip8.new randSix).loadROM (some (List.replicate 3585 0))).2 = some .tooLarge ∧
      ((Chip8.new randSix).loadROM (some (List.replicate 3585 0))).1 = Chip8.new randSix)) :=
  ⟨⟨by decide, by decide, by rw [List.length_replicate]; decide⟩,
    load_rom_bounds_and_frame (Chip8.new randSix) [0x12, 0x00] [0xD0, 0x11]
      (List.replicate 3585 0) (by decide) (by decide)
      (by rw [List.length_replicate]; decide)⟩

/-! ## Call, return and the stack -/

theorem fetch_word (hi lo : Nat) (hlo : lo < 256) : (hi <<< 8) ||| lo = hi * 256 + lo := by
  have h := Nat.mul_add_lt_is_or (i := 8) (b := lo) (by omega) hi
  rw [Nat.shiftLeft_eq, Nat.mul_comm hi (2 ^ 8), ← h]

theorem decode_call (nnn : Nat) (h : nnn < 4096) :
    (decode (0x2000 + nnn)).opcode = 2 ∧ (decode (0x2000 + nnn)).nnn = nnn := by
  rw [decode_opcode, decode_nnn]
  omega

theorem fetch_call (s : Chip8) (nnn : Nat) (hc : s.CallAt nnn) :
    s.fetch = .ok (0x2000 + nnn, { s with pc := s.pc + 2 }) := by
  obtain ⟨hpc, hhi, hlo, -⟩ := hc
  have h0 : s.pc < 4096 := by omega
  have hw : ((0x20 + nnn / 256) <<< 8) ||| (nnn % 256) = 0x2000 + nnn := by
    rw [fetch_word _ _ (by omega)]
    omega
  have hm : (s.pc + 2) % 65536 = s.pc + 2 := by omega
  simp only [Chip8.fetch, Chip8.readMem, h0, hpc, if_true, hhi, hlo, hw, hm]

theorem execute_call (s : Chip8) (i : Instruction) (hop : i.opcode = 2) :
    s.execute i = .ok { s with stack := s.stack.push s.pc, pc := i.nnn } := by
  simp [Chip8.execute, hop]

theorem execute_return (s : Chip8) (i : Instruction) (hop : i.opcode = 0) (hnnn : i.nnn = 0x0EE) :
    s.execute i = .ok { s with pc := s.stack.pop.1, stack := s.stack.pop.2 } := by
  simp [Chip8.execute, hop, hnnn]

theorem superChip_execute_return (t : SuperChip) :
    t.execute (decode 0x00EE) = t.executeBase (decode 0x00EE) := by
  rfl

theorem push_lt (st : Chip8Stack) (v : Nat) (h : st.sp < 16) (hv : v < 65536) :
    (st.push v).sp = st.sp + 1 ∧ (st.push v).data st.sp = v ∧
    ∀ j, j ≠ st.sp → (st.push v).data j = st.data j := by
  have h1 : (st.sp + 1) % 256 = st.sp + 1 := by omega
  have h2 : v % 65536 = v := by omega
  simp only [Chip8Stack.push, if_pos h, h1, h2, setAt_same]
  exact ⟨trivial, trivial, fun j hj => setAt_of_ne _ _ hj⟩

theorem pop_pos (st : Chip8Stack) (h : 0 < st.sp) :
    st.pop.1 = st.data (st.sp - 1) ∧ st.pop.2.sp = st.sp - 1 ∧ st.pop.2.data = st.data := by
  simp only [Chip8Stack.pop, gt_iff_lt, if_pos h]
  exact ⟨trivial, trivial, trivial⟩

/-- The call `2NNN` fetched at address `A` followed by a return. -/
theorem call_return_base (s : Chip8) (nnn : Nat) (hn : nnn < 4096) (hc : s.CallAt nnn) :
    ∃ s1 s2, s.emulateCycle = .ok s1 ∧ s1.pc = nnn ∧ s1.stack.sp = s.stack.sp + 1 ∧
      s1.stack.data (s1.stack.sp - 1) = s.pc + 2 ∧
      s1.execute (decode 0x00EE) = .ok s2 ∧ s2.pc = s.pc + 2 ∧ s2.stack.sp = s.stack.sp := by
  obtain ⟨hop, hnnn⟩ := decode_call nnn hn
  have hsp := hc.2.2.2
  have hpc := hc.1
  obtain ⟨p1, p2, -⟩ := push_lt s.stack (s.pc + 2) hsp (by omega)
  have hpos : 0 < (s.stack.push (s.pc + 2)).sp := by omega
  obtain ⟨q1, q2, q3⟩ := pop_pos _ hpos
  refine ⟨{ s with stack := s.stack.push (s.pc + 2), pc := nnn }, _, ?_, rfl, p1, ?_,
    execute_return _ _ (by decide) (by decide), ?_, ?_⟩
  · simp only [Chip8.emulateCycle, fetch_call s nnn hc]
    rw [execute_call _ _ hop, hnnn]
  · show (s.stack.push (s.pc + 2)).data ((s.stack.push (s.pc + 2)).sp - 1) = s.pc + 2
    rw [p1, Nat.add_sub_cancel, p2]
  · show (s.stack.push (s.pc + 2)).pop.1 = s.pc + 2
    rw [q1, p1, Nat.add_sub_cancel, p2]
  · show (s.stack.push (s.pc + 2)).pop.2.sp = s.stack.sp
    rw [q2, p1, Nat.add_sub_cancel]

/-- The call `2NNN` fetched at address `A` followed by a return, on the
extended machine. -/
theorem call_return_super (t : SuperChip) (nnn : Nat) (hn : nnn < 4096) (hc : t.CallAt nnn) :
    ∃ t1 t2, t.emulateCycle = .ok t1 ∧ t1.pc = nnn ∧ t1.stack.sp = t.stack.sp + 1 ∧
      t1.stack.data (t1.stack.sp - 1) = t.pc + 2 ∧
      t1.execute (decode 0x00EE) = .ok t2 ∧ t2.pc = t.pc + 2 ∧ t2.stack.sp = t.stack.sp := by
  obtain ⟨hop, hnnn⟩ := decode_call nnn hn
  have hsp := hc.2.2.2
  have hpc := hc.1
  obtain ⟨p1, p2, -⟩ := push_lt t.stack (t.pc + 2) hsp (by omega)
  have hpos : 0 < (t.stack.push (t.pc + 2)).sp := by omega
  obtain ⟨q1, q2, q3⟩ := pop_pos _ hpos
  have h1 : t.emulateCycle = .ok { t with
      toChip8 := { t.toChip8 with stack := t.stack.push (t.pc + 2), pc := nnn } } := by
    simp only [SuperChip.emulateCycle, fetch_call t.toChip8 nnn hc]
    rw [superChip_execute_other _ _ (by omega) (by omega) (by omega), SuperChip.executeBase,
      execute_call _ _ hop, hnnn]
  have h2 : ({ t with toChip8 := { t.toChip8 with
        stack := t.stack.push (t.pc + 2), pc := nnn } } : SuperChip).execute (decode 0x00EE) =
      .ok { t with toChip8 := { t.toChip8 with
        pc := (t.stack.push (t.pc + 2)).pop.1, stack := (t.stack.push (t.pc + 2)).pop.2 } } := by
    rw [superChip_execute_return, SuperChip.executeBase,
      execute_return _ _ (by decide) (by decide)]
  refine ⟨_, _, h1, rfl, p1, ?_, h2, ?_, ?_⟩
  · show (t.stack.push (t.pc + 2)).data ((t.stack.push (t.pc + 2)).sp - 1) = t.pc + 2
    rw [p1, Nat.add_sub_cancel, p2]
  · show (t.stack.push (t.pc + 2)).pop.1 = t.pc + 2
    rw [q1, p1, Nat.add_sub_cancel, p2]
  · show (t.stack.push (t.pc + 2)).pop.2.sp = t.stack.sp
    rw [q2, p1, Nat.add_sub_cancel]

/-- C19: for every state whose stack holds fewer than 16 entries and every
address `NNN`, after fetching and executing the call `2NNN` located at address
`A` the program counter is `NNN` and `A + 2` is on top of the stack; a return
`00EE` executed next sets the program counter to `A + 2` and restores the
stack pointer; on the base and on the extended machine. -/
theorem call_then_return (s : Chip8) (t : SuperChip) (m n : Nat) (hm : m < 4096)
    (hn : n < 4096) (hs : s.CallAt m) (ht : t.CallAt n) :
    (∃ s1 s2, s.emulateCycle = .ok s1 ∧ s1.pc = m ∧ s1.stack.sp = s.stack.sp + 1 ∧
      s1.stack.data (s1.stack.sp - 1) = s.pc + 2 ∧
      s1.execute (decode 0x00EE) = .ok s2 ∧ s2.pc = s.pc + 2 ∧ s2.stack.sp = s.stack.sp) ∧
    (∃ t1 t2, t.emulateCycle = .ok t1 ∧ t1.pc = n ∧ t1.stack.sp = t.stack.sp + 1 ∧
      t1.stack.data (t1.stack.sp - 1) = t.pc + 2 ∧
      t1.execute (decode 0x00EE) = .ok t2 ∧ t2.pc = t.pc + 2 ∧ t2.stack.sp = t.stack.sp) :=
  ⟨call_return_base s m hm hs, call_return_super t n hn ht⟩

/-- C19 at the call `2345` located at `0x200`, with two entries on the stack. -/
theorem call_then_return_witness :
    ((0x345 : Nat) < 4096 ∧ (0x345 : Nat) < 4096 ∧ callBase.CallAt 0x345 ∧
      callSuper.CallAt 0x345) ∧
    ((∃ s1 s2, callBase.emulateCycle = .ok s1 ∧ s1.pc = 0x345 ∧ s1.stack.sp = 3 ∧
      s1.stack.data (s1.stack.sp - 1) = 0x202 ∧
      s1.execute (decode 0x00EE) = .ok s2 ∧ s2.pc = 0x202 ∧ s2.stack.sp = 2) ∧
    (∃ t1 t2, callSuper.emulateCycle = .ok t1 ∧ t1.pc = 0x345 ∧ t1.stack.sp = 3 ∧
      t1.stack.data (t1.stack.sp - 1) = 0x202 ∧
      t1.execute (decode 0x00EE) = .ok t2 ∧ t2.pc = 0x202 ∧ t2.stack.sp = 2)) :=
  ⟨⟨by decide, by decide, by decide, by decide⟩,
    call_then_return callBase callSuper 0x345 0x345 (by decide) (by decide) (by decide)
      (by decide)⟩

theorem popN_add (st : Chip8Stack) (a b : Nat) :
    st.popN (a + b) = ((st.popN a).1 ++ ((st.popN a).2.popN b).1, ((st.popN a).2.popN b).2) := by
  induction a generalizing st with
  | zero => simp [Chip8Stack.popN]
  | succ a ih =>
    have h : a + 1 + b = (a + b) + 1 := by omega
    rw [h, Chip8Stack.popN, ih]
    simp [Chip8Stack.popN]

/-- C20: the stack is last-in first-out: for a stack with `sp` entries and `k`
16-bit values with `sp + k <= 16`, pushing the values and then popping `k`
times returns them in reverse order and leaves the stack pointer and the
entries below it as they were before the pushes. -/
theorem stack_push_pop_lifo (st : Chip8Stack) (vals : List Nat)
    (h : st.sp + vals.length ≤ 16)
    (hv : ∀ v ∈ vals, v < 65536) :
    ((st.pushAll vals).popN vals.length).1 = vals.reverse ∧
    ((st.pushAll vals).popN vals.length).2.sp = st.sp ∧
    ∀ j, j < st.sp → ((st.pushAll vals).popN vals.length).2.data j = st.data j := by
  induction vals generalizing st with
  | nil => simp [Chip8Stack.pushAll, Chip8Stack.popN]
  | cons v vs ih =>
    have hlen : (v :: vs).length = vs.length + 1 := rfl
    rw [hlen] at h
    have hsp : st.sp < 16 := by omega
    obtain ⟨p1, p2, p3⟩ := push_lt st v hsp (hv v (List.mem_cons_self _ _))
    obtain ⟨i1, i2, i3⟩ := ih (st.push v) (by omega)
      (fun x hx => hv x (List.mem_cons_of_mem _ hx))
    have hpos : 0 < ((st.push v).pushAll vs |>.popN vs.length).2.sp := by omega
    obtain ⟨q1, q2, q3⟩ := pop_pos _ hpos
    rw [hlen, Chip8Stack.pushAll, popN_add]
    simp only [Chip8Stack.popN, List.reverse_cons, i1]
    refine ⟨?_, ?_, ?_⟩
    · rw [q1, i2, p1, Nat.add_sub_cancel, i3 _ (by omega), p2]
    · rw [q2, i2, p1, Nat.add_sub_cancel]
    · intro j hj
      rw [q3, i3 _ (by omega), p3 _ (by omega)]

/-- C20 at the stack of `callBase` (two entries) and the values
`0x200, 0x300, 0x400`. -/
theorem stack_push_pop_lifo_witness :
    (callBase.stack.sp + ([0x200, 0x300, 0x400] : List Nat).length ≤ 16 ∧
      (∀ v ∈ ([0x200, 0x300, 0x400] : List Nat), v < 65536)) ∧
    (((callBase.stack.pushAll [0x200, 0x300, 0x400]).popN 3).1 = [0x400, 0x300, 0x200] ∧
    ((callBase.stack.pushAll [0x200, 0x300, 0x400]).popN 3).2.sp = 2 ∧
    ∀ j, j < 2 →
      ((callBase.stack.pushAll [0x200, 0x300, 0x400]).popN 3).2.data j
        = callBase.stack.data j) :=
  ⟨⟨by decide, by decide⟩,
    stack_push_pop_lifo callBase.stack [0x200, 0x300, 0x400] (by decide) (by decide)⟩

/-! ## Stack bounds and timers -/

theorem run_sp_le (st : Chip8Stack) (ops : List StackOp) (h : st.sp ≤ 16) :
    (st.run ops).sp ≤ 16 := by
  induction ops generalizing st with
  | nil => exact h
  | cons op ops ih =>
    cases op with
    | push v =>
      rw [Chip8Stack.run]
      apply ih
      unfold Chip8Stack.push
      split
      · show (st.sp + 1) % 256 ≤ 16
        omega
      · exact h
    | pop =>
      rw [Chip8Stack.run]
      apply ih
      unfold Chip8Stack.pop
      split
      · show st.sp - 1 ≤ 16
        omega
      · exact h

/-- C21: a push onto a stack that holds 16 entries leaves the stack pointer
and all slots unchanged, a pop from an empty stack returns address 0 and
leaves the stack unchanged, and the stack pointer stays in `0..16` under every
sequence of pushes and pops. -/
theorem stack_overflow_underflow_silent (full empty st : Chip8Stack) (v : Nat)
    (ops : List StackOp) (hf : full.sp = 16) (he : empty.sp = 0) (hst : st.sp ≤ 16) :
    full.push v = full ∧ empty.pop = (0, empty) ∧ (st.run ops).sp ≤ 16 := by
  refine ⟨?_, ?_, run_sp_le st ops hst⟩
  · have h : ¬ full.sp < 16 := by omega
    simp only [Chip8Stack.push, if_neg h]
  · have h : ¬ empty.sp > 0 := by omega
    simp only [Chip8Stack.pop, if_neg h]

/-- C21 at a full stack, the empty stack and a sequence of three pushes and
two pops. -/
theorem stack_overflow_underflow_silent_witness :
    (fullStack.sp = 16 ∧ emptyStack.sp = 0 ∧ fullStack.sp ≤ 16) ∧
    (fullStack.push 0x300 = fullStack ∧ emptyStack.pop = (0, emptyStack) ∧
      (fullStack.run [.push 1, .pop, .pop, .push 2, .push 3]).sp ≤ 16) :=
  ⟨⟨rfl, rfl, by decide⟩,
    stack_overflow_underflow_silent fullStack emptyStack fullStack 0x300
      [.push 1, .pop, .pop, .push 2, .push 3] rfl rfl (by decide)⟩

theorem updateTimers_eq (s : Chip8) :
    s.updateTimers = ({ s with delay_timer := s.delay_timer - 1,
                               sound_timer := s.sound_timer - 1 },
      decide (s.sound_timer = 1)) := by
  unfold Chip8.updateTimers
  by_cases hd : s.delay_timer > 0 <;> by_cases hs : s.sound_timer > 0
  · simp only [hd, hs, if_true]
    congr 1
    simp only [decide_eq_decide]
    omega
  · have h0 : s.sound_timer = 0 := by omega
    simp only [hd, hs, if_true, if_false]
    simp [h0]
  · have h0 : s.delay_timer = 0 := by omega
    simp only [hd, hs, if_true, if_false]
    refine Prod.ext ?_ ?_
    · cases s; simp_all
    · simp only [decide_eq_decide]; omega
  · have h0 : s.delay_timer = 0 := by omega
    have h1 : s.sound_timer = 0 := by omega
    simp only [hd, hs, if_false]
    simp [h1]
    cases s; simp_all

theorem ticks_timers (s : Chip8) (n : Nat) :
    (s.ticks n).delay_timer = s.delay_timer - n ∧ (s.ticks n).sound_timer = s.sound_timer - n := by
  induction n generalizing s with
  | zero => exact ⟨rfl, rfl⟩
  | succ n ih =>
    rw [Chip8.ticks, updateTimers_eq]
    obtain ⟨h1, h2⟩ := ih { s with delay_timer := s.delay_timer - 1,
                                   sound_timer := s.sound_timer - 1 }
    rw [h1, h2]
    constructor
    · show s.delay_timer - 1 - n = s.delay_timer - (n + 1)
      omega
    · show s.sound_timer - 1 - n = s.sound_timer - (n + 1)
      omega

/-- C24: one timer tick leaves the delay timer at `d - 1` if it was `d > 0` and
at 0 if it was 0, does the same to the sound timer, signals the tone-stopped
edge exactly when the sound timer was 1 before the tick, and changes nothing
else; after 255 or more ticks both timers are 0. -/
theorem timer_tick_effect (s : Chip8) (n : Nat) (hw : s.WF) (hn : 255 ≤ n) :
    s.updateTimers.1.delay_timer = (if s.delay_timer > 0 then s.delay_timer - 1 else 0) ∧
    s.updateTimers.1.sound_timer = (if s.sound_timer > 0 then s.sound_timer - 1 else 0) ∧
    (s.updateTimers.2 = true ↔ s.sound_timer = 1) ∧
    s.updateTimers.1 = { s with delay_timer := s.updateTimers.1.delay_timer,
                                sound_timer := s.updateTimers.1.sound_timer } ∧
    (s.ticks n).delay_timer = 0 ∧ (s.ticks n).sound_timer = 0 := by
  have hd := hw.delay_lt
  have hs := hw.sound_lt
  obtain ⟨h1, h2⟩ := ticks_timers s n
  rw [updateTimers_eq]
  refine ⟨?_, ?_, by simp, rfl, by omega, by omega⟩
  · show s.delay_timer - 1 = _
    split <;> omega
  · show s.sound_timer - 1 = _
    split <;> omega

theorem timerBase_WF : timerBase.WF := by
  have h := baseWith_WF [] (by decide)
  exact ⟨h.V_lt, h.memory_lt, h.pc_lt, h.index_lt, by decide, by decide, h.stack_lt⟩

/-- C24 at the delay timer 3, the sound timer 1 and 255 ticks. -/
theorem timer_tick_effect_witness :
    (timerBase.WF ∧ 255 ≤ 255) ∧
    (timerBase.updateTimers.1.delay_timer = (if timerBase.delay_timer > 0 then 3 - 1 else 0) ∧
    timerBase.updateTimers.1.sound_timer = (if timerBase.sound_timer > 0 then 1 - 1 else 0) ∧
    (timerBase.updateTimers.2 = true ↔ timerBase.sound_timer = 1) ∧
    timerBase.updateTimers.1 =
      { timerBase with delay_timer := timerBase.updateTimers.1.delay_timer,
                       sound_timer := timerBase.updateTimers.1.sound_timer } ∧
    (timerBase.ticks 255).delay_timer = 0 ∧ (timerBase.ticks 255).sound_timer = 0) :=
  ⟨⟨timerBase_WF, by decide⟩, timer_tick_effect timerBase 255 timerBase_WF (by decide)⟩

/-! ## Instructions outside the table -/

/-- C25: on the base machine an instruction word that matches no instruction
of the table leaves the whole state unchanged: `0NNN` other than `00E0` and
`00EE`, `8XYN` with `N` in `8, 9, A, B, C, D, F`, `EXNN` with `NN` other than
`9E` and `A1`, and `FXNN` with `NN` outside `07, 0A, 15, 18, 1E, 29, 33, 55,
65`. -/
theorem unknown_instruction_no_effect (s : Chip8) (a b c d : Instruction)
    (ha : a.opcode = 0 ∧ a.nnn ≠ 0x0E0 ∧ a.nnn ≠ 0x0EE)
    (hb : b.opcode = 8 ∧ 8 ≤ b.n ∧ b.n ≤ 0xF ∧ b.n ≠ 0xE)
    (hc : c.opcode = 0xE ∧ c.nn ≠ 0x9E ∧ c.nn ≠ 0xA1)
    (hd : d.opcode = 0xF ∧ d.nn ∉ [0x07, 0x0A, 0x15, 0x18, 0x1E, 0x29, 0x33, 0x55, 0x65]) :
    s.execute a = .ok s ∧ s.execute b = .ok s ∧ s.execute c = .ok s ∧
    s.execute d = .ok s := by
  obtain ⟨ha0, ha1, ha2⟩ := ha
  obtain ⟨hb0, hb1, hb2, hb3⟩ := hb
  obtain ⟨hc0, hc1, hc2⟩ := hc
  obtain ⟨hd0, hd1⟩ := hd
  simp only [List.mem_cons, List.mem_singleton, not_or, List.not_mem_nil, or_false] at hd1
  obtain ⟨e1, e2, e3, e4, e5, e6, e7, e8, e9⟩ := hd1
  refine ⟨?_, ?_, ?_, ?_⟩
  · simp only [Chip8.execute, ha0]
  · have h0 : b.n ≠ 0 := by omega
    have h1 : b.n ≠ 1 := by omega
    have h2 : b.n ≠ 2 := by omega
    have h3 : b.n ≠ 3 := by omega
    have h4 : b.n ≠ 4 := by omega
    have h5 : b.n ≠ 5 := by omega
    have h6 : b.n ≠ 6 := by omega
    have h7 : b.n ≠ 7 := by omega
    rw [chip8_execute_math s b hb0]
    simp only [Chip8.executeMath]
  · simp only [Chip8.execute, hc0]
  · rw [chip8_execute_misc s d hd0]
    simp only [Chip8.executeMisc]

/-- C25 at the instruction words `0123`, `812A`, `E100` and `F1FF`. -/
theorem unknown_instruction_no_effect_witness :
    (((decode 0x0123).opcode = 0 ∧ (decode 0x0123).nnn ≠ 0x0E0 ∧ (decode 0x0123).nnn ≠ 0x0EE) ∧
      ((decode 0x812A).opcode = 8 ∧ 8 ≤ (decode 0x812A).n ∧ (decode 0x812A).n ≤ 0xF ∧
        (decode 0x812A).n ≠ 0xE) ∧
      ((decode 0xE100).opcode = 0xE ∧ (decode 0xE100).nn ≠ 0x9E ∧ (decode 0xE100).nn ≠ 0xA1) ∧
      ((decode 0xF1FF).opcode = 0xF ∧
        (decode 0xF1FF).nn ∉ [0x07, 0x0A, 0x15, 0x18, 0x1E, 0x29, 0x33, 0x55, 0x65])) ∧
    (spriteBase.execute (decode 0x0123) = .ok spriteBase ∧
      spriteBase.execute (decode 0x812A) = .ok spriteBase ∧
      spriteBase.execute (decode 0xE100) = .ok spriteBase ∧
      spriteBase.execute (decode 0xF1FF) = .ok spriteBase) :=
  ⟨⟨by decide, by decide, by decide, by decide⟩,
    unknown_instruction_no_effect spriteBase (decode 0x0123) (decode 0x812A) (decode 0xE100)
      (decode 0xF1FF) (by decide) (by decide) (by decide) (by decide)⟩

/-! ## Skip instructions -/

theorem skipIf_frame (s : Chip8) (c : Bool) :
    s.skipIf c = { s with pc := if c then (s.pc + 2) % 65536 else s.pc } := by
  cases c <;> rfl

theorem chip8_execute_skips (s : Chip8) (i3 i4 i5 i9 k1 k2 : Instruction)
    (h3 : i3.HasOp 3) (h4 : i4.HasOp 4) (h5 : i5.HasOp 5) (h9 : i9.HasOp 9)
    (hk1 : k1.IsKey 0x9E) (hk2 : k2.IsKey 0xA1)
    (hv1 : s.V k1.x < 16) (hv2 : s.V k2.x < 16) :
    s.execute i3 = .ok (s.skipIf (decide (s.V i3.x = i3.nn))) ∧
    s.execute i4 = .ok (s.skipIf (decide (s.V i4.x ≠ i4.nn))) ∧
    s.execute i5 = .ok (s.skipIf (decide (s.V i5.x = s.V i5.y))) ∧
    s.execute i9 = .ok (s.skipIf (decide (s.V i9.x ≠ s.V i9.y))) ∧
    s.execute k1 = .ok (s.skipIf (s.keypad (s.V k1.x))) ∧
    s.execute k2 = .ok (s.skipIf (!s.keypad (s.V k2.x))) := by
  refine ⟨?_, ?_, ?_, ?_, ?_, ?_⟩
  · by_cases h : s.V i3.x = i3.nn <;> simp [Chip8.execute, h3.1, Chip8.skipIf, h]
  · by_cases h : s.V i4.x = i4.nn <;> simp [Chip8.execute, h4.1, Chip8.skipIf, h]
  · by_cases h : s.V i5.x = s.V i5.y <;> simp [Chip8.execute, h5.1, Chip8.skipIf, h]
  · by_cases h : s.V i9.x = s.V i9.y <;> simp [Chip8.execute, h9.1, Chip8.skipIf, h]
  · cases h : s.keypad (s.V k1.x) <;> simp [Chip8.execute, hk1.1, hk1.2.1, hv1, Chip8.skipIf, h]
  · cases h : s.keypad (s.V k2.x) <;> simp [Chip8.execute, hk2.1, hk2.2.1, hv2, Chip8.skipIf, h]

theorem superChip_executeBase_ok (t : SuperChip) (i : Instruction) (c : Chip8)
    (h : t.toChip8.execute i = .ok c) : t.executeBase i = .ok { t with toChip8 := c } := by
  rw [SuperChip.executeBase, h]

/-- C23: each skip instruction changes only the program counter, adding 2 (as
a 16-bit value) when its condition holds and nothing otherwise: `3XNN` when
`VX = NN`, `4XNN` when `VX != NN`, `5XY0` when `VX = VY`, `9XY0` when
`VX != VY`, `EX9E` when key `VX` is pressed and `EXA1` when key `VX` is not
pressed (for `VX < 16`); on the base and on the extended machine. -/
theorem skip_family_advances_pc (s : Chip8) (t : SuperChip)
    (i3 i4 i5 i9 k1 k2 : Instruction)
    (h3 : i3.HasOp 3) (h4 : i4.HasOp 4) (h5 : i5.HasOp 5) (h9 : i9.HasOp 9)
    (hk1 : k1.IsKey 0x9E) (hk2 : k2.IsKey 0xA1)
    (hs1 : s.V k1.x < 16) (hs2 : s.V k2.x < 16) (ht1 : t.V k1.x < 16) (ht2 : t.V k2.x < 16) :
    (s.execute i3 = .ok (s.skipIf (decide (s.V i3.x = i3.nn))) ∧
      s.execute i4 = .ok (s.skipIf (decide (s.V i4.x ≠ i4.nn))) ∧
      s.execute i5 = .ok (s.skipIf (decide (s.V i5.x = s.V i5.y))) ∧
      s.execute i9 = .ok (s.skipIf (decide (s.V i9.x ≠ s.V i9.y))) ∧
      s.execute k1 = .ok (s.skipIf (s.keypad (s.V k1.x))) ∧
      s.execute k2 = .ok (s.skipIf (!s.keypad (s.V k2.x)))) ∧
    (t.execute i3 = .ok { t with toChip8 := t.toChip8.skipIf (decide (t.V i3.x = i3.nn)) } ∧
      t.execute i4 = .ok { t with toChip8 := t.toChip8.skipIf (decide (t.V i4.x ≠ i4.nn)) } ∧
      t.execute i5 = .ok { t with toChip8 := t.toChip8.skipIf (decide (t.V i5.x = t.V i5.y)) } ∧
      t.execute i9 = .ok { t with toChip8 := t.toChip8.skipIf (decide (t.V i9.x ≠ t.V i9.y)) } ∧
      t.execute k1 = .ok { t with toChip8 := t.toChip8.skipIf (t.keypad (t.V k1.x)) } ∧
      t.execute k2 = .ok { t with toChip8 := t.toChip8.skipIf (!t.keypad (t.V k2.x)) }) ∧
    (∀ (c : Chip8) (b : Bool), (c.skipIf b).pc = (if b then (c.pc + 2) % 65536 else c.pc) ∧
      c.skipIf b = { c with pc := (c.skipIf b).pc }) := by
  obtain ⟨a1, a2, a3, a4, a5, a6⟩ :=
    chip8_execute_skips s i3 i4 i5 i9 k1 k2 h3 h4 h5 h9 hk1 hk2 hs1 hs2
  obtain ⟨b1, b2, b3, b4, b5, b6⟩ :=
    chip8_execute_skips t.toChip8 i3 i4 i5 i9 k1 k2 h3 h4 h5 h9 hk1 hk2 ht1 ht2
  have e3 := h3.1
  have e4 := h4.1
  have e5 := h5.1
  have e9 := h9.1
  have ek1 := hk1.1
  have ek2 := hk2.1
  refine ⟨⟨a1, a2, a3, a4, a5, a6⟩, ⟨?_, ?_, ?_, ?_, ?_, ?_⟩, ?_⟩
  · rw [superChip_execute_other t i3 (by omega) (by omega) (by omega)]
    exact superChip_executeBase_ok t i3 _ b1
  · rw [superChip_execute_other t i4 (by omega) (by omega) (by omega)]
    exact superChip_executeBase_ok t i4 _ b2
  · rw [superChip_execute_other t i5 (by omega) (by omega) (by omega)]
    exact superChip_executeBase_ok t i5 _ b3
  · rw [superChip_execute_other t i9 (by omega) (by omega) (by omega)]
    exact superChip_executeBase_ok t i9 _ b4
  · rw [superChip_execute_other t k1 (by omega) (by omega) (by omega)]
    exact superChip_executeBase_ok t k1 _ b5
  · rw [superChip_execute_other t k2 (by omega) (by omega) (by omega)]
    exact superChip_executeBase_ok t k2 _ b6
  · intro c b
    cases b <;> exact ⟨rfl, rfl⟩

/-- C23 at `V0..V3 = 255, 1, 2, 3`, no key pressed, and the instructions
`30FF`, `40FF`, `5120`, `9120`, `E19E`, `E1A1`. -/
theorem skip_family_advances_pc_witness :
    ((decode 0x30FF).HasOp 3 ∧ (decode 0x40FF).HasOp 4 ∧ (decode 0x5120).HasOp 5 ∧
      (decode 0x9120).HasOp 9 ∧ (decode 0xE19E).IsKey 0x9E ∧ (decode 0xE1A1).IsKey 0xA1 ∧
      spriteBaseFF.V (decode 0xE19E).x < 16 ∧ spriteBaseFF.V (decode 0xE1A1).x < 16 ∧
      spriteSuperFF.V (decode 0xE19E).x < 16 ∧ spriteSuperFF.V (decode 0xE1A1).x < 16) ∧
    ((spriteBaseFF.execute (decode 0x30FF) = .ok (spriteBaseFF.skipIf true) ∧
      spriteBaseFF.execute (decode 0x40FF) = .ok (spriteBaseFF.skipIf false) ∧
      spriteBaseFF.execute (decode 0x5120) = .ok (spriteBaseFF.skipIf false) ∧
      spriteBaseFF.execute (decode 0x9120) = .ok (spriteBaseFF.skipIf true) ∧
      spriteBaseFF.execute (decode 0xE19E) = .ok (spriteBaseFF.skipIf false) ∧
      spriteBaseFF.execute (decode 0xE1A1) = .ok (spriteBaseFF.skipIf true)) ∧
    (spriteSuperFF.execute (decode 0x30FF) =
        .ok { spriteSuperFF with toChip8 := spriteSuperFF.toChip8.skipIf true } ∧
      spriteSuperFF.execute (decode 0x40FF) =
        .ok { spriteSuperFF with toChip8 := spriteSuperFF.toChip8.skipIf false } ∧
      spriteSuperFF.execute (decode 0x5120) =
        .ok { spriteSuperFF with toChip8 := spriteSuperFF.toChip8.skipIf false } ∧
      spriteSuperFF.execute (decode 0x9120) =
        .ok { spriteSuperFF with toChip8 := spriteSuperFF.toChip8.skipIf true } ∧
      spriteSuperFF.execute (decode 0xE19E) =
        .ok { spriteSuperFF with toChip8 := spriteSuperFF.toChip8.skipIf false } ∧
      spriteSuperFF.execute (decode 0xE1A1) =
        .ok { spriteSuperFF with toChip8 := spriteSuperFF.toChip8.skipIf true }) ∧
    (∀ (c : Chip8) (b : Bool), (c.skipIf b).pc = (if b then (c.pc + 2) % 65536 else c.pc) ∧
      c.skipIf b = { c with pc := (c.skipIf b).pc })) :=
  ⟨⟨by decide, by decide, by decide, by decide, by decide, by decide, by decide, by decide,
      by decide, by decide⟩,
    skip_family_advances_pc spriteBaseFF spriteSuperFF (decode 0x30FF) (decode 0x40FF)
      (decode 0x5120) (decode 0x9120) (decode 0xE19E) (decode 0xE1A1) (by decide) (by decide)
      (by decide) (by decide) (by decide) (by decide) (by decide) (by decide) (by decide)
      (by decide)⟩

/-! ## Extended machine: RPL flags and the 16x16 draw -/

/-- C27, at `X = 2`: `F285` stores `V0, V1, V2 = 1, 2, 3`; after the registers
were changed to `9, 9, 9` the load `F275` restores `V0` and `V1` but leaves
`V2 = 9`, because its loop runs while `j < i.x` where the store loop runs
while `j <= i.x`. -/
theorem rpl_load_misses_last_register :
    ∃ t1 t2, (superWith [1, 2, 3]).execute (decode 0xF285) = .ok t1 ∧
      ({ t1 with V := regs [9, 9, 9] } : SuperChip).execute (decode 0xF275) = .ok t2 ∧
      t1.RPL 2 = 3 ∧ t2.V 0 = 1 ∧ t2.V 1 = 2 ∧ t2.V 2 = 9 := by
  refine ⟨_, _, rfl, rfl, ?_, ?_, ?_, ?_⟩ <;> decide

/-- C28, at 32 sprite bytes `0xFF` drawn by `D010` at `(0, 0)` on a clear
display: `execute` reads one byte per row and tests it against `0x80 >> col`,
which is 0 from column 8 on, so the pixels `(0, 0)..(7, 0)` are set but the
pixel `(8, 0)` stays clear (and row 15 is drawn from the byte at `I + 15`). -/
theorem draw16_is_eight_wide :
    ∃ t1, bigSpriteSuper.execute (decode 0xD010) = .ok t1 ∧
      t1.display.pixel 0 0 = true ∧ t1.display.pixel 7 0 = true ∧
      t1.display.pixel 8 0 = false ∧ t1.display.pixel 15 15 = false ∧
      t1.display.pixel 7 15 = true := by
  refine ⟨_, rfl, ?_, ?_, ?_, ?_, ?_⟩ <;> decide

/-! ## The blocking key wait `FX0A` -/

theorem firstPressed_some {kp : Nat → Bool} {k j key : Nat}
    (h : firstPressed kp k j = some key) :
    j ≤ key ∧ key < j + k ∧ kp key = true ∧ ∀ m, j ≤ m → m < key → kp m = false := by
  induction k generalizing j with
  | zero => simp [firstPressed] at h
  | succ k ih =>
    rw [firstPressed] at h
    cases hj : kp j
    · rw [hj] at h
      simp only [Bool.false_eq_true, if_false] at h
      obtain ⟨h1, h2, h3, h4⟩ := ih h
      refine ⟨by omega, by omega, h3, fun m hm1 hm2 => ?_⟩
      by_cases hmj : m = j
      · rw [hmj]; exact hj
      · exact h4 m (by omega) hm2
    · rw [hj] at h
      simp only [if_true, Option.some.injEq] at h
      subst h
      exact ⟨le_refl _, by omega, hj, fun m hm1 hm2 => by omega⟩

theorem firstPressed_none {kp : Nat → Bool} {k j : Nat} (h : firstPressed kp k j = none) :
    ∀ m, j ≤ m → m < j + k → kp m = false := by
  induction k generalizing j with
  | zero => intro m h1 h2; omega
  | succ k ih =>
    rw [firstPressed] at h
    cases hj : kp j
    · rw [hj] at h
      simp only [Bool.false_eq_true, if_false] at h
      intro m h1 h2
      by_cases hmj : m = j
      · rw [hmj]; exact hj
      · exact ih h m (by omega) (by omega)
    · rw [hj] at h
      simp at h

theorem firstPressed_of_lowest {kp : Nat → Bool} {k j key : Nat} (h1 : j ≤ key)
    (h2 : key < j + k) (hk : kp key = true) (hl : ∀ m, j ≤ m → m < key → kp m = false) :
    firstPressed kp k j = some key := by
  cases h : firstPressed kp k j with
  | none =>
    have := firstPressed_none h key h1 h2
    rw [hk] at this
    cases this
  | some key2 =>
    obtain ⟨a1, a2, a3, a4⟩ := firstPressed_some h
    have e : key2 = key := by
      rcases Nat.lt_trichotomy key2 key with hlt | heq | hgt
      · have := hl key2 a1 hlt
        rw [a3] at this
        cases this
      · exact heq
      · have := a4 key h1 hgt
        rw [hk] at this
        cases this
    rw [e]

/-- The scan loop of `FX0A` latches the first pressed key, if any. -/
theorem forLoop_scanKey (k j : Nat) (s : Chip8) :
    forLoop Chip8.scanKey k j s =
      .ok (match firstPressed s.keypad k j with
        | some key => { s with lastPressed := (key : Int) }
        | none => s) := by
  induction k generalizing j with
  | zero => rfl
  | succ k ih =>
    rw [forLoop_succ, firstPressed]
    cases hj : s.keypad j
    · simp only [Chip8.scanKey, hj, Bool.false_eq_true, if_false]
      exact ih (j + 1)
    · simp only [Chip8.scanKey, hj, if_true]

theorem wrap16_sub_two (pc : Nat) (h1 : 2 ≤ pc) (h2 : pc < 65536) :
    wrap16 ((pc : Int) - 2) = pc - 2 := by
  unfold wrap16
  omega

theorem wrap8_key (k : Nat) (h : k < 16) : wrap8 (k : Int) = k := by
  unfold wrap8
  omega

/-- The key wait without a latched key: the lowest pressed key, if any, is
latched and the program counter is rewound. -/
theorem executeMisc_wait_scan (s : Chip8) (i : Instruction) (hnn : i.nn = 0x0A)
    (hl : s.lastPressed = -1) (h1 : 2 ≤ s.pc) (h2 : s.pc < 65536) :
    s.executeMisc i = .ok { s with pc := s.pc - 2, lastPressed := latchOf s.keypad } := by
  simp only [Chip8.executeMisc, hnn, hl, if_true, forLoop_scanKey, latchOf]
  cases hf : firstPressed s.keypad 16 0 with
  | none =>
    simp only [wrap16_sub_two s.pc h1 h2]
    rw [← hl]
  | some key =>
    simp only [wrap16_sub_two s.pc h1 h2]

/-- The key wait with the latched key `k` released: `VX` becomes `k`, the latch
is cleared and the program counter stays. -/
theorem executeMisc_wait_release (s : Chip8) (i : Instruction) (hnn : i.nn = 0x0A) (k : Nat)
    (hl : s.lastPressed = (k : Int)) (hk : k < 16) (hp : s.keypad k = false) :
    s.executeMisc i = .ok { s with V := setAt s.V i.x k, lastPressed := -1 } := by
  have e1 : ¬ ((k : Int) = -1) := by omega
  have e2 : ¬ ((k : Int) < 0 ∨ (k : Int) ≥ 16) := by omega
  simp only [Chip8.executeMisc, hnn, hl, e1, e2, if_false, Int.toNat_ofNat, hp, Bool.not_false,
    if_true, wrap8_key k hk]

/-- The key wait with the latched key `k` still pressed: only the program
counter is rewound. -/
theorem executeMisc_wait_hold (s : Chip8) (i : Instruction) (hnn : i.nn = 0x0A) (k : Nat)
    (hl : s.lastPressed = (k : Int)) (hk : k < 16) (hp : s.keypad k = true)
    (h1 : 2 ≤ s.pc) (h2 : s.pc < 65536) :
    s.executeMisc i = .ok { s with pc := s.pc - 2 } := by
  have e1 : ¬ ((k : Int) = -1) := by omega
  have e2 : ¬ ((k : Int) < 0 ∨ (k : Int) ≥ 16) := by omega
  simp only [Chip8.executeMisc, hnn, hl, e1, e2, if_false, Int.toNat_ofNat, hp, Bool.not_true,
    Bool.false_eq_true, wrap16_sub_two s.pc h1 h2]

theorem decode_keyWait (x : Nat) (h : x < 16) :
    (decode (0xF00A + 256 * x)).opcode = 0xF ∧ (decode (0xF00A + 256 * x)).nn = 0x0A ∧
    (decode (0xF00A + 256 * x)).x = x := by
  rw [decode_opcode, decode_nn, decode_x]
  omega

theorem fetch_keyWait (s : Chip8) (x : Nat) (hc : s.KeyWaitAt x) :
    s.fetch = .ok (0xF00A + 256 * x, { s with pc := s.pc + 2 }) := by
  obtain ⟨hpc, hhi, hlo, hx⟩ := hc
  have h0 : s.pc < 4096 := by omega
  have hw : ((0xF0 + x) <<< 8) ||| 0x0A = 0xF00A + 256 * x := by
    rw [fetch_word _ _ (by omega)]
    omega
  have hm : (s.pc + 2) % 65536 = s.pc + 2 := by omega
  simp only [Chip8.fetch, Chip8.readMem, h0, hpc, if_true, hhi, hlo, hw, hm]

theorem cycle_keyWait (s : Chip8) (x : Nat) (hc : s.KeyWaitAt x) :
    s.emulateCycle =
      ({ s with pc := s.pc + 2 } : Chip8).executeMisc (decode (0xF00A + 256 * x)) := by
  simp only [Chip8.emulateCycle, fetch_keyWait s x hc]
  rw [chip8_execute_misc _ _ (decode_keyWait x hc.2.2.2).1]

theorem cycle_wait_scan (s : Chip8) (x : Nat) (hc : s.KeyWaitAt x) (hl : s.lastPressed = -1) :
    s.emulateCycle = .ok { s with lastPressed := latchOf s.keypad } := by
  have hpc := hc.1
  have h := executeMisc_wait_scan ({ s with pc := s.pc + 2 } : Chip8)
    (decode (0xF00A + 256 * x)) (decode_keyWait x hc.2.2.2).2.1 hl
    (by show 2 ≤ s.pc + 2; omega) (by show s.pc + 2 < 65536; omega)
  rw [cycle_keyWait s x hc, h]
  simp only [Nat.add_sub_cancel]

theorem cycle_wait_hold (s : Chip8) (x k : Nat) (hc : s.KeyWaitAt x)
    (hl : s.lastPressed = (k : Int)) (hk : k < 16) (hp : s.keypad k = true) :
    s.emulateCycle = .ok s := by
  have hpc := hc.1
  have h := executeMisc_wait_hold ({ s with pc := s.pc + 2 } : Chip8)
    (decode (0xF00A + 256 * x)) (decode_keyWait x hc.2.2.2).2.1 k hl hk hp
    (by show 2 ≤ s.pc + 2; omega) (by show s.pc + 2 < 65536; omega)
  rw [cycle_keyWait s x hc, h]
  simp only [Nat.add_sub_cancel]

theorem cycle_wait_release (s : Chip8) (x k : Nat) (hc : s.KeyWaitAt x)
    (hl : s.lastPressed = (k : Int)) (hk : k < 16) (hp : s.keypad k = false) :
    s.emulateCycle = .ok { s with pc := s.pc + 2, V := setAt s.V x k, lastPressed := -1 } := by
  have h := executeMisc_wait_release ({ s with pc := s.pc + 2 } : Chip8)
    (decode (0xF00A + 256 * x)) (decode_keyWait x hc.2.2.2).2.1 k hl hk hp
  rw [cycle_keyWait s x hc, h, (decode_keyWait x hc.2.2.2).2.2]

theorem latchOf_idle (kp : Nat → Bool) (h : ∀ j, j < 16 → kp j = false) : latchOf kp = -1 := by
  unfold latchOf
  cases hf : firstPressed kp 16 0 with
  | none => rfl
  | some key =>
    obtain ⟨-, a2, a3, -⟩ := firstPressed_some hf
    rw [h key (by omega)] at a3
    cases a3

theorem latchOf_lowest (kp : Nat → Bool) (k : Nat) (hk : k < 16) (hp : kp k = true)
    (hl : ∀ j, j < k → kp j = false) : latchOf kp = (k : Int) := by
  unfold latchOf
  rw [firstPressed_of_lowest (Nat.zero_le k) (by omega) hp (fun m _ hm => hl m hm)]

theorem drive_cons_keys_cycle (s : Chip8) (kp : Nat → Bool) (es : List Event) :
    s.drive (.keys kp :: .cycle :: es) =
      match ({ s with keypad := kp } : Chip8).emulateCycle with
      | .error e => .error e
      | .ok s1 => s1.drive es := rfl

/-- While no key is pressed the wait stays without a latch. -/
theorem drive_wait_idle (s : Chip8) (x : Nat) (idle : List (Nat → Bool)) (es : List Event)
    (hc : s.KeyWaitAt x) (hl : s.lastPressed = -1)
    (hidle : ∀ kp ∈ idle, ∀ j, j < 16 → kp j = false) :
    s.drive (waitEvents idle ++ es) =
      ({ s with keypad := idle.getLastD s.keypad } : Chip8).drive es := by
  induction idle generalizing s with
  | nil => rfl
  | cons kp kps ih =>
    have h1 : ({ s with keypad := kp } : Chip8).emulateCycle = .ok { s with keypad := kp } := by
      rw [cycle_wait_scan ({ s with keypad := kp } : Chip8) x hc hl,
        latchOf_idle kp (hidle kp (List.mem_cons_self _ _))]
      rw [← hl]
    rw [waitEvents, List.cons_append, List.cons_append, drive_cons_keys_cycle, h1]
    simp only
    rw [ih ({ s with keypad := kp } : Chip8) hc hl
      (fun q hq => hidle q (List.mem_cons_of_mem _ hq))]
    cases kps <;> rfl

/-- While the latched key is pressed the wait does not complete. -/
theorem drive_wait_held (s : Chip8) (x k : Nat) (held : List (Nat → Bool)) (es : List Event)
    (hc : s.KeyWaitAt x) (hl : s.lastPressed = (k : Int)) (hk : k < 16)
    (hheld : ∀ kp ∈ held, kp k = true) :
    s.drive (waitEvents held ++ es) =
      ({ s with keypad := held.getLastD s.keypad } : Chip8).drive es := by
  induction held generalizing s with
  | nil => rfl
  | cons kp kps ih =>
    have h1 : ({ s with keypad := kp } : Chip8).emulateCycle = .ok { s with keypad := kp } :=
      cycle_wait_hold ({ s with keypad := kp } : Chip8) x k hc hl hk
        (hheld kp (List.mem_cons_self _ _))
    rw [waitEvents, List.cons_append, List.cons_append, drive_cons_keys_cycle, h1]
    simp only
    rw [ih ({ s with keypad := kp } : Chip8) hc hl
      (fun q hq => hheld q (List.mem_cons_of_mem _ hq))]
    cases kps <;> rfl

theorem waitEvents_append (l1 l2 : List (Nat → Bool)) :
    waitEvents (l1 ++ l2) = waitEvents l1 ++ waitEvents l2 := by
  induction l1 with
  | nil => rfl
  | cons kp kps ih => simp [waitEvents, ih]

/-- A whole wait: snapshots without a pressed key, a snapshot whose lowest
pressed key is `k`, snapshots in which `k` is pressed, then (for the second
equation) a snapshot in which `k` is released. -/
theorem drive_wait_whole (w : Chip8) (x k : Nat) (idle held : List (Nat → Bool))
    (first rel : Nat → Bool) (hc : w.KeyWaitAt x) (hl : w.lastPressed = -1)
    (hidle : ∀ kp ∈ idle, ∀ j, j < 16 → kp j = false)
    (hk : k < 16) (hfirst : first k = true ∧ ∀ j, j < k → first j = false)
    (hheld : ∀ kp ∈ held, kp k = true) (hrel : rel k = false) :
    w.drive (waitEvents (idle ++ first :: held)) =
      .ok { w with keypad := held.getLastD first, lastPressed := (k : Int) } ∧
    w.drive (waitEvents (idle ++ first :: held ++ [rel])) =
      .ok { w with keypad := rel, pc := w.pc + 2, V := setAt w.V x k, lastPressed := -1 } := by
  have hstep : ∀ es : List Event, w.drive (waitEvents (idle ++ first :: held) ++ es) =
      ({ w with keypad := held.getLastD first, lastPressed := (k : Int) } : Chip8).drive es := by
    intro es
    have e1 : ({ w with keypad := first } : Chip8).emulateCycle =
        .ok { w with keypad := first, lastPressed := (k : Int) } := by
      rw [cycle_wait_scan ({ w with keypad := first } : Chip8) x hc hl,
        latchOf_lowest first k hk hfirst.1 hfirst.2]
    rw [waitEvents_append, List.append_assoc, drive_wait_idle w x idle _ hc hl hidle, waitEvents,
      List.cons_append, List.cons_append, drive_cons_keys_cycle]
    simp only
    rw [e1]
    simp only
    rw [drive_wait_held ({ w with keypad := first, lastPressed := (k : Int) } : Chip8) x k held es
      hc rfl hk hheld]
  constructor
  · have := hstep []
    rw [List.append_nil] at this
    rw [this]
    rfl
  · have e2 : ({ w with keypad := rel, lastPressed := (k : Int) } : Chip8).emulateCycle =
        .ok { w with keypad := rel, pc := w.pc + 2, V := setAt w.V x k, lastPressed := -1 } :=
      cycle_wait_release ({ w with keypad := rel, lastPressed := (k : Int) } : Chip8) x k hc rfl
        hk hrel
    have h3 : idle ++ first :: held ++ [rel] = (idle ++ first :: held) ++ [rel] := by simp
    rw [h3, waitEvents_append, hstep]
    show Chip8.drive _ (.keys rel :: .cycle :: []) = _
    rw [drive_cons_keys_cycle]
    simp only
    rw [e2]
    rfl

/-- C22: the key wait `FX0A`, executed after fetch advanced the program
counter.  Without a latched key it rewinds the program counter by 2, leaves
the registers, and latches the lowest pressed key, if any.  With the latched
key `k` released it stores `k` in `VX`, clears the latch and does not rewind.
With the latched key still pressed it only rewinds.  The extended machine
hands the instruction to the same code.  Hence a wait driven through keypad
snapshots (none pressed; then `k` the lowest pressed; then `k` pressed,
whatever the other keys do) is still at the instruction with the registers
unchanged, and completes with `VX = k` at the first snapshot in which `k` is
released. -/
theorem key_wait_latches_first_key (a b c w : Chip8) (t : SuperChip) (i : Instruction)
    (k x : Nat) (idle held : List (Nat → Bool)) (first rel : Nat → Bool)
    (hi : i.IsMisc 0x0A) (hk : k < 16)
    (ha : a.lastPressed = -1 ∧ 2 ≤ a.pc ∧ a.pc < 65536)
    (hb : b.lastPressed = (k : Int) ∧ b.keypad k = false)
    (hc : c.lastPressed = (k : Int) ∧ c.keypad k = true ∧ 2 ≤ c.pc ∧ c.pc < 65536)
    (hw : w.KeyWaitAt x ∧ w.lastPressed = -1)
    (hidle : ∀ kp ∈ idle, ∀ j, j < 16 → kp j = false)
    (hfirst : first k = true ∧ ∀ j, j < k → first j = false)
    (hheld : ∀ kp ∈ held, kp k = true) (hrel : rel k = false) :
    (∃ a1, a.execute i = .ok a1 ∧
      a1 = { a with pc := a.pc - 2, lastPressed := a1.lastPressed } ∧
      ((∀ j, j < 16 → a.keypad j = false) → a1.lastPressed = -1) ∧
      (∀ m, m < 16 → a.keypad m = true → (∀ j, j < m → a.keypad j = false) →
        a1.lastPressed = (m : Int))) ∧
    b.execute i = .ok { b with V := setAt b.V i.x k, lastPressed := -1 } ∧
    c.execute i = .ok { c with pc := c.pc - 2 } ∧
    t.execute i = t.executeBase i ∧
    w.drive (waitEvents (idle ++ first :: held)) =
      .ok { w with keypad := held.getLastD first, lastPressed := (k : Int) } ∧
    w.drive (waitEvents (idle ++ first :: held ++ [rel])) =
      .ok { w with keypad := rel, pc := w.pc + 2, V := setAt w.V x k, lastPressed := -1 } := by
  obtain ⟨hop, hnn, -⟩ := hi
  obtain ⟨d1, d2⟩ := drive_wait_whole w x k idle held first rel hw.1 hw.2 hidle hk hfirst hheld hrel
  refine ⟨⟨{ a with pc := a.pc - 2, lastPressed := latchOf a.keypad }, ?_, rfl,
      fun h => latchOf_idle a.keypad h, fun m hm hp hl => latchOf_lowest a.keypad m hm hp hl⟩,
    ?_, ?_, ?_, d1, d2⟩
  · rw [chip8_execute_misc a i hop, executeMisc_wait_scan a i hnn ha.1 ha.2.1 ha.2.2]
  · rw [chip8_execute_misc b i hop, executeMisc_wait_release b i hnn k hb.1 hk hb.2]
  · rw [chip8_execute_misc c i hop,
      executeMisc_wait_hold c i hnn k hc.1 hk hc.2.1 hc.2.2.1 hc.2.2.2]
  · exact superChip_execute_misc t i hop (by omega) (by omega) (by omega)

/-- C22 at the instruction `F30A`: keys 5 and 7 go down, key 7 is released and
key 9 pressed while key 5 is held, then key 5 is released. -/
theorem key_wait_latches_first_key_witness :
    ((decode 0xF30A).IsMisc 0x0A ∧ 5 < 16 ∧
      ((keyFetched (-1) [5, 7]).lastPressed = -1 ∧ 2 ≤ (keyFetched (-1) [5, 7]).pc ∧
        (keyFetched (-1) [5, 7]).pc < 65536) ∧
      ((keyFetched 5 [7]).lastPressed = (5 : Nat) ∧ (keyFetched 5 [7]).keypad 5 = false) ∧
      ((keyFetched 5 [5, 9]).lastPressed = (5 : Nat) ∧ (keyFetched 5 [5, 9]).keypad 5 = true ∧
        2 ≤ (keyFetched 5 [5, 9]).pc ∧ (keyFetched 5 [5, 9]).pc < 65536) ∧
      (keyBase.KeyWaitAt 3 ∧ keyBase.lastPressed = -1) ∧
      (∀ kp ∈ [keysDown [], keysDown []], ∀ j, j < 16 → kp j = false) ∧
      (keysDown [5, 7] 5 = true ∧ ∀ j, j < 5 → keysDown [5, 7] j = false) ∧
      (∀ kp ∈ [keysDown [5], keysDown [5, 9]], kp 5 = true) ∧ keysDown [9] 5 = false) ∧
    ((∃ a1, (keyFetched (-1) [5, 7]).execute (decode 0xF30A) = .ok a1 ∧
      a1 = { keyFetched (-1) [5, 7] with pc := 0x200, lastPressed := a1.lastPressed } ∧
      ((∀ j, j < 16 → (keyFetched (-1) [5, 7]).keypad j = false) → a1.lastPressed = -1) ∧
      (∀ m, m < 16 → (keyFetched (-1) [5, 7]).keypad m = true →
        (∀ j, j < m → (keyFetched (-1) [5, 7]).keypad j = false) →
        a1.lastPressed = (m : Int))) ∧
    (keyFetched 5 [7]).execute (decode 0xF30A) =
      .ok { keyFetched 5 [7] with V := setAt (keyFetched 5 [7]).V 3 5, lastPressed := -1 } ∧
    (keyFetched 5 [5, 9]).execute (decode 0xF30A) = .ok { keyFetched 5 [5, 9] with pc := 0x200 } ∧
    spriteSuper.execute (decode 0xF30A) = spriteSuper.executeBase (decode 0xF30A) ∧
    keyBase.drive (waitEvents ([keysDown [], keysDown []] ++
        keysDown [5, 7] :: [keysDown [5], keysDown [5, 9]])) =
      .ok { keyBase with keypad := keysDown [5, 9], lastPressed := (5 : Nat) } ∧
    keyBase.drive (waitEvents ([keysDown [], keysDown []] ++
        keysDown [5, 7] :: [keysDown [5], keysDown [5, 9]] ++ [keysDown [9]])) =
      .ok { keyBase with keypad := keysDown [9], pc := 0x202, V := setAt keyBase.V 3 5,
                         lastPressed := -1 }) :=
  ⟨⟨by decide, by decide, by decide, by decide, by decide, by decide, by decide, by decide,
      by decide, by decide⟩,
    key_wait_latches_first_key (keyFetched (-1) [5, 7]) (keyFetched 5 [7]) (keyFetched 5 [5, 9])
      keyBase spriteSuper (decode 0xF30A) 5 3 [keysDown [], keysDown []]
      [keysDown [5], keysDown [5, 9]] (keysDown [5, 7]) (keysDown [9])
      (by decide) (by decide) (by decide) (by decide) (by decide) (by decide) (by decide)
      (by decide) (by decide) (by decide)⟩

/-! ## Scrolling on the extended machine -/

/-- The library function `std::move_backward` towards higher positions: the
`k` elements from `first` on land in the `k` positions before `dLast`. -/
theorem moveBackward_spec (d : Nat → Bool) (first k dLast : Nat) (h : first + k ≤ dLast)
    (j : Nat) :
    moveBackward d first k dLast j =
      if dLast - k ≤ j ∧ j < dLast then d (first + (j - (dLast - k))) else d j := by
  induction k generalizing d dLast with
  | zero =>
    have hn : ¬ (dLast - 0 ≤ j ∧ j < dLast) := by omega
    rw [moveBackward, if_neg hn]
  | succ k ih =>
    rw [moveBackward, ih _ _ (by omega)]
    by_cases h1 : dLast - 1 - k ≤ j ∧ j < dLast - 1
    · have h2 : dLast - (k + 1) ≤ j ∧ j < dLast := by omega
      have h3 : first + (j - (dLast - 1 - k)) ≠ dLast - 1 := by omega
      have h4 : dLast - 1 - k = dLast - (k + 1) := by omega
      rw [if_pos h1, if_pos h2, setAt_of_ne _ _ h3, h4]
    · rw [if_neg h1]
      by_cases hj : j = dLast - 1
      · have h2 : dLast - (k + 1) ≤ j ∧ j < dLast := by omega
        have h3 : first + (j - (dLast - (k + 1))) = first + k := by omega
        rw [if_pos h2, hj, setAt_same, ← hj, h3]
      · have h2 : ¬ (dLast - (k + 1) ≤ j ∧ j < dLast) := by omega
        rw [if_neg h2, setAt_of_ne _ _ hj]

/-- The library function `std::move` towards lower positions: the `k` elements
from `first` on land in the `k` positions from `dFirst` on. -/
theorem moveForward_spec (d : Nat → Bool) (k first dFirst : Nat) (h : dFirst ≤ first)
    (j : Nat) :
    moveForward d k first dFirst j =
      if dFirst ≤ j ∧ j < dFirst + k then d (first + (j - dFirst)) else d j := by
  induction k generalizing d first dFirst with
  | zero =>
    have hn : ¬ (dFirst ≤ j ∧ j < dFirst + 0) := by omega
    rw [moveForward, if_neg hn]
  | succ k ih =>
    rw [moveForward, ih _ _ _ (by omega)]
    by_cases h1 : dFirst + 1 ≤ j ∧ j < dFirst + 1 + k
    · have h2 : dFirst ≤ j ∧ j < dFirst + (k + 1) := by omega
      have h3 : first + 1 + (j - (dFirst + 1)) ≠ dFirst := by omega
      have h4 : first + 1 + (j - (dFirst + 1)) = first + (j - dFirst) := by omega
      rw [if_pos h1, if_pos h2, setAt_of_ne _ _ h3, h4]
    · rw [if_neg h1]
      by_cases hj : j = dFirst
      · subst hj
        have h2 : j ≤ j ∧ j < j + (k + 1) := by omega
        rw [if_pos h2, setAt_same, Nat.sub_self, Nat.add_zero]
      · have h2 : ¬ (dFirst ≤ j ∧ j < dFirst + (k + 1)) := by omega
        rw [if_neg h2, setAt_of_ne _ _ hj]

theorem decode_scroll_down (n : Nat) (h : n < 16) :
    (decode (0x00C0 + n)).opcode = 0 ∧ (decode (0x00C0 + n)).x = 0 ∧
    (decode (0x00C0 + n)).y = 0xC ∧ (decode (0x00C0 + n)).n = n ∧
    (decode (0x00C0 + n)).nn = 0xC0 + n := by
  rw [decode_opcode, decode_x, decode_y, decode_n, decode_nn]
  omega

/-- The state after the scroll down `00CN` when `N` rows fit the display. -/
theorem execute_scroll_down (t : SuperChip) (n : Nat) (hn : n < 16)
    (hh : n ≤ t.display.height) :
    t.execute (decode (0x00C0 + n)) = .ok { t with display := { t.display with
      display := fillN (moveBackward t.display.display 0
        (t.display.size - t.display.width * n) t.display.size) 0 (t.display.width * n) false } } := by
  obtain ⟨h1, h2, h3, h4, h5⟩ := decode_scroll_down n hn
  have e1 : (decode (0x00C0 + n)).nn ≠ 0xFB := by omega
  have e2 : (decode (0x00C0 + n)).nn ≠ 0xFC := by omega
  have e3 : (decode (0x00C0 + n)).nn ≠ 0xFD := by omega
  have e4 : (decode (0x00C0 + n)).nn ≠ 0xFE := by omega
  have e5 : (decode (0x00C0 + n)).nn ≠ 0xFF := by omega
  have hsz : t.display.width * n ≤ t.display.size := Nat.mul_le_mul_left _ hh
  unfold SuperChip.execute
  simp only [h1, h2, if_true, h3, h4, hsz]

theorem scroll_down_display (d : Nat → Bool) (w h n : Nat) (hh : n ≤ h) (idx : Nat)
    (hidx : idx < w * h) :
    fillN (moveBackward d 0 (w * h - w * n) (w * h)) 0 (w * n) false idx =
      if idx < w * n then false else d (idx - w * n) := by
  have hsz : w * n ≤ w * h := Nat.mul_le_mul_left _ hh
  unfold fillN
  by_cases h1 : idx < w * n
  · have h2 : 0 ≤ idx ∧ idx < 0 + w * n := by omega
    rw [if_pos h2, if_pos h1]
  · have h2 : ¬ (0 ≤ idx ∧ idx < 0 + w * n) := by omega
    have h3 : w * h - (w * h - w * n) ≤ idx ∧ idx < w * h := by omega
    have h4 : 0 + (idx - (w * h - (w * h - w * n))) = idx - w * n := by omega
    rw [if_neg h2, if_neg h1, moveBackward_spec _ _ _ _ (by omega), if_pos h3, h4]

/-- C29: on the extended machine, for a display of width `w` and height `h >= N`
and `N` in `0..15`, the scroll down `00CN` yields a display of the same
dimensions in which pixel `(c, r)` is the old pixel `(c, r - N)` for `r >= N`
and is clear for `r < N`; registers, index register, program counter, memory
and stack are unchanged. -/
theorem scroll_down_rows (t : SuperChip) (n : Nat) (hn : n < 16) (hh : n ≤ t.display.height) :
    ∃ t1, t.execute (decode (0x00C0 + n)) = .ok t1 ∧
      t1.display.width = t.display.width ∧ t1.display.height = t.display.height ∧
      (∀ c r, c < t.display.width → n ≤ r → r < t.display.height →
        t1.display.pixel c r = t.display.pixel c (r - n)) ∧
      (∀ c r, c < t.display.width → r < n → t1.display.pixel c r = false) ∧
      t1.V = t.V ∧ t1.index = t.index ∧ t1.pc = t.pc ∧ t1.memory = t.memory ∧
      t1.stack = t.stack := by
  refine ⟨_, execute_scroll_down t n hn hh, rfl, rfl, ?_, ?_, rfl, rfl, rfl, rfl, rfl⟩
  · intro c r hc hr1 hr2
    have hlt : t.display.width * r + c < t.display.width * t.display.height := by
      have : t.display.width * (r + 1) ≤ t.display.width * t.display.height :=
        Nat.mul_le_mul_left _ hr2
      rw [Nat.mul_succ] at this
      omega
    have hge : t.display.width * n ≤ t.display.width * r := Nat.mul_le_mul_left _ hr1
    have hsub : t.display.width * r + c - t.display.width * n
        = t.display.width * (r - n) + c := by
      rw [Nat.mul_sub]
      omega
    show fillN _ _ _ _ (t.display.width * r + c) = t.display.display _
    rw [Display.size, scroll_down_display _ _ _ _ hh _ hlt, if_neg (by omega), hsub]
  · intro c r hc hr
    have hlt : t.display.width * r + c < t.display.width * n := by
      have : t.display.width * (r + 1) ≤ t.display.width * n := Nat.mul_le_mul_left _ hr
      rw [Nat.mul_succ] at this
      omega
    show fillN _ _ _ _ (t.display.width * r + c) = false
    unfold fillN
    rw [if_pos (by omega)]

theorem scroll_down_rows_witness :
    (3 < 16 ∧ 3 ≤ spriteSuperLit.display.height) ∧
    ∃ t1, spriteSuperLit.execute (decode (0x00C0 + 3)) = .ok t1 ∧
      t1.display.width = spriteSuperLit.display.width ∧
      t1.display.height = spriteSuperLit.display.height ∧
      (∀ c r, c < spriteSuperLit.display.width → 3 ≤ r → r < spriteSuperLit.display.height →
        t1.display.pixel c r = spriteSuperLit.display.pixel c (r - 3)) ∧
      (∀ c r, c < spriteSuperLit.display.width → r < 3 → t1.display.pixel c r = false) ∧
      t1.V = spriteSuperLit.V ∧ t1.index = spriteSuperLit.index ∧
      t1.pc = spriteSuperLit.pc ∧ t1.memory = spriteSuperLit.memory ∧
      t1.stack = spriteSuperLit.stack :=
  ⟨⟨by decide, by decide⟩, scroll_down_rows spriteSuperLit 3 (by decide) (by decide)⟩

theorem rowsRight_dims (d : Display) (k y : Nat) :
    (d.rowsRight k y).width = d.width ∧ (d.rowsRight k y).height = d.height := by
  induction k generalizing d y with
  | zero => exact ⟨rfl, rfl⟩
  | succ k ih =>
    rw [Display.rowsRight]
    exact ih (d.rowRight y) (y + 1)

theorem rowsLeft_dims (d : Display) (k y : Nat) :
    (d.rowsLeft k y).width = d.width ∧ (d.rowsLeft k y).height = d.height := by
  induction k generalizing d y with
  | zero => exact ⟨rfl, rfl⟩
  | succ k ih =>
    rw [Display.rowsLeft]
    exact ih (d.rowLeft y) (y + 1)

theorem forLoop_scrollRight (k y : Nat) (t : SuperChip) (hw : 4 ≤ t.display.width)
    (hy : y + k ≤ t.display.height) :
    forLoop SuperChip.scrollRightRow k y t =
      .ok { t with display := t.display.rowsRight k y } := by
  induction k generalizing y t with
  | zero => rfl
  | succ k ih =>
    have hsz : y * t.display.width + t.display.width ≤ t.display.size := by
      have : t.display.width * (y + 1) ≤ t.display.width * t.display.height :=
        Nat.mul_le_mul_left _ (by omega)
      rw [Nat.mul_succ, Nat.mul_comm] at this
      exact this
    rw [forLoop_succ]
    simp only [SuperChip.scrollRightRow, hw, hsz, and_self, if_true]
    exact ih (y + 1) ({ t with display := t.display.rowRight y } : SuperChip) hw
      (by show y + 1 + k ≤ t.display.height; omega)

theorem forLoop_scrollLeft (k y : Nat) (t : SuperChip) (hw : 4 ≤ t.display.width)
    (hy : y + k ≤ t.display.height) :
    forLoop SuperChip.scrollLeftRow k y t =
      .ok { t with display := t.display.rowsLeft k y } := by
  induction k generalizing y t with
  | zero => rfl
  | succ k ih =>
    have hsz : y * t.display.width + t.display.width ≤ t.display.size := by
      have : t.display.width * (y + 1) ≤ t.display.width * t.display.height :=
        Nat.mul_le_mul_left _ (by omega)
      rw [Nat.mul_succ, Nat.mul_comm] at this
      exact this
    rw [forLoop_succ]
    simp only [SuperChip.scrollLeftRow, hw, hsz, and_self, if_true]
    exact ih (y + 1) ({ t with display := t.display.rowLeft y } : SuperChip) hw
      (by show y + 1 + k ≤ t.display.height; omega)

theorem rowRightPixels_spec (d : Nat → Bool) (w rs : Nat) (hw : 4 ≤ w) (j : Nat) :
    rowRightPixels d w rs j =
      if rs ≤ j ∧ j < rs + w then (if j < rs + 4 then false else d (j - 4)) else d j := by
  unfold rowRightPixels fillN
  rw [moveBackward_spec _ _ _ _ (by omega)]
  by_cases h1 : rs ≤ j ∧ j < rs + 4
  · have h2 : rs ≤ j ∧ j < rs + w := by omega
    rw [if_pos h1, if_pos h2, if_pos h1.2]
  · rw [if_neg h1]
    by_cases h2 : rs ≤ j ∧ j < rs + w
    · have h3 : rs + w - (w - 4) ≤ j ∧ j < rs + w := by omega
      have h4 : ¬ j < rs + 4 := by omega
      have h5 : rs + (j - (rs + w - (w - 4))) = j - 4 := by omega
      rw [if_pos h3, if_pos h2, if_neg h4, h5]
    · have h3 : ¬ (rs + w - (w - 4) ≤ j ∧ j < rs + w) := by omega
      rw [if_neg h3, if_neg h2]

theorem rowLeftPixels_spec (d : Nat → Bool) (w rs : Nat) (hw : 4 ≤ w) (j : Nat) :
    rowLeftPixels d w rs j =
      if rs ≤ j ∧ j < rs + w then (if j + 4 < rs + w then d (j + 4) else false) else d j := by
  unfold rowLeftPixels fillN
  rw [moveForward_spec _ _ _ _ (by omega)]
  by_cases h1 : rs + w - 4 ≤ j ∧ j < rs + w - 4 + 4
  · have h2 : rs ≤ j ∧ j < rs + w := by omega
    have h3 : ¬ j + 4 < rs + w := by omega
    rw [if_pos h1, if_pos h2, if_neg h3]
  · rw [if_neg h1]
    by_cases h2 : rs ≤ j ∧ j < rs + w
    · have h3 : rs ≤ j ∧ j < rs + (w - 4) := by omega
      have h4 : j + 4 < rs + w := by omega
      have h5 : rs + 4 + (j - rs) = j + 4 := by omega
      rw [if_pos h3, if_pos h2, if_pos h4, h5]
    · have h3 : ¬ (rs ≤ j ∧ j < rs + (w - 4)) := by omega
      rw [if_neg h3, if_neg h2]

/-- A pixel index lies in row `y` exactly when its row is `y`. -/
theorem index_in_row (w y r c : Nat) (hc : c < w) :
    (y * w ≤ w * r + c ∧ w * r + c < y * w + w) ↔ r = y := by
  constructor
  · intro ⟨h1, h2⟩
    rcases Nat.lt_trichotomy r y with h | h | h
    · have : w * (r + 1) ≤ w * y := Nat.mul_le_mul_left _ h
      rw [Nat.mul_succ, Nat.mul_comm w y] at this
      omega
    · exact h
    · have : w * (y + 1) ≤ w * r := Nat.mul_le_mul_left _ h
      rw [Nat.mul_succ, Nat.mul_comm w y] at this
      omega
  · intro h
    subst h
    rw [Nat.mul_comm r w]
    omega

theorem rowRight_pixel (d : Display) (y c r : Nat) (hw : 4 ≤ d.width) (hc : c < d.width) :
    (d.rowRight y).pixel c r =
      if r = y then (if c < 4 then false else d.pixel (c - 4) r) else d.pixel c r := by
  show rowRightPixels d.display d.width (y * d.width) (d.width * r + c) = _
  rw [rowRightPixels_spec _ _ _ hw]
  by_cases h : r = y
  · rw [if_pos ((index_in_row _ _ _ _ hc).2 h), if_pos h]
    subst h
    by_cases h4 : c < 4
    · have : d.width * r + c < r * d.width + 4 := by rw [Nat.mul_comm r]; omega
      rw [if_pos this, if_pos h4]
    · have : ¬ d.width * r + c < r * d.width + 4 := by rw [Nat.mul_comm r]; omega
      have e : d.width * r + c - 4 = d.width * r + (c - 4) := by omega
      rw [if_neg this, if_neg h4, e]
      rfl
  · rw [if_neg (fun hh => h ((index_in_row _ _ _ _ hc).1 hh)), if_neg h]
    rfl

theorem rowLeft_pixel (d : Display) (y c r : Nat) (hw : 4 ≤ d.width) (hc : c < d.width) :
    (d.rowLeft y).pixel c r =
      if r = y then (if c + 4 < d.width then d.pixel (c + 4) r else false)
      else d.pixel c r := by
  show rowLeftPixels d.display d.width (y * d.width) (d.width * r + c) = _
  rw [rowLeftPixels_spec _ _ _ hw]
  by_cases h : r = y
  · rw [if_pos ((index_in_row _ _ _ _ hc).2 h), if_pos h]
    subst h
    by_cases h4 : c + 4 < d.width
    · have : d.width * r + c + 4 < r * d.width + d.width := by rw [Nat.mul_comm r]; omega
      rw [if_pos this, if_pos h4]
      rfl
    · have : ¬ d.width * r + c + 4 < r * d.width + d.width := by rw [Nat.mul_comm r]; omega
      rw [if_neg this, if_neg h4]
  · rw [if_neg (fun hh => h ((index_in_row _ _ _ _ hc).1 hh)), if_neg h]
    rfl

theorem rowsRight_pixel (d : Display) (k y c r : Nat) (hw : 4 ≤ d.width) (hc : c < d.width) :
    (d.rowsRight k y).pixel c r =
      if y ≤ r ∧ r < y + k then (if c < 4 then false else d.pixel (c - 4) r)
      else d.pixel c r := by
  induction k generalizing d y with
  | zero =>
    have : ¬ (y ≤ r ∧ r < y + 0) := by omega
    rw [if_neg this]
    rfl
  | succ k ih =>
    have hw1 : 4 ≤ (d.rowRight y).width := hw
    have hc1 : c < (d.rowRight y).width := hc
    rw [Display.rowsRight, ih (d.rowRight y) (y + 1) hw1 hc1]
    by_cases h1 : y + 1 ≤ r ∧ r < y + 1 + k
    · have h2 : y ≤ r ∧ r < y + (k + 1) := by omega
      have h3 : r ≠ y := by omega
      rw [if_pos h1, if_pos h2]
      by_cases h4 : c < 4
      · rw [if_pos h4, if_pos h4]
      · rw [if_neg h4, if_neg h4, rowRight_pixel d y (c - 4) r hw (by omega), if_neg h3]
    · rw [if_neg h1, rowRight_pixel d y c r hw hc]
      by_cases h3 : r = y
      · have h2 : y ≤ r ∧ r < y + (k + 1) := by omega
        rw [if_pos h3, if_pos h2]
      · have h2 : ¬ (y ≤ r ∧ r < y + (k + 1)) := by omega
        rw [if_neg h3, if_neg h2]

theorem rowsLeft_pixel (d : Display) (k y c r : Nat) (hw : 4 ≤ d.width) (hc : c < d.width) :
    (d.rowsLeft k y).pixel c r =
      if y ≤ r ∧ r < y + k then (if c + 4 < d.width then d.pixel (c + 4) r else false)
      else d.pixel c r := by
  induction k generalizing d y with
  | zero =>
    have : ¬ (y ≤ r ∧ r < y + 0) := by omega
    rw [if_neg this]
    rfl
  | succ k ih =>
    have hw1 : 4 ≤ (d.rowLeft y).width := hw
    have hc1 : c < (d.rowLeft y).width := hc
    have e : (d.rowLeft y).width = d.width := rfl
    rw [Display.rowsLeft, ih (d.rowLeft y) (y + 1) hw1 hc1, e]
    by_cases h1 : y + 1 ≤ r ∧ r < y + 1 + k
    · have h2 : y ≤ r ∧ r < y + (k + 1) := by omega
      have h3 : r ≠ y := by omega
      rw [if_pos h1, if_pos h2]
      by_cases h4 : c + 4 < d.width
      · rw [if_pos h4, if_pos h4, rowLeft_pixel d y (c + 4) r hw h4, if_neg h3]
      · rw [if_neg h4, if_neg h4]
    · rw [if_neg h1, rowLeft_pixel d y c r hw hc]
      by_cases h3 : r = y
      · have h2 : y ≤ r ∧ r < y + (k + 1) := by omega
        rw [if_pos h3, if_pos h2]
      · have h2 : ¬ (y ≤ r ∧ r < y + (k + 1)) := by omega
        rw [if_neg h3, if_neg h2]

/-- The state after the scroll right `00FB` on a display at least 4 wide. -/
theorem execute_scroll_right (t : SuperChip) (hw : 4 ≤ t.display.width) :
    t.execute (decode 0x00FB) =
      .ok { t with display := t.display.rowsRight t.display.height 0 } := by
  have h := forLoop_scrollRight t.display.height 0 t hw (by omega)
  exact h

/-- The state after the scroll left `00FC` on a display at least 4 wide. -/
theorem execute_scroll_left (t : SuperChip) (hw : 4 ≤ t.display.width) :
    t.execute (decode 0x00FC) =
      .ok { t with display := t.display.rowsLeft t.display.height 0 } := by
  have h := forLoop_scrollLeft t.display.height 0 t hw (by omega)
  exact h

/-- C30: on the extended machine with a display of width `w >= 4`, after the
scroll right `00FB` pixel `(c, r)` is the old pixel `(c - 4, r)` for `c >= 4`
and is clear for `c < 4`; after the scroll left `00FC` pixel `(c, r)` is the
old pixel `(c + 4, r)` for `c + 4 < w` and is clear for `c >= w - 4`; a pixel
only ever comes from its own row, the dimensions are kept, and registers,
index register, memory, program counter and stack are unchanged. -/
theorem scroll_sideways_columns (t : SuperChip) (hw : 4 ≤ t.display.width) :
    (∃ t1, t.execute (decode 0x00FB) = .ok t1 ∧
      t1.display.width = t.display.width ∧ t1.display.height = t.display.height ∧
      (∀ c r, 4 ≤ c → c < t.display.width → r < t.display.height →
        t1.display.pixel c r = t.display.pixel (c - 4) r) ∧
      (∀ c r, c < 4 → r < t.display.height → t1.display.pixel c r = false) ∧
      t1.V = t.V ∧ t1.index = t.index ∧ t1.memory = t.memory ∧ t1.pc = t.pc ∧
      t1.stack = t.stack) ∧
    (∃ t2, t.execute (decode 0x00FC) = .ok t2 ∧
      t2.display.width = t.display.width ∧ t2.display.height = t.display.height ∧
      (∀ c r, c + 4 < t.display.width → r < t.display.height →
        t2.display.pixel c r = t.display.pixel (c + 4) r) ∧
      (∀ c r, t.display.width - 4 ≤ c → c < t.display.width → r < t.display.height →
        t2.display.pixel c r = false) ∧
      t2.V = t.V ∧ t2.index = t.index ∧ t2.memory = t.memory ∧ t2.pc = t.pc ∧
      t2.stack = t.stack) := by
  constructor
  · refine ⟨_, execute_scroll_right t hw, (rowsRight_dims _ _ _).1, (rowsRight_dims _ _ _).2,
      ?_, ?_, rfl, rfl, rfl, rfl, rfl⟩
    · intro c r h4 hc hr
      show (t.display.rowsRight t.display.height 0).pixel c r = _
      rw [rowsRight_pixel _ _ _ _ _ hw hc, if_pos (by omega), if_neg (by omega)]
    · intro c r h4 hr
      show (t.display.rowsRight t.display.height 0).pixel c r = _
      rw [rowsRight_pixel _ _ _ _ _ hw (by omega), if_pos (by omega), if_pos h4]
  · refine ⟨_, execute_scroll_left t hw, (rowsLeft_dims _ _ _).1, (rowsLeft_dims _ _ _).2,
      ?_, ?_, rfl, rfl, rfl, rfl, rfl⟩
    · intro c r h4 hr
      show (t.display.rowsLeft t.display.height 0).pixel c r = _
      rw [rowsLeft_pixel _ _ _ _ _ hw (by omega), if_pos (by omega), if_pos h4]
    · intro c r h4 hc hr
      show (t.display.rowsLeft t.display.height 0).pixel c r = _
      rw [rowsLeft_pixel _ _ _ _ _ hw hc, if_pos (by omega), if_neg (by omega)]

theorem scroll_sideways_columns_witness :
    4 ≤ spriteSuperLit.display.width ∧
    ((∃ t1, spriteSuperLit.execute (decode 0x00FB) = .ok t1 ∧
      t1.display.width = spriteSuperLit.display.width ∧
      t1.display.height = spriteSuperLit.display.height ∧
      (∀ c r, 4 ≤ c → c < spriteSuperLit.display.width → r < spriteSuperLit.display.height →
        t1.display.pixel c r = spriteSuperLit.display.pixel (c - 4) r) ∧
      (∀ c r, c < 4 → r < spriteSuperLit.display.height → t1.display.pixel c r = false) ∧
      t1.V = spriteSuperLit.V ∧ t1.index = spriteSuperLit.index ∧
      t1.memory = spriteSuperLit.memory ∧ t1.pc = spriteSuperLit.pc ∧
      t1.stack = spriteSuperLit.stack) ∧
    (∃ t2, spriteSuperLit.execute (decode 0x00FC) = .ok t2 ∧
      t2.display.width = spriteSuperLit.display.width ∧
      t2.display.height = spriteSuperLit.display.height ∧
      (∀ c r, c + 4 < spriteSuperLit.display.width → r < spriteSuperLit.display.height →
        t2.display.pixel c r = spriteSuperLit.display.pixel (c + 4) r) ∧
      (∀ c r, spriteSuperLit.display.width - 4 ≤ c → c < spriteSuperLit.display.width →
        r < spriteSuperLit.display.height → t2.display.pixel c r = false) ∧
      t2.V = spriteSuperLit.V ∧ t2.index = spriteSuperLit.index ∧
      t2.memory = spriteSuperLit.memory ∧ t2.pc = spriteSuperLit.pc ∧
      t2.stack = spriteSuperLit.stack)) :=
  ⟨by decide, scroll_sideways_columns spriteSuperLit (by decide)⟩

/-! ## A draw followed by a jump to itself -/

/-- A cycle fetches the two bytes at the program counter and executes the
decoded word on the state with the advanced program counter. -/
theorem cycle_at (s : Chip8) (hi lo : Nat) (hpc : s.pc + 1 < 4096)
    (hhi : s.memory s.pc = hi) (hlo : s.memory (s.pc + 1) = lo) (hl : lo < 256) :
    s.emulateCycle = ({ s with pc := s.pc + 2 } : Chip8).execute (decode (hi * 256 + lo)) := by
  have h0 : s.pc < 4096 := by omega
  have hm : (s.pc + 2) % 65536 = s.pc + 2 := by omega
  simp only [Chip8.emulateCycle, Chip8.fetch, Chip8.readMem, h0, hpc, if_true, hhi, hlo,
    fetch_word _ _ hl, hm]

theorem decode_jump (a : Nat) (h : a < 4096) :
    (decode (0x1000 + a)).opcode = 1 ∧ (decode (0x1000 + a)).nnn = a := by
  rw [decode_opcode, decode_nnn]
  omega

/-- A cycle on a jump to itself changes nothing. -/
theorem cycle_loopAt (s : Chip8) (a n : Nat) (ha : a + 1 < 4096) (h : s.LoopAt a n) :
    s.emulateCycle = .ok s := by
  obtain ⟨hpc, hhi, hlo, -⟩ := h
  have hw : (0x10 + a / 256) * 256 + a % 256 = 0x1000 + a := by omega
  rw [cycle_at s (0x10 + a / 256) (a % 256) (by omega) (by rw [hpc]; exact hhi)
    (by rw [hpc]; exact hlo) (by omega), hw]
  obtain ⟨h1, h2⟩ := decode_jump a (by omega)
  simp only [Chip8.execute, h1, h2]
  rw [← hpc]

/-- Cycles, timer ticks and keypad writes in any order keep a machine on its
jump and leave its display as it is. -/
theorem drive_loopAt (es : List Event) (s : Chip8) (a n : Nat) (ha : a + 1 < 4096)
    (h : s.LoopAt a n) : ∃ s1, s.drive es = .ok s1 ∧ s1.LoopAt a n := by
  induction es generalizing s with
  | nil => exact ⟨s, rfl, h⟩
  | cons e es ih =>
    cases e with
    | cycle =>
      simp only [Chip8.drive, cycle_loopAt s a n ha h]
      exact ih s h
    | tick =>
      simp only [Chip8.drive, updateTimers_eq]
      exact ih _ h
    | keys kp =>
      simp only [Chip8.drive]
      exact ih _ h

theorem loaded_eq (rand : Nat → Nat) (rom : List Nat) (h : rom.length ≤ 3584) :
    Chip8.loaded rand rom =
      { Chip8.new rand with memory := romMemory (Chip8.new rand).memory rom } := by
  have h1 : ¬ rom.length > 3584 := by omega
  simp only [Chip8.loaded, Chip8.loadROM, h1, if_false]
  rfl

/-- The bytes of a loaded program of at most 3584 bytes sit from `0x200` on. -/
theorem loaded_memory (rand : Nat → Nat) (rom : List Nat) (h : rom.length ≤ 3584) (k : Nat)
    (hk : k < rom.length) :
    (Chip8.loaded rand rom).memory (0x200 + k) = rom.getD k 0 % 256 := by
  have h1 : ¬ rom.length > 3584 := by omega
  have h2 : 0x200 ≤ 0x200 + k ∧ 0x200 + k < 0x200 + rom.length := by omega
  rw [loaded_eq rand rom h]
  show romMemory _ rom (0x200 + k) = _
  simp only [romMemory, h2, and_self, if_true, Nat.add_sub_cancel_left]

/-- The first cycle of `spriteDrawLoop` points the index register at the
sprite byte. -/
theorem spriteDrawLoop_first (rand : Nat → Nat) :
    (Chip8.loaded rand spriteDrawLoop).emulateCycle = .ok (Chip8.afterIndex rand) := by
  have hpc : (Chip8.loaded rand spriteDrawLoop).pc = 0x200 := by
    rw [loaded_eq rand spriteDrawLoop (by decide)]
    rfl
  have h0 := loaded_memory rand spriteDrawLoop (by decide) 0 (by decide)
  have h1 := loaded_memory rand spriteDrawLoop (by decide) 1 (by decide)
  rw [cycle_at (Chip8.loaded rand spriteDrawLoop) 0xA2 0x06 (by omega)
    (by rw [hpc]; exact h0) (by rw [hpc]; exact h1) (by decide)]
  have hd : (decode (0xA2 * 256 + 0x06)).opcode = 0xA ∧ (decode (0xA2 * 256 + 0x06)).nnn = 0x206 := by
    decide
  simp only [Chip8.execute, hd.1, hd.2, hpc]
  rfl

theorem decode_draw_one :
    (decode (0xD0 * 256 + 0x01)).opcode = 0xD ∧ (decode (0xD0 * 256 + 0x01)).x = 0 ∧
    (decode (0xD0 * 256 + 0x01)).y = 0 ∧ (decode (0xD0 * 256 + 0x01)).n = 1 := by
  decide

/-- The second cycle of `spriteDrawLoop` plots the eight pixels of the sprite
byte. -/
theorem spriteDrawLoop_second (rand : Nat → Nat) :
    (Chip8.afterIndex rand).emulateCycle =
      .ok (({ Chip8.atDraw rand with V := setAt (Chip8.atDraw rand).V 0xF 0 } : Chip8).flipAll
          [0, 1, 2, 3, 4, 5, 6, 7]) := by
  have h2 := loaded_memory rand spriteDrawLoop (by decide) 2 (by decide)
  have h3 := loaded_memory rand spriteDrawLoop (by decide) 3 (by decide)
  have h6 := loaded_memory rand spriteDrawLoop (by decide) 6 (by decide)
  have hpc : (Chip8.afterIndex rand).pc = 0x202 := rfl
  rw [cycle_at (Chip8.afterIndex rand) 0xD0 0x01 (by omega)
    (by rw [hpc]; exact h2) (by rw [hpc]; exact h3) (by decide)]
  obtain ⟨d1, d2, d3, d4⟩ := decode_draw_one
  have hV : ∀ r, (Chip8.atDraw rand).V r = 0 := by
    intro r
    show (Chip8.loaded rand spriteDrawLoop).V r = 0
    rw [loaded_eq rand spriteDrawLoop (by decide)]
    rfl
  have hD : (Chip8.atDraw rand).display = Display.new 64 32 := by
    show (Chip8.loaded rand spriteDrawLoop).display = _
    rw [loaded_eq rand spriteDrawLoop (by decide)]
    rfl
  have hm : (Chip8.atDraw rand).memory 0x206 = 0xFF := h6
  have hplots : (Chip8.atDraw rand).drawPlots (decode (0xD0 * 256 + 0x01)) =
      [0, 1, 2, 3, 4, 5, 6, 7] := by
    simp only [Chip8.drawPlots, Chip8.drawX, Chip8.drawY, d1, d2, d3, d4, hV, hD]
    show rowPlots 64 32 (Chip8.atDraw rand).memory 0x206 0 0 1 0 = _
    simp [rowPlots, colPlots, hm]
  have hrange : (Chip8.atDraw rand).drawInRange (decode (0xD0 * 256 + 0x01)) = true := by
    simp only [Chip8.drawInRange, hplots]
    simp only [Chip8.drawY, d3, d4, hV, hD]
    show (rowReadsOk 32 0x206 0 1 0 && _) = true
    decide
  show (Chip8.atDraw rand).execute _ = _
  rw [execute_draw _ _ d1, if_pos hrange, hplots]

theorem drive_cycle (s s1 : Chip8) (es : List Event) (h : s.emulateCycle = .ok s1) :
    s.drive (.cycle :: es) = s1.drive es := by
  simp only [Chip8.drive, h]

theorem flipAll_pc (s : Chip8) (l : List Nat) : (s.flipAll l).pc = s.pc := by
  induction l generalizing s with
  | nil => rfl
  | cons a l ih =>
    rw [Chip8.flipAll, ih]
    unfold Chip8.flip
    split <;> rfl

theorem count_first_eight (idx : Nat) :
    decide (List.count idx [0, 1, 2, 3, 4, 5, 6, 7] % 2 = 1) = decide (idx < 8) := by
  by_cases h : idx < 8
  · interval_cases idx <;> rfl
  · have hn : idx ∉ [0, 1, 2, 3, 4, 5, 6, 7] := by
      simp only [List.mem_cons, List.mem_singleton, List.not_mem_nil, or_false]
      omega
    rw [List.count_eq_zero_of_not_mem hn]
    simp [h]

/-- After its two cycles `spriteDrawLoop` sits on its jump with the first
eight pixels set. -/
theorem spriteDrawLoop_drawn (rand : Nat → Nat) :
    ∃ s2, (Chip8.loaded rand spriteDrawLoop).drive [.cycle, .cycle] = .ok s2 ∧
      s2.LoopAt 0x204 8 := by
  refine ⟨Chip8.drawn rand, ?_, ?_⟩
  · rw [drive_cycle _ _ _ (spriteDrawLoop_first rand),
      drive_cycle _ _ _ (spriteDrawLoop_second rand)]
    rfl
  · have h4 := loaded_memory rand spriteDrawLoop (by decide) 4 (by decide)
    have h5 := loaded_memory rand spriteDrawLoop (by decide) 5 (by decide)
    unfold Chip8.drawn
    refine ⟨?_, ?_, ?_, ?_, ?_, ?_⟩
    · rw [flipAll_pc]
      rfl
    · rw [flipAll_memory]
      exact h4
    · rw [flipAll_memory]
      exact h5
    · rw [flipAll_width]
      show (Chip8.loaded rand spriteDrawLoop).display.width = 64
      rw [loaded_eq rand spriteDrawLoop (by decide)]
      rfl
    · rw [flipAll_height]
      show (Chip8.loaded rand spriteDrawLoop).display.height = 32
      rw [loaded_eq rand spriteDrawLoop (by decide)]
      rfl
    · intro idx
      rw [flipAll_display, count_first_eight]
      show xor ((Chip8.loaded rand spriteDrawLoop).display.display idx) _ = _
      rw [loaded_eq rand spriteDrawLoop (by decide)]
      show xor false _ = _
      simp

/-- The pixels of a machine on its jump, by column and row. -/
theorem loopAt_pixel (s : Chip8) (a n : Nat) (hn : n ≤ 64) (h : s.LoopAt a n) (c r : Nat) :
    s.display.pixel c r = decide (r = 0 ∧ c < n) := by
  obtain ⟨-, -, -, hw, -, hd⟩ := h
  rw [Display.pixel, hd, hw, decide_eq_decide]
  omega

/-- The only cycle of `bareDrawLoop` that draws plots nothing: the index
register is 0 at construction and the byte at address 0 is 0. -/
theorem bareDrawLoop_first (rand : Nat → Nat) :
    (Chip8.loaded rand bareDrawLoop).emulateCycle = .ok (Chip8.bareDrawn rand) := by
  have h0 := loaded_memory rand bareDrawLoop (by decide) 0 (by decide)
  have h1 := loaded_memory rand bareDrawLoop (by decide) 1 (by decide)
  have he := loaded_eq rand bareDrawLoop (by decide)
  have hpc : (Chip8.loaded rand bareDrawLoop).pc = 0x200 := by rw [he]; rfl
  rw [cycle_at (Chip8.loaded rand bareDrawLoop) 0xD0 0x01 (by omega)
    (by rw [hpc]; exact h0) (by rw [hpc]; exact h1) (by decide)]
  obtain ⟨d1, d2, d3, d4⟩ := decode_draw_one
  have hV : ∀ r, (Chip8.loaded rand bareDrawLoop).V r = 0 := by
    intro r
    rw [he]
    rfl
  have hD : (Chip8.loaded rand bareDrawLoop).display = Display.new 64 32 := by
    rw [he]
    rfl
  have hi : (Chip8.loaded rand bareDrawLoop).index = 0 := by
    rw [he]
    rfl
  have hm : (Chip8.loaded rand bareDrawLoop).memory 0 = 0 := by
    rw [he]
    rfl
  have hplots : ({ Chip8.loaded rand bareDrawLoop with
      pc := (Chip8.loaded rand bareDrawLoop).pc + 2 } : Chip8).drawPlots
        (decode (0xD0 * 256 + 0x01)) = [] := by
    simp only [Chip8.drawPlots, Chip8.drawX, Chip8.drawY, d1, d2, d3, d4, hV, hD, hi]
    show rowPlots 64 32 (Chip8.loaded rand bareDrawLoop).memory 0 0 0 1 0 = _
    simp [rowPlots, colPlots, hm]
  have hrange : ({ Chip8.loaded rand bareDrawLoop with
      pc := (Chip8.loaded rand bareDrawLoop).pc + 2 } : Chip8).drawInRange
        (decode (0xD0 * 256 + 0x01)) = true := by
    simp only [Chip8.drawInRange, hplots]
    simp only [Chip8.drawY, d3, d4, hV, hD, hi]
    show (rowReadsOk 32 0 0 1 0 && _) = true
    decide
  rw [execute_draw _ _ d1, if_pos hrange, hplots, hpc]
  rfl

/-- The program `bareDrawLoop` leaves the display clear for ever. -/
theorem bareDrawLoop_clear (rand : Nat → Nat) (es : List Event) :
    ∃ s1, (Chip8.loaded rand bareDrawLoop).drive (.cycle :: es) = .ok s1 ∧
      ∀ c r, s1.display.pixel c r = false := by
  have h2 := loaded_memory rand bareDrawLoop (by decide) 2 (by decide)
  have h3 := loaded_memory rand bareDrawLoop (by decide) 3 (by decide)
  have he := loaded_eq rand bareDrawLoop (by decide)
  have hl : (Chip8.bareDrawn rand).LoopAt 0x202 0 := by
    refine ⟨rfl, h2, h3, ?_, ?_, ?_⟩
    · show (Chip8.loaded rand bareDrawLoop).display.width = 64
      rw [he]
      rfl
    · show (Chip8.loaded rand bareDrawLoop).display.height = 32
      rw [he]
      rfl
    · intro idx
      show (Chip8.loaded rand bareDrawLoop).display.display idx = _
      rw [he]
      rfl
  obtain ⟨s1, hs1, hl1⟩ := drive_loopAt es _ 0x202 0 (by decide) hl
  refine ⟨s1, ?_, ?_⟩
  · rw [drive_cycle _ _ _ (bareDrawLoop_first rand)]
    exact hs1
  · intro c r
    rw [loopAt_pixel s1 _ _ (by decide) hl1 c r]
    simp

/-- On a machine exactly as constructed the program of the draw `D001` and the
jump to itself cannot supply the sprite: the draw reads the byte at address 0,
which is 0, so pixel `(0, 0)` is clear after the first cycle and after further
cycles and a timer tick. -/
theorem bare_draw_loop_draws_nothing :
    ((Chip8.new (fun _ => 0)).loadROM (some [0xD0, 0x01, 0x12, 0x02])).2 = none ∧
    (∃ s1, (Chip8.loaded (fun _ => 0) [0xD0, 0x01, 0x12, 0x02]).drive [.cycle] = .ok s1 ∧
      s1.display.pixel 0 0 = false) ∧
    (∃ s1, (Chip8.loaded (fun _ => 0) [0xD0, 0x01, 0x12, 0x02]).drive
        [.cycle, .cycle, .tick, .cycle] = .ok s1 ∧
      s1.display.pixel 0 0 = false) := by
  refine ⟨rfl, ?_, ?_⟩
  · obtain ⟨s1, h1, h2⟩ := bareDrawLoop_clear (fun _ => 0) []
    exact ⟨s1, h1, h2 0 0⟩
  · obtain ⟨s1, h1, h2⟩ := bareDrawLoop_clear (fun _ => 0) [.cycle, .tick, .cycle]
    exact ⟨s1, h1, h2 0 0⟩

/-- A program that supplies its own sprite: on a freshly constructed base
machine, `loadROM` accepts the program `A206 D001 1204 FF` (point the index
register at the program's own byte `0xFF`, draw it as an 8x1 sprite at
`(0, 0)`, jump to the jump itself);
its first two cycles succeed, and after them every sequence of further cycles,
timer ticks and keypad writes, in any order, succeeds and leaves a 64x32
display with exactly the pixels `(0, 0)..(7, 0)` set and every other pixel
clear. -/
theorem sprite_loop_display_stable (rand : Nat → Nat) (es : List Event) :
    ((Chip8.new rand).loadROM (some spriteDrawLoop)).2 = none ∧
    ∃ s2 s3, (Chip8.loaded rand spriteDrawLoop).drive [.cycle, .cycle] = .ok s2 ∧
      s2.drive es = .ok s3 ∧ s3.display.width = 64 ∧ s3.display.height = 32 ∧
      ∀ c r, s3.display.pixel c r = decide (r = 0 ∧ c < 8) := by
  obtain ⟨s2, h2, hl2⟩ := spriteDrawLoop_drawn rand
  obtain ⟨s3, h3, hl3⟩ := drive_loopAt es s2 0x204 8 (by decide) hl2
  exact ⟨rfl, s2, s3, h2, h3, hl3.2.2.2.1, hl3.2.2.2.2.1,
    fun c r => loopAt_pixel s3 _ _ (by decide) hl3 c r⟩

/-! ## The disassembler -/

theorem str_append_ne_left (a b : String) (h : a ≠ "") : a ++ b ≠ "" := by
  intro hab
  apply h
  have h1 : (a ++ b).length = 0 := by rw [hab]; rfl
  rw [String.length_append] at h1
  have h2 : a.length = 0 := by omega
  cases a with
  | mk l =>
    have : l.length = 0 := h2
    rw [List.length_eq_zero] at this
    rw [this]

/-- The four nibbles of an instruction word put together with shifts and `|`. -/
theorem nibbles_or (a b c d : Nat) (hb : b < 16) (hc : c < 16) (hd : d < 16) :
    (a <<< 12) ||| (b <<< 8) ||| (c <<< 4) ||| d = a * 4096 + b * 256 + c * 16 + d := by
  have h1 : (c <<< 4) ||| d = c * 16 + d := by
    have h := Nat.mul_add_lt_is_or (i := 4) (b := d) (by omega) c
    rw [Nat.shiftLeft_eq, Nat.mul_comm c (2 ^ 4), ← h]
  have h2 : (b <<< 8) ||| (c * 16 + d) = b * 256 + (c * 16 + d) := by
    have h := Nat.mul_add_lt_is_or (i := 8) (b := c * 16 + d) (by omega) b
    rw [Nat.shiftLeft_eq, Nat.mul_comm b (2 ^ 8), ← h]
  have h3 : (a <<< 12) ||| (b * 256 + (c * 16 + d)) = a * 4096 + (b * 256 + (c * 16 + d)) := by
    have h := Nat.mul_add_lt_is_or (i := 12) (b := b * 256 + (c * 16 + d)) (by omega) a
    rw [Nat.shiftLeft_eq, Nat.mul_comm a (2 ^ 12), ← h]
  rw [Nat.lor_assoc, Nat.lor_assoc, h1, h2, h3]
  omega

theorem hexDigit_zero : hexDigit 0 = '0' := rfl

/-- A value below `0x10000` is written as its four nibbles. -/
theorem hexString_word (v : Nat) (h : v < 65536) :
    hexString v =
      [hexDigit (v / 4096), hexDigit (v / 256 % 16), hexDigit (v / 16 % 16), hexDigit (v % 16)] := by
  unfold hexString
  by_cases h1 : v < 16
  · have e1 : v / 4096 = 0 := by omega
    have e2 : v / 256 % 16 = 0 := by omega
    have e3 : v / 16 % 16 = 0 := by omega
    have e4 : v % 16 = v := by omega
    rw [e1, e2, e3, e4, hexDigit_zero]
    simp [hexDigits, h1]
  · by_cases h2 : v / 16 < 16
    · have e1 : v / 4096 = 0 := by omega
      have e2 : v / 256 % 16 = 0 := by omega
      have e3 : v / 16 % 16 = v / 16 := by omega
      rw [e1, e2, e3, hexDigit_zero]
      simp [hexDigits, h1, h2]
    · by_cases h3 : v / 16 / 16 < 16
      · have e1 : v / 4096 = 0 := by omega
        have e2 : v / 256 % 16 = v / 16 / 16 := by omega
        have e3 : v / 16 % 16 = v / 16 % 16 := rfl
        rw [e1, e2, hexDigit_zero]
        simp [hexDigits, h1, h2, h3]
      · have h4 : v / 16 / 16 / 16 < 16 := by omega
        have e1 : v / 4096 = v / 16 / 16 / 16 := by omega
        have e2 : v / 256 % 16 = v / 16 / 16 % 16 := by omega
        rw [e1, e2]
        simp [hexDigits, h1, h2, h3, h4]

/-- The hex text of an instruction with nibble fields is its four digits. -/
theorem hexText_nibbles (i : Instruction) (ho : i.opcode < 16) (hx : i.x < 16) (hy : i.y < 16)
    (hn : i.n < 16) :
    i.hexText = [hexDigit i.opcode, hexDigit i.x, hexDigit i.y, hexDigit i.n] := by
  unfold Instruction.hexText
  rw [nibbles_or _ _ _ _ hx hy hn, hexString_word _ (by omega)]
  have e1 : (i.opcode * 4096 + i.x * 256 + i.y * 16 + i.n) / 4096 = i.opcode := by omega
  have e2 : (i.opcode * 4096 + i.x * 256 + i.y * 16 + i.n) / 256 % 16 = i.x := by omega
  have e3 : (i.opcode * 4096 + i.x * 256 + i.y * 16 + i.n) / 16 % 16 = i.y := by omega
  have e4 : (i.opcode * 4096 + i.x * 256 + i.y * 16 + i.n) % 16 = i.n := by omega
  rw [e1, e2, e3, e4]

theorem ite_str_ne {c : Prop} [Decidable c] {a b : String} (hb : b ≠ "")
    (ha : c → a ≠ "") : (if c then a else b) ≠ "" := by
  split
  · exact ha (by assumption)
  · exact hb

theorem ite_str_ne_pos {c : Prop} [Decidable c] {a b : String} (hc : c) (ha : a ≠ "") :
    (if c then a else b) ≠ "" := by
  rw [if_pos hc]
  exact ha

theorem disassembleMath_ne (c0 c1 c2 c3 : Char)
    (h : c3 ∈ ['0', '1', '2', '3', '4', '5', '6', '7', 'E']) :
    disassembleMath [c0, c1, c2, c3] ≠ "" := by
  unfold disassembleMath
  dsimp only
  simp only [List.mem_cons, List.mem_singleton, List.not_mem_nil, or_false] at h
  rcases h with h | h | h | h | h | h | h | h | h
  all_goals
    repeat first
      | refine ite_str_ne_pos h ?_
      | refine ite_str_ne ?_ ?_
  all_goals first
    | (intro _; (repeat refine str_append_ne_left _ _ ?_); decide)
    | ((repeat refine str_append_ne_left _ _ ?_); decide)

theorem disassembleKey_ne (c0 c1 c2 c3 : Char) (h : [c2, c3] ∈ [['9', 'E'], ['A', '1']]) :
    disassembleKey [c0, c1, c2, c3] ≠ "" := by
  unfold disassembleKey
  dsimp only
  simp only [List.mem_cons, List.mem_singleton, List.not_mem_nil, or_false] at h
  rcases h with h | h
  all_goals
    repeat first
      | refine ite_str_ne_pos h ?_
      | refine ite_str_ne ?_ ?_
  all_goals first
    | (intro _; (repeat refine str_append_ne_left _ _ ?_); decide)
    | ((repeat refine str_append_ne_left _ _ ?_); decide)

theorem disassembleMisc_ne (c0 c1 c2 c3 : Char)
    (h : [c2, c3] ∈ [['0', '7'], ['0', 'A'], ['1', '5'], ['1', '8'], ['1', 'E'], ['2', '9'],
      ['3', '3'], ['5', '5'], ['6', '5']]) :
    disassembleMisc [c0, c1, c2, c3] ≠ "" := by
  unfold disassembleMisc
  dsimp only
  simp only [List.mem_cons, List.mem_singleton, List.not_mem_nil, or_false] at h
  rcases h with h | h | h | h | h | h | h | h | h
  all_goals
    repeat first
      | refine ite_str_ne_pos h ?_
      | refine ite_str_ne ?_ ?_
  all_goals first
    | (intro _; (repeat refine str_append_ne_left _ _ ?_); decide)
    | ((repeat refine str_append_ne_left _ _ ?_); decide)

theorem disassemble_ne_of_chars (i : Instruction) (c0 c1 c2 c3 : Char)
    (hs : i.hexText = [c0, c1, c2, c3]) (h : MnemonicChars c0 c1 c2 c3) :
    Chip8.disassemble i ≠ "" := by
  unfold Chip8.disassemble
  rw [hs]
  dsimp only
  rcases h with h | h | h | ⟨h, h3⟩ | ⟨h, h3⟩ | ⟨h, h3⟩
  · simp only [List.mem_cons, List.mem_singleton, List.not_mem_nil, or_false] at h
    rcases h with h | h | h | h | h | h | h
    all_goals
      repeat first
        | refine ite_str_ne_pos h ?_
        | refine ite_str_ne ?_ ?_
    all_goals first
      | decide
      | (intro _; decide)
      | (intro _; (repeat refine str_append_ne_left _ _ ?_); decide)
  · repeat first
      | refine ite_str_ne_pos h ?_
      | refine ite_str_ne ?_ ?_
    all_goals first
      | (intro _; decide)
      | ((repeat refine str_append_ne_left _ _ ?_); decide)
  · simp only [List.mem_cons, List.mem_singleton, List.not_mem_nil, or_false] at h
    rcases h with h | h | h | h | h | h | h | h | h | h | h | h
    all_goals
      repeat first
        | refine ite_str_ne_pos h ?_
        | refine ite_str_ne ?_ ?_
    all_goals first
      | (intro _; decide)
      | (intro _; (repeat refine str_append_ne_left _ _ ?_); decide)
      | ((repeat refine str_append_ne_left _ _ ?_); decide)
      | (intro h8; exact absurd (h8.symm.trans h) (by decide))
  · repeat first
      | exact disassembleMath_ne c0 c1 c2 c3 h3
      | refine ite_str_ne_pos h ?_
      | refine ite_str_ne ?_ ?_
    all_goals first
      | (intro _; decide)
      | (intro _; (repeat refine str_append_ne_left _ _ ?_); decide)
  · repeat first
      | exact disassembleKey_ne c0 c1 c2 c3 h3
      | refine ite_str_ne_pos h ?_
      | refine ite_str_ne ?_ ?_
    all_goals first
      | (intro _; decide)
      | (intro _; (repeat refine str_append_ne_left _ _ ?_); decide)
      | (intro h8; exact absurd (h8.symm.trans h) (by decide))
  · repeat first
      | exact disassembleMisc_ne c0 c1 c2 c3 h3
      | refine ite_str_ne_pos h ?_
      | refine ite_str_ne ?_ ?_
    all_goals first
      | (intro _; decide)
      | (intro _; (repeat refine str_append_ne_left _ _ ?_); decide)
      | (intro h8; exact absurd (h8.symm.trans h) (by decide))

theorem listed_chars (i : Instruction) (h : i.Listed) :
    MnemonicChars (hexDigit i.opcode) (hexDigit i.x) (hexDigit i.y) (hexDigit i.n) := by
  obtain ⟨-, -, -, -, h⟩ := h
  unfold MnemonicChars
  rcases h with ⟨ho, hx, h⟩ | ⟨ho, hx, hy⟩ | h | ⟨ho, h⟩ | ⟨ho, h⟩ | ⟨ho, h⟩
  · simp only [List.mem_cons, List.mem_singleton, List.not_mem_nil, or_false,
      Prod.mk.injEq] at h
    rw [ho, hx]
    rcases h with ⟨hy, hn⟩ | ⟨hy, hn⟩ | ⟨hy, hn⟩ | ⟨hy, hn⟩ | ⟨hy, hn⟩ | ⟨hy, hn⟩ | ⟨hy, hn⟩ <;>
      rw [hy, hn] <;> decide
  · rw [ho, hx, hy]
    exact Or.inr (Or.inl rfl)
  · refine Or.inr (Or.inr (Or.inl ?_))
    simp only [List.mem_cons, List.mem_singleton, List.not_mem_nil, or_false] at h
    rcases h with h | h | h | h | h | h | h | h | h | h | h | h <;> rw [h] <;> decide
  · refine Or.inr (Or.inr (Or.inr (Or.inl ⟨by rw [ho]; rfl, ?_⟩)))
    simp only [List.mem_cons, List.mem_singleton, List.not_mem_nil, or_false] at h
    rcases h with h | h | h | h | h | h | h | h | h <;> rw [h] <;> decide
  · refine Or.inr (Or.inr (Or.inr (Or.inr (Or.inl ⟨by rw [ho]; rfl, ?_⟩))))
    simp only [List.mem_cons, List.mem_singleton, List.not_mem_nil, or_false,
      Prod.mk.injEq] at h
    rcases h with ⟨hy, hn⟩ | ⟨hy, hn⟩ <;> rw [hy, hn] <;> decide
  · refine Or.inr (Or.inr (Or.inr (Or.inr (Or.inr ⟨by rw [ho]; rfl, ?_⟩))))
    simp only [List.mem_cons, List.mem_singleton, List.not_mem_nil, or_false,
      Prod.mk.injEq] at h
    rcases h with ⟨hy, hn⟩ | ⟨hy, hn⟩ | ⟨hy, hn⟩ | ⟨hy, hn⟩ | ⟨hy, hn⟩ | ⟨hy, hn⟩ | ⟨hy, hn⟩ |
      ⟨hy, hn⟩ | ⟨hy, hn⟩ <;> rw [hy, hn] <;> decide

/-- Every listed form has a non-empty mnemonic. -/
theorem disassemble_listed_ne_empty (i : Instruction) (h : i.Listed) :
    Chip8.disassemble i ≠ "" :=
  disassemble_ne_of_chars i _ _ _ _ (hexText_nibbles i h.1 h.2.1 h.2.2.1 h.2.2.2.1)
    (listed_chars i h)

/-- The forms `FX30`, `FX75` and `FX85` have the empty mnemonic for every
register `X`. -/
theorem disassemble_rpl_font_empty :
    ∀ x, x < 16 → Chip8.disassemble (decode (0xF030 + 256 * x)) = "" ∧
      Chip8.disassemble (decode (0xF075 + 256 * x)) = "" ∧
      Chip8.disassemble (decode (0xF085 + 256 * x)) = "" := by
  decide

/-- C31, at the extended-only forms `F030`, `F275` and `F285`: `disassemble`
has no branch for them and returns the empty string, while the extended
machine executes them (`F030` sets the index register to `V0 * 10`) and the
other extended-only forms (`00FB`, `00C3`, `D120`) do get a mnemonic. -/
theorem disassemble_misses_extended_forms :
    Chip8.disassemble (decode 0xF030) = "" ∧ Chip8.disassemble (decode 0xF275) = "" ∧
    Chip8.disassemble (decode 0xF285) = "" ∧
    (∃ t, (superWith [3]).execute (decode 0xF030) = .ok t ∧ t.index = 30) ∧
    Chip8.disassemble (decode 0x00FB) = "scroll-right" ∧
    Chip8.disassemble (decode 0x00C3) = "scroll-down 3" ∧
    Chip8.disassemble (decode 0xD120) = "draw (1, 2), height 0" := by
  refine ⟨by decide, by decide, by decide, ⟨_, rfl, by decide⟩, by decide, by decide, by decide⟩

/-! ## Subscripts of the draw -/

/-- C32, at the bottom right corner: with `V0 = 60`, `V1 = 31` and the sprite
byte `0xFF` the instruction `D011` on the 64x32 display reads and writes the
positions `2044..2048`; position `2048 = 64 * 31 + 60 + 4` is outside the pixel
vector of `64 * 32 = 2048` elements, because `x + col >= width` is tested after
the plot.  With `V0 = 0`, `V1 = 31` the instruction `D012` plots its second row
at the positions `2048..2055`. -/
theorem draw_indexes_past_pixel_vector :
    cornerBase.display.width = 64 ∧ cornerBase.display.height = 32 ∧
    cornerBase.display.size = 2048 ∧
    cornerBase.drawPlots (decode 0xD011) = [2044, 2045, 2046, 2047, 2048] ∧
    cornerBase.drawInRange (decode 0xD011) = false ∧
    cornerBase.execute (decode 0xD011) = .error .outOfRange ∧
    bottomBase.drawPlots (decode 0xD012) =
      [1984, 1985, 1986, 1987, 1988, 1989, 1990, 1991,
        2048, 2049, 2050, 2051, 2052, 2053, 2054, 2055] := by
  refine ⟨rfl, rfl, rfl, by decide, by decide, ?_, by decide⟩
  rfl

/-! ## The flag of the 16x16 draw, and the draw loop with its sprite in place -/

/-- C10, at `DXY0` on the extended machine: the display is clear, `VF = 7` and
the 32 sprite bytes are `0xFF`, so no sprite bit of `D010` lands on a set
pixel, yet `VF` is still 7 afterwards: the 16x16 draw sets `VF = 1` on a
collision but never resets it, where `DXYN` starts with `V[0xF] = 0` (the same
state with `D011` ends with `VF = 0`). -/
theorem draw16_keeps_stale_flag :
    staleFlagSuper.V 0xF = 7 ∧ (∀ idx, staleFlagSuper.display.display idx = false) ∧
    staleFlagSuper.V 0 % staleFlagSuper.display.width + 16 ≤ staleFlagSuper.display.width ∧
    staleFlagSuper.V 1 % staleFlagSuper.display.height + 16 ≤ staleFlagSuper.display.height ∧
    staleFlagSuper.index + 32 ≤ 4096 ∧
    (∃ t1, staleFlagSuper.execute (decode 0xD010) = .ok t1 ∧ t1.V 0xF = 7 ∧
      t1.display.pixel 0 0 = true) ∧
    (∃ t2, staleFlagSuper.execute (decode 0xD011) = .ok t2 ∧ t2.V 0xF = 0) := by
  refine ⟨by decide, fun _ => rfl, by decide, by decide, by decide,
    ⟨_, rfl, by decide, by decide⟩, ⟨_, rfl, by decide⟩⟩

end Chip8Emu
